import Mathlib

/-!
# Chatty: a verification development

Shallow embedding of the user registry (userlib.c), the bounded message
history (msgqueue.c), the ring-buffer work queue (queuelib.c), the request
engine and the dispatcher / worker loops (chatty.c), the wire codec
(connections.c) and the reader of the configuration file (parser.c),
followed by the theorems that settle the specification claims.

Conventions of the embedding.

* C strings (nicknames) are values of type String; payload buffers are
  lists of bytes (natural numbers below 256).
* Pointers to heap records are replaced by the records themselves; a
  singly linked list is the list of its nodes from head to tail.
* Allocation never fails.
* Machine integers are natural numbers or integers with the wrap-around
  written out where it can happen.
-/

namespace Chatty

/-! ## Messages (message.h) -/

/-- Modelled from the spec: the header ops.h, which declares the operation
codes, is not among the sources.  The constructors are the codes listed in
section 6 of the specification; OTHER stands for every integer that is none
of them. -/
inductive op_t where
  | REGISTER_OP
  | CONNECT_OP
  | POSTTXT_OP
  | POSTTXTALL_OP
  | POSTFILE_OP
  | GETFILE_OP
  | GETPREVMSGS_OP
  | USRLIST_OP
  | UNREGISTER_OP
  | DISCONNECT_OP
  | TXT_MESSAGE
  | FILE_MESSAGE
  | OP_OK
  | OP_FAIL
  | OP_NICK_ALREADY
  | OP_NICK_UNKNOWN
  | OP_MSG_TOOLONG
  | OP_NO_SUCH_FILE
  | OTHER (code : Nat)
  deriving DecidableEq, Repr

/-- The type message_t of message.h, flattened: header (op, sender) and data
part (receiver, len, buf).  The field len is the unsigned 32-bit length sent
on the wire, buf the bytes the pointer data.buf refers to. -/
structure message_t where
  op : op_t
  sender : String
  receiver : String
  len : Nat
  buf : List Nat
  deriving DecidableEq, Repr

/-- The libc function strncpy(dst, src, n), returning the n bytes written to
dst: the bytes of src up to (not including) its first NUL byte, at most n of
them, then NUL padding up to n bytes.  The end of the list src is read as a
NUL byte. -/
def strncpy (src : List Nat) (n : Nat) : List Nat :=
  let s := (src.takeWhile (fun c => decide (c ≠ 0))).take n
  s ++ List.replicate (n - s.length) 0

/-! ## Bounded message history (msgqueue.c) -/

/-- The type msgqueue_t: the fields size and dim_max, and the chain of nodes
from head to tail (each node holding its own copy of a message). -/
structure msgqueue_t where
  size : Nat
  dim_max : Nat
  nodes : List message_t
  deriving DecidableEq, Repr

/-- The function createMsgQueue(dim) of msgqueue.c: a dim below 1 is raised
to 1, size is 0, dim_max is dim+1, head and tail are NULL. -/
def createMsgQueue (dim : Int) : msgqueue_t :=
  let dim := if dim < 1 then 1 else dim
  { size := 0, dim_max := (dim + 1).toNat, nodes := [] }

/-- The function createMsgNode of msgqueue.c: the message held by the new
node.  The payload is a fresh buffer of len bytes filled by
strncpy(buf, msgtocpy->data.buf, len); op, sender and receiver are set by
setHeader and setData. -/
def createMsgNode (msgtocpy : message_t) : message_t :=
  { op := msgtocpy.op
    sender := msgtocpy.sender
    receiver := msgtocpy.receiver
    len := msgtocpy.len
    buf := strncpy msgtocpy.buf msgtocpy.len }

/-- The function pushMsgQueue of msgqueue.c, for non-NULL arguments: the
queue after the call and the returned code (always 0, the node allocation
cannot fail here). -/
def pushMsgQueue (queue : msgqueue_t) (msgtocpy : message_t) : msgqueue_t × Int :=
  let new := createMsgNode msgtocpy
  match queue.nodes with
  | [] => ({ queue with nodes := [new], size := queue.size + 1 }, 0)
  | _ :: _ =>
    let linked := queue.nodes ++ [new]
    if queue.size < queue.dim_max then
      ({ queue with nodes := linked, size := queue.size + 1 }, 0)
    else if queue.size = queue.dim_max then
      ({ queue with nodes := linked.tail }, 0)
    else
      ({ queue with nodes := linked }, 0)

/-- Successive calls of pushMsgQueue, one per message of the list, in
order. -/
def pushAll (queue : msgqueue_t) (msgs : List message_t) : msgqueue_t :=
  msgs.foldl (fun q m => (pushMsgQueue q m).1) queue

/-- A payload on which the strncpy of createMsgNode is the identity: the
buffer has exactly len bytes and every byte after the first NUL is NUL. -/
def textPayload (m : message_t) : Prop :=
  m.buf.length = m.len ∧
    m.buf.dropWhile (fun c => decide (c ≠ 0)) = List.replicate (m.len - (m.buf.takeWhile (fun c => decide (c ≠ 0))).length) 0

instance (m : message_t) : Decidable (textPayload m) := by
  unfold textPayload; exact inferInstance

/-! ## Hash tables (icl_hash) -/

/-- Modelled from the spec: the hash table used by userlib.c (icl_hash.h and
icl_hash.c) is not among the sources, and the specification treats it as a
plain key-to-value mapping.  A table is the list of its entries, keys compared
by equality (string_compare).  The result conventions are the ones the callers
in userlib.c test for: find yields NULL for an absent key, insert yields NULL
and changes nothing when the key is already present, delete yields 0 when an
entry was removed and -1 when there was none. -/
abbrev icl_hash_t (κ ν : Type) := List (κ × ν)

/-- Modelled from the spec: icl_hash_find, the value stored under key, or
none (NULL) when the key is absent. -/
def icl_hash_find {κ ν : Type} [DecidableEq κ] : icl_hash_t κ ν → κ → Option ν
  | [], _ => none
  | (k, v) :: t, key => if k = key then some v else icl_hash_find t key

/-- Modelled from the spec: icl_hash_insert, which refuses a key that is
already present (returns NULL, here false, and leaves the table alone) and
otherwise adds the entry (returns the new entry, here true). -/
def icl_hash_insert {κ ν : Type} [DecidableEq κ] (ht : icl_hash_t κ ν) (key : κ) (data : ν) :
    icl_hash_t κ ν × Bool :=
  match icl_hash_find ht key with
  | some _ => (ht, false)
  | none => ((key, data) :: ht, true)

/-- Modelled from the spec: icl_hash_delete, which removes the entry stored
under key and returns 0, or returns -1 when there is no such entry. -/
def icl_hash_delete {κ ν : Type} [DecidableEq κ] : icl_hash_t κ ν → κ → icl_hash_t κ ν × Int
  | [], _ => ([], -1)
  | (k, v) :: t, key =>
    if k = key then (t, 0)
    else ((k, v) :: (icl_hash_delete t key).1, (icl_hash_delete t key).2)

/-- Assignment through the pointer returned by icl_hash_find: the value
stored under key is replaced by its image under f. -/
def icl_hash_modify {κ ν : Type} [DecidableEq κ] : icl_hash_t κ ν → κ → (ν → ν) → icl_hash_t κ ν
  | [], _, _ => []
  | (k, v) :: t, key, f =>
    if k = key then (k, f v) :: t else (k, v) :: icl_hash_modify t key f

/-! ## User registry (userlib.c) -/

/-- The value (unsigned long)-1 that the field fd of a user record holds
while the user is offline (unsigned long is 64 bits wide). -/
def OFFLINE : Nat := 2 ^ 64 - 1

/-- Conversion of an unsigned value to the 32-bit type int. -/
def toInt32 (n : Nat) : Int :=
  if n % 2 ^ 32 < 2 ^ 31 then ((n % 2 ^ 32 : Nat) : Int) else ((n % 2 ^ 32 : Nat) : Int) - 2 ^ 32

/-- Conversion of an int to unsigned long. -/
def toULong (i : Int) : Nat := (i % 2 ^ 64).toNat

/-- The type user_data_t of userlib.h. -/
structure user_data_t where
  name : String
  fd : Nat
  msgq : msgqueue_t
  deriving DecidableEq, Repr

/-- The type users_struct_t of userlib.h without its mutex.  The table users
maps a nickname to its record; the table fdusr maps a file descriptor to a
nickname (the C code keys it by the decimal rendering of the descriptor, which
names the descriptor uniquely, and stores a pointer to the name field of the
record); usersOnline is an unsigned int. -/
structure users_struct_t where
  users : icl_hash_t String user_data_t
  fdusr : icl_hash_t Nat String
  historysize : Nat
  usersOnline : Nat
  deriving DecidableEq, Repr

/-- The function createUsersStruct of userlib.c (the bucket count plays no
part in the embedding). -/
def createUsersStruct (historysize : Nat) (_nbuckets : Nat) : users_struct_t :=
  let historysize := if historysize < 1 then 1 else historysize
  { users := [], fdusr := [], historysize := historysize % 2 ^ 32, usersOnline := 0 }

/-- The function registerUser of userlib.c: the registry after the call and
the returned code.  Nicknames are C strings of at most MAX_NAME_LENGTH
characters, so the strncpy into the record copies them whole. -/
def registerUser (tab : users_struct_t) (nick : String) (fd : Nat) : users_struct_t × Int :=
  match icl_hash_find tab.users nick with
  | none =>
    let data : user_data_t :=
      { name := nick, fd := fd, msgq := createMsgQueue (toInt32 tab.historysize) }
    let entry1 := icl_hash_insert tab.users data.name data
    let ret : Int := if entry1.2 then -1 else -2
    let entry2 := icl_hash_insert tab.fdusr fd data.name
    let ret : Int := if entry2.2 then 0 else ret
    ({ tab with users := entry1.1, fdusr := entry2.1,
                usersOnline := (tab.usersOnline + 1) % 2 ^ 32 }, ret)
  | some _ => (tab, -1)

/-- The function connectUser of userlib.c. -/
def connectUser (tab : users_struct_t) (nick : String) (fd : Nat) : users_struct_t × Int :=
  match icl_hash_find tab.users nick with
  | some user =>
    if user.fd = OFFLINE then
      let users := icl_hash_modify tab.users nick (fun u => { u with fd := fd })
      let entry := icl_hash_insert tab.fdusr fd user.name
      ({ tab with users := users, fdusr := entry.1,
                  usersOnline := (tab.usersOnline + 1) % 2 ^ 32 },
        if entry.2 then 0 else -1)
    else (tab, -2)
  | none => (tab, -1)

/-- The function unregisterUser of userlib.c; its parameter fd has type
int. -/
def unregisterUser (tab : users_struct_t) (nick : String) (fd : Int) : users_struct_t × Int :=
  match icl_hash_find tab.users nick with
  | some _ =>
    let users := icl_hash_modify tab.users nick (fun u => { u with fd := OFFLINE })
    let del1 := icl_hash_delete users nick
    let ret : Int := if del1.2 = 0 then 0 else -1
    let del2 := icl_hash_delete tab.fdusr (toULong fd)
    let ret : Int := if del2.2 = 0 then 0 else ret
    ({ tab with users := del1.1, fdusr := del2.1,
                usersOnline := (tab.usersOnline + 2 ^ 32 - 1) % 2 ^ 32 }, ret)
  | none => (tab, -1)

/-- The function disconnectUser of userlib.c; nick is none for the NULL
pointer (implicit disconnection).  A NULL key is found in no table. -/
def disconnectUser (tab : users_struct_t) (nick : Option String) (fd : Nat) :
    users_struct_t × Int :=
  let nick : Option String :=
    match nick with
    | none => icl_hash_find tab.fdusr fd
    | some n => some n
  let user : Option user_data_t :=
    match nick with
    | none => none
    | some n => icl_hash_find tab.users n
  match nick, user with
  | some n, some u =>
    if u.fd ≠ OFFLINE then
      let users := icl_hash_modify tab.users n (fun u => { u with fd := OFFLINE })
      let del := icl_hash_delete tab.fdusr fd
      ({ tab with users := users, fdusr := del.1,
                  usersOnline := (tab.usersOnline + 2 ^ 32 - 1) % 2 ^ 32 }, del.2)
    else (tab, -1)
  | _, _ => (tab, -2)

/-- The function getHistory of userlib.c: none is the NULL result. -/
def getHistory (tab : users_struct_t) (nick : String) : Option msgqueue_t :=
  match icl_hash_find tab.users nick with
  | some user => some (pushAll (createMsgQueue (toInt32 user.msgq.size)) user.msgq.nodes)
  | none => none

/-- The function getUserFD of userlib.c; the result has type int. -/
def getUserFD (tab : users_struct_t) (nick : String) : Int :=
  match icl_hash_find tab.users nick with
  | some user => if user.fd ≠ OFFLINE then toInt32 user.fd else 0
  | none => -1

/-- The function postOnHistory of userlib.c. -/
def postOnHistory (tab : users_struct_t) (msg : message_t) : users_struct_t × Int :=
  match icl_hash_find tab.users msg.receiver with
  | some user =>
    let r := pushMsgQueue user.msgq msg
    ({ tab with users := icl_hash_modify tab.users msg.receiver (fun u => { u with msgq := r.1 }) },
      if r.2 = 0 then 0 else -1)
  | none => (tab, -1)

/-- Number of user records whose fd is not the offline value. -/
def onlineRecords (tab : users_struct_t) : Nat :=
  (tab.users.filter (fun e => decide (e.2.fd ≠ OFFLINE))).length

/-- One call of the registry interface. -/
inductive RegOp where
  | register (nick : String) (fd : Nat)
  | connect (nick : String) (fd : Nat)
  | disconnect (nick : Option String) (fd : Nat)
  | unregister (nick : String) (fd : Int)
  deriving DecidableEq, Repr

/-- Effect of one registry call on the registry. -/
def RegOp.run (tab : users_struct_t) : RegOp → users_struct_t
  | .register nick fd => (registerUser tab nick fd).1
  | .connect nick fd => (connectUser tab nick fd).1
  | .disconnect nick fd => (disconnectUser tab nick fd).1
  | .unregister nick fd => (unregisterUser tab nick fd).1

/-- Effect of a sequence of registry calls, first to last. -/
def runOps (tab : users_struct_t) (ops : List RegOp) : users_struct_t :=
  ops.foldl RegOp.run tab

/-! ## Configuration and statistics -/

/-- The type conf_var of parser.h; the numeric fields have type int. -/
structure conf_var where
  UnixPath : String
  MaxConnections : Int
  ThreadsInPool : Int
  MaxMsgSize : Int
  MaxFileSize : Int
  MaxHistMsgs : Int
  DirName : String
  StatFileName : String
  deriving DecidableEq, Repr

/-- Modelled from the spec: the header stats.h, which declares struct
statistics, is not among the sources.  The seven counters of the specification
(registered users, currently online, text delivered, text not delivered, files
delivered, files not delivered, errors) under the names chatty.c uses for
them, each an unsigned long (64 bits). -/
structure statistics where
  nusers : Nat
  nonline : Nat
  ndelivered : Nat
  nnotdelivered : Nat
  nfiledelivered : Nat
  nfilenotdelivered : Nat
  nerrors : Nat
  deriving DecidableEq, Repr

/-- The statement x += d for an unsigned long x and an int d. -/
def addULong (x : Nat) (d : Int) : Nat := (((x : Int) + d) % 2 ^ 64).toNat

/-- The function updateStats of chatty.c. -/
def updateStats (s : statistics) (reg conn del ndel fdel fndel err : Int) : statistics :=
  { nusers := addULong s.nusers reg
    nonline := addULong s.nonline conn
    ndelivered := addULong s.ndelivered del
    nnotdelivered := addULong s.nnotdelivered ndel
    nfiledelivered := addULong s.nfiledelivered fdel
    nfilenotdelivered := addULong s.nfilenotdelivered fndel
    nerrors := addULong s.nerrors err }

/-- Every counter is a value of type unsigned long. -/
def statistics.inRange (s : statistics) : Prop :=
  s.nusers < 2 ^ 64 ∧ s.nonline < 2 ^ 64 ∧ s.ndelivered < 2 ^ 64 ∧ s.nnotdelivered < 2 ^ 64 ∧
    s.nfiledelivered < 2 ^ 64 ∧ s.nfilenotdelivered < 2 ^ 64 ∧ s.nerrors < 2 ^ 64

instance (s : statistics) : Decidable s.inRange := by
  unfold statistics.inRange; exact inferInstance

/-! ## Wire codec, sending side (connections.c) -/

/-- What one call of sendHeader or sendData is asked to write: a message
header (the operation code is none when the header was never set) or a data
part. -/
inductive Wire where
  | hdr (op : Option op_t) (sender : String)
  | data (receiver : String) (len : Nat) (buf : List Nat)
  deriving DecidableEq, Repr

/-- One entry of the log of writes: the descriptor written to, what was to be
written and whether the write went through. -/
structure Sent where
  fd : Int
  item : Wire
  ok : Bool
  deriving DecidableEq, Repr

/-- The state the request engine works on: the registry usr, the counters
chattyStats and the log of the writes made so far, oldest first. -/
structure Server where
  usr : users_struct_t
  chattyStats : statistics
  out : List Sent
  deriving DecidableEq, Repr

/-- The function sendHeader of connections.c.  The environment io tells, for
the n-th write call of the run, whether writen gets all bytes out; the result
is 1 then and -1 otherwise. -/
def sendHeader (io : Nat → Bool) (fd : Int) (op : Option op_t) (sender : String) (s : Server) :
    Server × Int :=
  let ok := io s.out.length
  ({ s with out := s.out ++ [⟨fd, Wire.hdr op sender, ok⟩] }, if ok then 1 else -1)

/-- The function sendData of connections.c, result 1 or -1. -/
def sendData (io : Nat → Bool) (fd : Int) (receiver : String) (len : Nat) (buf : List Nat)
    (s : Server) : Server × Int :=
  let ok := io s.out.length
  ({ s with out := s.out ++ [⟨fd, Wire.data receiver len buf, ok⟩] }, if ok then 1 else -1)

/-- The function sendRequest of connections.c: header, then data, stopping at
the first failure. -/
def sendRequest (io : Nat → Bool) (fd : Int) (msg : message_t) (s : Server) : Server × Int :=
  let r := sendHeader io fd (some msg.op) msg.sender s
  if r.2 = -1 then (r.1, -1)
  else
    let r := sendData io fd msg.receiver msg.len msg.buf r.1
    if r.2 = -1 then (r.1, -1) else (r.1, 1)

/-! ## Request engine (chatty.c) -/

/-- The tail of the case POSTTXT_OP of executeReq: the reply header is sent
to the requesting descriptor and the function returns -1 when that fails and 0
(the return after the switch) otherwise. -/
def sendReply (io : Nat → Bool) (fd : Int) (reply : Option op_t) (s : Server) : Server × Int :=
  let r := sendHeader io fd reply "" s
  if r.2 ≤ 0 then (r.1, -1) else (r.1, 0)

/-- The function executeReq of chatty.c on a request whose operation code is
POSTTXT_OP: the check of the sender at the head of the function, then the case
POSTTXT_OP of the switch.  The reply header is a local variable that is not
initialised: reply none is the header never set. -/
def executeReq_POSTTXT_OP (config : conf_var) (io : Nat → Bool) (fd : Int) (msg : message_t)
    (s : Server) : Server × Int :=
  if msg.sender = "" then
    ((sendHeader io fd (some op_t.OP_FAIL) "" s).1, -1)
  else
    let len : Int := toInt32 msg.len
    if len > config.MaxMsgSize then
      let s := { s with chattyStats := updateStats s.chattyStats 0 0 0 0 0 0 1 }
      let r := sendHeader io fd (some op_t.OP_MSG_TOOLONG) "" s
      if r.2 ≤ 0 then (r.1, -1) else (r.1, 0)
    else
      let receiver_fd := getUserFD s.usr msg.receiver
      if receiver_fd ≥ 0 then
        let msg := { msg with op := op_t.TXT_MESSAGE }
        let p := postOnHistory s.usr msg
        if p.2 = 0 then
          let s := { s with usr := p.1, chattyStats := updateStats s.chattyStats 0 0 0 1 0 0 0 }
          if receiver_fd ≠ 0 then
            let new : message_t :=
              { op := msg.op, sender := msg.sender, receiver := msg.receiver, len := msg.len,
                buf := strncpy msg.buf msg.len }
            let r := sendRequest io receiver_fd new s
            if r.2 = 1 then
              sendReply io fd (some op_t.OP_OK)
                { r.1 with chattyStats := updateStats r.1.chattyStats 0 0 1 (-1) 0 0 0 }
            else sendReply io fd (some op_t.OP_OK) r.1
          else sendReply io fd (some op_t.OP_OK) s
        else ({ s with usr := p.1 }, -1)
      else if receiver_fd = -1 then
        sendReply io fd (some op_t.OP_NICK_UNKNOWN)
          { s with chattyStats := updateStats s.chattyStats 0 0 0 0 0 0 1 }
      else sendReply io fd none s

/-- Modelled from the spec: the header config.h, which defines
MAX_NAME_LENGTH, is not among the sources; the specification leaves the value
open and 32 is taken here. -/
def MAX_NAME_LENGTH : Nat := 32

/-- The bytes of a C string (without the closing NUL), one per character. -/
def bytesOf (s : String) : List Nat := s.toList.map Char.toNat

/-- The function getOnlineList of userlib.c: the bytes written to the buffer
and the returned count.  The buffer is allocated for usersOnline slots of
MAX_NAME_LENGTH+1 bytes; the loop over the table users (in the order of the
table) fills one slot, by strncpy, for each record whose fd is not the offline
value; the result is usersOnline as an int. -/
def getOnlineList (tab : users_struct_t) : List Nat × Int :=
  ((tab.users.filter (fun e => decide (e.2.fd ≠ OFFLINE))).flatMap
      (fun e => strncpy (bytesOf e.2.name) (MAX_NAME_LENGTH + 1)),
    toInt32 tab.usersOnline)

/-- The loop of postOnHistoryAll over the entries of the table users: the
entries after the loop, the counter ret and the flag fail. -/
def postOnHistoryAll_loop (msg : message_t) :
    List (String × user_data_t) → Int → Bool → List (String × user_data_t) × Int × Bool
  | [], ret, fail => ([], ret, fail)
  | e :: rest, ret, fail =>
    if e.2.name ≠ msg.sender then
      let p := pushMsgQueue e.2.msgq msg
      let r := postOnHistoryAll_loop msg rest (if p.2 = 0 then ret + 1 else ret)
        (if p.2 = 0 then fail else true)
      ((e.1, { e.2 with msgq := p.1 }) :: r.1, r.2)
    else
      let r := postOnHistoryAll_loop msg rest ret fail
      (e :: r.1, r.2)

/-- The function postOnHistoryAll of userlib.c. -/
def postOnHistoryAll (tab : users_struct_t) (msg : message_t) : users_struct_t × Int :=
  let r := postOnHistoryAll_loop msg tab.users 0 false
  ({ tab with users := r.1 }, if r.2.2 then -1 else r.2.1)

/-- The bytes of a list before its first NUL byte (all of them when it holds
none). -/
def cstr (buf : List Nat) : List Nat := buf.takeWhile (fun c => decide (c ≠ 0))

/-- The C string that strrchr, strlen and strncat read at msg.data.buf, the
buffer being as readData leaves it: the NULL pointer when len is 0, a block of
exactly len bytes otherwise (the first len elements of the list buf).  The
result is none when that read is undefined: the pointer is NULL, or none of
the len bytes is NUL and the read runs past the end of the block. -/
def bufString (msg : message_t) : Option (List Nat) :=
  if msg.len = 0 then none
  else if 0 ∈ msg.buf.take msg.len then some (cstr (msg.buf.take msg.len))
  else none

/-- The call strrchr(s, '/') on a C string followed by the increment of the
pointer: the string after the last '/' (byte 47), none when the result of
strrchr is NULL. -/
def strrchr_slash : List Nat → Option (List Nat)
  | [] => none
  | c :: rest =>
    match strrchr_slash rest with
    | some r => some r
    | none => if c = 47 then some rest else none

/-- The path built in the case POSTFILE_OP of executeReq (chatty.c): DirName,
then "/", then either the string after the last '/' of the proposed name
(strncat with the length of that string) or, when the name has no '/', the
name itself (strncat with bound msg.data.hdr.len).  The result is none when
the name buffer holds no C string (strrchr then reads through NULL or past
the block). -/
def postfilePath (DirName : String) (msg : message_t) : Option (List Nat) :=
  match bufString msg with
  | none => none
  | some name =>
    match strrchr_slash name with
    | some bslash => some (bytesOf DirName ++ [47] ++ bslash)
    | none => some (bytesOf DirName ++ [47] ++ name.take msg.len)

/-- The path built in the case GETFILE_OP of executeReq: DirName, then "/",
then the name in msg.data.buf read as a C string.  The result is none when
the name buffer holds no C string (strlen then reads through NULL or past the
block). -/
def getfilePath (DirName : String) (msg : message_t) : Option (List Nat) :=
  match bufString msg with
  | none => none
  | some name => some (bytesOf DirName ++ [47] ++ name)

/-- The part of a file name after its last '/', or the whole name when it
contains none, in the words of the specification ("basename"). -/
def specBasename (name : List Nat) : List Nat :=
  (name.reverse.takeWhile (fun c => decide (c ≠ 47))).reverse

/-- What the case POSTFILE_OP finds outside the server: the second data
block as readData leaves it in the local variable (its length field and its
bytes), whether fopen of a given path for writing succeeds, and whether fwrite
writes the whole block. -/
structure FileEnv where
  block_len : Nat
  block_buf : List Nat
  fopenOk : List Nat → Bool
  fwriteOk : Bool

/-- The function executeReq of chatty.c on a request whose operation code is
REGISTER_OP: the check of the sender, then the case REGISTER_OP.  The int fd
is converted to unsigned long for registerUser. -/
def executeReq_REGISTER_OP (io : Nat → Bool) (fd : Int) (msg : message_t) (s : Server) :
    Server × Int :=
  if msg.sender = "" then
    ((sendHeader io fd (some op_t.OP_FAIL) "" s).1, -1)
  else
    let r := registerUser s.usr msg.sender (toULong fd)
    if r.2 = 0 then
      let s := { s with usr := r.1, chattyStats := updateStats s.chattyStats 1 1 0 0 0 0 0 }
      let l := getOnlineList s.usr
      let nOnline := l.2
      let h := sendHeader io fd (some op_t.OP_OK) "" s
      if h.2 ≤ 0 then (h.1, -1)
      else if nOnline ≥ 0 then
        let d := sendData io fd "" ((nOnline * ((MAX_NAME_LENGTH : Int) + 1)) % 2 ^ 32).toNat l.1 h.1
        if d.2 ≤ 0 then (d.1, -1) else (d.1, 0)
      else (h.1, 0)
    else
      let s := { s with usr := r.1, chattyStats := updateStats s.chattyStats 0 0 0 0 0 0 1 }
      let h := sendHeader io fd (some op_t.OP_NICK_ALREADY) "" s
      if h.2 ≤ 0 then (h.1, -1) else (h.1, 0)

/-- The function executeReq of chatty.c on a request whose operation code is
DISCONNECT_OP: the check of the sender, then the case DISCONNECT_OP, which
calls disconnectUser(usr, msg.hdr.sender, 0). -/
def executeReq_DISCONNECT_OP (io : Nat → Bool) (fd : Int) (msg : message_t) (s : Server) :
    Server × Int :=
  if msg.sender = "" then
    ((sendHeader io fd (some op_t.OP_FAIL) "" s).1, -1)
  else
    let r := disconnectUser s.usr (some msg.sender) 0
    if r.2 = 0 then
      sendReply io fd (some op_t.OP_OK)
        { s with usr := r.1, chattyStats := updateStats s.chattyStats 0 (-1) 0 0 0 0 0 }
    else
      sendReply io fd (some op_t.OP_NICK_UNKNOWN)
        { s with usr := r.1, chattyStats := updateStats s.chattyStats 0 0 0 0 0 0 1 }

/-- The function executeReq of chatty.c on a request whose operation code is
POSTFILE_OP: the check of the sender, then the case POSTFILE_OP.  The result
of readData is not looked at; the length of the block is converted to int and
divided by 1024 with the truncating division of C.  The result is none when
the behaviour of the C code is undefined, which is the case when the size
check passes and the name buffer holds no C string (see postfilePath). -/
def executeReq_POSTFILE_OP (config : conf_var) (io : Nat → Bool) (env : FileEnv) (fd : Int)
    (msg : message_t) (s : Server) : Option (Server × Int) :=
  if msg.sender = "" then
    some ((sendHeader io fd (some op_t.OP_FAIL) "" s).1, -1)
  else
    let len : Int := toInt32 env.block_len
    if Int.tdiv len 1024 > config.MaxFileSize then
      some (sendReply io fd (some op_t.OP_MSG_TOOLONG)
        { s with chattyStats := updateStats s.chattyStats 0 0 0 0 0 0 1 })
    else
      (postfilePath config.DirName msg).map (fun filep =>
        if env.fopenOk filep then
          if !env.fwriteOk then (s, -1)
          else
            let receiver_fd := getUserFD s.usr msg.receiver
            if receiver_fd ≥ 0 then
              let msg := { msg with op := op_t.FILE_MESSAGE }
              let p := postOnHistory s.usr msg
              let reply : Option op_t := if p.2 = 0 then some op_t.OP_OK else none
              let s :=
                if p.2 = 0 then
                  { s with usr := p.1, chattyStats := updateStats s.chattyStats 0 0 0 0 0 1 0 }
                else { s with usr := p.1 }
              if receiver_fd ≠ 0 then
                let r := sendRequest io receiver_fd msg s
                if r.2 = 1 then
                  sendReply io fd reply
                    { r.1 with chattyStats := updateStats r.1.chattyStats 0 0 0 0 1 (-1) 0 }
                else sendReply io fd reply r.1
              else sendReply io fd reply s
            else if receiver_fd = -1 then
              sendReply io fd (some op_t.OP_NICK_UNKNOWN)
                { s with chattyStats := updateStats s.chattyStats 0 0 0 0 0 0 1 }
            else sendReply io fd none s
        else (s, -1))

/-- The function getAllUsersFD of userlib.c: the descriptors the loop writes
to the array, in the order of the table users (one for each record whose name
differs from nick and whose fd is not the offline value, converted to int),
and the returned count, usersOnline - 1 in unsigned arithmetic converted to
int.  The array is allocated for as many ints as the returned count. -/
def getAllUsersFD (tab : users_struct_t) (nick : String) : List Int × Int :=
  ((tab.users.filter
      (fun e => decide (e.2.name ≠ nick) && decide (e.2.fd ≠ OFFLINE))).map
      (fun e => toInt32 e.2.fd),
    toInt32 ((tab.usersOnline + 2 ^ 32 - 1) % 2 ^ 32))

/-- The function executeReq on a request whose operation code is CONNECT_OP:
the check of the sender, then the case CONNECT_OP. -/
def executeReq_CONNECT_OP (io : Nat → Bool) (fd : Int) (msg : message_t) (s : Server) :
    Server × Int :=
  if msg.sender = "" then
    ((sendHeader io fd (some op_t.OP_FAIL) "" s).1, -1)
  else
    let r := connectUser s.usr msg.sender (toULong fd)
    if r.2 = 0 then
      let s := { s with usr := r.1, chattyStats := updateStats s.chattyStats 0 1 0 0 0 0 0 }
      let l := getOnlineList s.usr
      let nOnline := l.2
      let h := sendHeader io fd (some op_t.OP_OK) "" s
      if h.2 ≤ 0 then (h.1, -1)
      else if nOnline ≥ 0 then
        let d := sendData io fd "" ((nOnline * ((MAX_NAME_LENGTH : Int) + 1)) % 2 ^ 32).toNat l.1 h.1
        if d.2 ≤ 0 then (d.1, -1) else (d.1, 0)
      else (h.1, 0)
    else
      let s := { s with usr := r.1, chattyStats := updateStats s.chattyStats 0 0 0 0 0 0 1 }
      let reply : Option op_t :=
        if r.2 = -2 then some op_t.OP_NICK_ALREADY
        else if r.2 = -1 then some op_t.OP_NICK_UNKNOWN else none
      let h := sendHeader io fd reply "" s
      if h.2 ≤ 0 then (h.1, -1) else (h.1, 0)

/-- The loop of the case POSTTXTALL_OP over the descriptors fdlist[0] ..
fdlist[nOnline-1]: one sendRequest each, and one more delivered message in
the statistics for each sendRequest that returns 1. -/
def sendToAll (io : Nat → Bool) (new : message_t) : List Int → Server → Server
  | [], s => s
  | f :: rest, s =>
    let r := sendRequest io f new s
    sendToAll io new rest
      (if r.2 = 1 then { r.1 with chattyStats := updateStats r.1.chattyStats 0 0 1 0 0 0 0 }
       else r.1)

/-- The function executeReq on a request whose operation code is
POSTTXTALL_OP.  The array fdlist holds the descriptors written by
getAllUsersFD; an element that was never written has the indeterminate value
garbage i. -/
def executeReq_POSTTXTALL_OP (config : conf_var) (io : Nat → Bool) (garbage : Nat → Int)
    (fd : Int) (msg : message_t) (s : Server) : Server × Int :=
  if msg.sender = "" then
    ((sendHeader io fd (some op_t.OP_FAIL) "" s).1, -1)
  else
    let len : Int := toInt32 msg.len
    if len > config.MaxMsgSize then
      sendReply io fd (some op_t.OP_MSG_TOOLONG)
        { s with chattyStats := updateStats s.chattyStats 0 0 0 0 0 0 1 }
    else
      let msg := { msg with op := op_t.TXT_MESSAGE }
      let p := postOnHistoryAll s.usr msg
      let nposted := p.2
      if nposted ≥ 0 then
        let s := { s with usr := p.1, chattyStats := updateStats s.chattyStats 0 0 0 nposted 0 0 0 }
        let l := getAllUsersFD s.usr msg.sender
        let nOnline := l.2
        let s :=
          if nOnline ≥ 0 then
            let new : message_t :=
              { op := msg.op, sender := msg.sender, receiver := msg.receiver, len := msg.len,
                buf := strncpy msg.buf msg.len }
            sendToAll io new
              ((List.range nOnline.toNat).map (fun i => (l.1.get? i).getD (garbage i))) s
          else s
        sendReply io fd (some op_t.OP_OK) s
      else ({ s with usr := p.1 }, -1)

/-- What the case GETFILE_OP finds outside the server: whether open of a
given path succeeds, whether stat succeeds on a regular file, the value of
st.st_size, whether mmap succeeds and the bytes it maps. -/
structure GetEnv where
  openOk : List Nat → Bool
  statReg : Bool
  st_size : Nat
  mmapOk : Bool
  filem : List Nat

/-- The function executeReq on a request whose operation code is GETFILE_OP.
After a failed stat test the function goes on to mmap (the branch has no
return on success of its sendHeader).  The result is none when the behaviour
of the C code is undefined: the name buffer holds no C string (see
getfilePath). -/
def executeReq_GETFILE_OP (config : conf_var) (io : Nat → Bool) (env : GetEnv) (fd : Int)
    (msg : message_t) (s : Server) : Option (Server × Int) :=
  if msg.sender = "" then
    some ((sendHeader io fd (some op_t.OP_FAIL) "" s).1, -1)
  else
    (getfilePath config.DirName msg).map (fun filep =>
      if !env.openOk filep then
        let h := sendHeader io fd (some op_t.OP_NO_SUCH_FILE) "" s
        if h.2 ≤ 0 then (h.1, -1) else (h.1, 0)
      else
        let h :=
          if !env.statReg then
            sendHeader io fd (some op_t.OP_NO_SUCH_FILE) ""
              { s with chattyStats := updateStats s.chattyStats 0 0 0 0 0 0 1 }
          else (s, 1)
        if h.2 ≤ 0 then (h.1, -1)
        else
          let s := h.1
          if !env.mmapOk then
            let h := sendHeader io fd (some op_t.OP_NO_SUCH_FILE) ""
              { s with chattyStats := updateStats s.chattyStats 0 0 0 0 0 0 1 }
            if h.2 ≤ 0 then (h.1, -1) else (h.1, 0)
          else
            let h := sendHeader io fd (some op_t.OP_OK) ""
              { s with chattyStats := updateStats s.chattyStats 0 0 0 0 1 (-1) 0 }
            if h.2 ≤ 0 then (h.1, -1)
            else
              let d := sendData io fd "" (env.st_size % 2 ^ 32) env.filem h.1
              if d.2 < 0 then (d.1, -1) else (d.1, 0))

/-- The object representation of an unsigned integer of k bytes, least
significant byte first. -/
def le_bytes : Nat → Nat → List Nat
  | 0, _ => []
  | k + 1, n => n % 256 :: le_bytes k (n / 256)

/-- The loop of the case GETPREVMSGS_OP over the nodes of the copied history:
one sendRequest per message, stopping with -1 at the first that fails. -/
def sendHistory (io : Nat → Bool) (fd : Int) : List message_t → Server → Server × Int
  | [], s => (s, 0)
  | m :: rest, s =>
    let r := sendRequest io fd m s
    if r.2 ≤ 0 then (r.1, -1) else sendHistory io fd rest r.1

/-- The function executeReq on a request whose operation code is
GETPREVMSGS_OP.  The count nummsg has type size_t (8 bytes) and is sent as the
payload of the data part of the reply. -/
def executeReq_GETPREVMSGS_OP (io : Nat → Bool) (fd : Int) (msg : message_t) (s : Server) :
    Server × Int :=
  if msg.sender = "" then
    ((sendHeader io fd (some op_t.OP_FAIL) "" s).1, -1)
  else
    match getHistory s.usr msg.sender with
    | some ret =>
      let nummsg := ret.size
      let reply : message_t :=
        { op := op_t.OP_OK, sender := "", receiver := "", len := 8, buf := le_bytes 8 nummsg }
      let r := sendRequest io fd reply s
      if r.2 ≤ 0 then (r.1, -1)
      else if ret.size > 0 then sendHistory io fd ret.nodes r.1
      else (r.1, 0)
    | none => sendReply io fd (some op_t.OP_FAIL) s

/-- The function executeReq on a request whose operation code is
USRLIST_OP. -/
def executeReq_USRLIST_OP (io : Nat → Bool) (fd : Int) (msg : message_t) (s : Server) :
    Server × Int :=
  if msg.sender = "" then
    ((sendHeader io fd (some op_t.OP_FAIL) "" s).1, -1)
  else
    let l := getOnlineList s.usr
    let nOnline := l.2
    let h := sendHeader io fd (some op_t.OP_OK) "" s
    if h.2 ≤ 0 then (h.1, -1)
    else if nOnline ≠ -1 then
      let d := sendData io fd "" ((s.usr.usersOnline * (MAX_NAME_LENGTH + 1)) % 2 ^ 32) l.1 h.1
      if d.2 ≤ 0 then (d.1, -1) else (d.1, 0)
    else (h.1, 0)

/-- The function executeReq on a request whose operation code is
UNREGISTER_OP. -/
def executeReq_UNREGISTER_OP (io : Nat → Bool) (fd : Int) (msg : message_t) (s : Server) :
    Server × Int :=
  if msg.sender = "" then
    ((sendHeader io fd (some op_t.OP_FAIL) "" s).1, -1)
  else
    let r := unregisterUser s.usr msg.sender fd
    if r.2 = 0 then
      sendReply io fd (some op_t.OP_OK)
        { s with usr := r.1, chattyStats := updateStats s.chattyStats (-1) (-1) 0 0 0 0 0 }
    else
      sendReply io fd (some op_t.OP_NICK_UNKNOWN)
        { s with usr := r.1, chattyStats := updateStats s.chattyStats 0 0 0 0 0 0 1 }

/-- Everything executeReq finds outside the server state: the file system as
seen by POSTFILE and by GETFILE, and the values of array elements that were
never written. -/
structure Env where
  post : FileEnv
  get : GetEnv
  garbage : Nat → Int

/-- The function executeReq of chatty.c: the check of the sender, then the
switch on the operation code; the default case replies OP_FAIL and returns
-1.  The result is none when the behaviour of the C code is undefined (a
POSTFILE or GETFILE request whose name buffer holds no C string). -/
def executeReq (config : conf_var) (io : Nat → Bool) (env : Env) (fd : Int) (msg : message_t)
    (s : Server) : Option (Server × Int) :=
  match msg.op with
  | op_t.REGISTER_OP => some (executeReq_REGISTER_OP io fd msg s)
  | op_t.CONNECT_OP => some (executeReq_CONNECT_OP io fd msg s)
  | op_t.POSTTXT_OP => some (executeReq_POSTTXT_OP config io fd msg s)
  | op_t.POSTTXTALL_OP => some (executeReq_POSTTXTALL_OP config io env.garbage fd msg s)
  | op_t.POSTFILE_OP => executeReq_POSTFILE_OP config io env.post fd msg s
  | op_t.GETFILE_OP => executeReq_GETFILE_OP config io env.get fd msg s
  | op_t.GETPREVMSGS_OP => some (executeReq_GETPREVMSGS_OP io fd msg s)
  | op_t.USRLIST_OP => some (executeReq_USRLIST_OP io fd msg s)
  | op_t.UNREGISTER_OP => some (executeReq_UNREGISTER_OP io fd msg s)
  | op_t.DISCONNECT_OP => some (executeReq_DISCONNECT_OP io fd msg s)
  | _ => some ((sendHeader io fd (some op_t.OP_FAIL) "" s).1, -1)

/-- The implicit disconnection a worker runs before it closes the descriptor
client: disconnectUser(usr, NULL, client) and, when that returns 0, one off
the counter of online users. -/
def worker_disconnect (client : Int) (s : Server) : Server :=
  let d := disconnectUser s.usr none (toULong client)
  if d.2 = 0 then
    { s with usr := d.1, chattyStats := updateStats s.chattyStats 0 (-1) 0 0 0 0 0 }
  else { s with usr := d.1 }

/-- One turn of the loop of a worker (chatty.c) after deQueue has returned the
descriptor client: readMsg has returned 1 and the message rd, or it has
returned something else (rd is none).  When the request is served with result
0 the state is the one executeReq leaves; in every other case the worker runs
the implicit disconnection.  The result is none when executeReq has no defined
behaviour. -/
def worker_turn (config : conf_var) (io : Nat → Bool) (env : Env) (client : Int)
    (rd : Option message_t) (s : Server) : Option Server :=
  match rd with
  | some new =>
    (executeReq config io env client new s).map
      (fun esito => if esito.2 = 0 then esito.1 else worker_disconnect client esito.1)
  | none => some (worker_disconnect client s)

/-- Successive turns of a worker, one per pair of a descriptor and the
outcome of readMsg on it. -/
def worker_turns (config : conf_var) (io : Nat → Bool) (env : Env) (s : Server)
    (reqs : List (Int × Option message_t)) : Option Server :=
  reqs.foldl (fun st r => st.bind (fun t => worker_turn config io env r.1 r.2 t)) (some s)

/-- The admission test of the dispatcher (main, chatty.c): a new connection
is accepted unless chattyStats.nonline >= config->MaxConnections, the int being
converted to unsigned long for the comparison. -/
def admits (config : conf_var) (st : statistics) : Bool :=
  !decide (st.nonline ≥ toULong config.MaxConnections)

/-! ## Work queue (queuelib.c) -/

/-- The constant KILLTHREAD of queuelib.h. -/
def KILLTHREAD : Int := 99999999

/-- The type queue of queuelib.h without its mutex and condition variable;
elem is the array of dim ints. -/
structure queue where
  front : Int
  rear : Int
  dim : Int
  elem : List Int
  deriving DecidableEq, Repr

/-- The function pos_mod of queuelib.c; the operator % of C truncates
towards zero. -/
def pos_mod (i n : Int) : Int := Int.tmod (Int.tmod i n + n) n

/-- The function isFull of queuelib.c. -/
def isFull (coda : queue) : Bool := coda.rear == pos_mod (coda.front - 1) coda.dim

/-- The function isEmpty of queuelib.c. -/
def isEmpty (coda : queue) : Bool := coda.front == -1

/-- The function createQueue of queuelib.c. -/
def createQueue (dim : Int) : queue :=
  { front := -1, rear := -1, dim := dim, elem := List.replicate dim.toNat 0 }

/-- The function enQueue of queuelib.c: the queue after the call and the
returned code. -/
def enQueue (coda : queue) (elem : Int) : queue × Int :=
  let DIM := coda.dim
  if !isFull coda then
    let front := if coda.front = -1 then 0 else coda.front
    let rear := Int.tmod (coda.rear + 1) DIM
    ({ coda with front := front, rear := rear, elem := coda.elem.set rear.toNat elem }, 0)
  else (coda, -1)

/-- The function deQueue of queuelib.c.  On an empty queue the caller waits
on the condition variable: the result none says that the call does not return
in this state.  Otherwise the result is the queue after the call and the value
returned; the value KILLTHREAD is returned without being removed. -/
def deQueue (coda : queue) : Option (queue × Int) :=
  let DIM := coda.dim
  if isEmpty coda then none
  else
    let ret := coda.elem.getD coda.front.toNat 0
    if ret = KILLTHREAD then some (coda, ret)
    else if coda.front = coda.rear then some ({ coda with front := -1, rear := -1 }, ret)
    else some ({ coda with front := Int.tmod (coda.front + 1) DIM }, ret)

/-- The values a queue holds, oldest first: the slots from front to rear,
going round the end of the array when rear lies before front. -/
def queue.contents (coda : queue) : List Int :=
  if coda.front = -1 then []
  else if coda.front ≤ coda.rear then
    (coda.elem.take (coda.rear.toNat + 1)).drop coda.front.toNat
  else coda.elem.drop coda.front.toNat ++ coda.elem.take (coda.rear.toNat + 1)

/-- Well-formed queue: dim >= 1, the array has dim slots, and front and rear
are both -1 or both indices of the array. -/
def queue.wf (coda : queue) : Prop :=
  1 ≤ coda.dim ∧ coda.elem.length = coda.dim.toNat ∧
    ((coda.front = -1 ∧ coda.rear = -1) ∨
      (0 ≤ coda.front ∧ coda.front < coda.dim ∧ 0 ≤ coda.rear ∧ coda.rear < coda.dim))

instance (coda : queue) : Decidable coda.wf := by
  unfold queue.wf; exact inferInstance

/-- One call made on the work queue: enQueue(coda, elem) or deQueue(coda). -/
inductive QOp where
  | enq (elem : Int)
  | deq
  deriving DecidableEq, Repr

/-- What a sequence of calls has produced so far: the codes returned by the
calls of enQueue, the values it accepted (code 0) and the values returned by
the calls of deQueue, each in the order of the calls. -/
structure QTrace where
  codes : List Int
  accepted : List Int
  returned : List Int
  deriving DecidableEq, Repr

/-- A single thread makes the calls of the list on the ring buffer, first to
last.  The result is none when a call of deQueue finds the queue empty: the
thread then waits for ever. -/
def runQueue : queue → QTrace → List QOp → Option (queue × QTrace)
  | coda, tr, [] => some (coda, tr)
  | coda, tr, .enq elem :: rest =>
    let r := enQueue coda elem
    runQueue r.1
      { tr with
        codes := tr.codes ++ [r.2]
        accepted := if r.2 = 0 then tr.accepted ++ [elem] else tr.accepted } rest
  | coda, tr, .deq :: rest =>
    match deQueue coda with
    | none => none
    | some (coda1, v) => runQueue coda1 { tr with returned := tr.returned ++ [v] } rest

/-- The work queue in the words of the specification: a fixed-capacity FIFO
of integers. -/
structure SpecFifo where
  capacity : Nat
  items : List Int
  deriving DecidableEq, Repr

/-- The operation enqueue in the words of the specification: it does not
block, returns whether the value was accepted, and drops the value when the
queue is full. -/
def SpecFifo.enqueue (q : SpecFifo) (v : Int) : SpecFifo × Bool :=
  if q.items.length < q.capacity then ({ q with items := q.items ++ [v] }, true) else (q, false)

/-- The operation dequeue in the words of the specification: the oldest
value, none while the queue is empty (the consumer blocks). -/
def SpecFifo.dequeue (q : SpecFifo) : Option (SpecFifo × Int) :=
  match q.items with
  | [] => none
  | v :: rest => some ({ q with items := rest }, v)

/-- The calls of the list made on the FIFO of the specification; the codes
are 0 for an accepted value and -1 for a dropped one. -/
def runSpecFifo : SpecFifo → QTrace → List QOp → Option (SpecFifo × QTrace)
  | q, tr, [] => some (q, tr)
  | q, tr, .enq elem :: rest =>
    let r := q.enqueue elem
    runSpecFifo r.1
      { tr with
        codes := tr.codes ++ [if r.2 then 0 else -1]
        accepted := if r.2 then tr.accepted ++ [elem] else tr.accepted } rest
  | q, tr, .deq :: rest =>
    match q.dequeue with
    | none => none
    | some (q1, v) => runSpecFifo q1 { tr with returned := tr.returned ++ [v] } rest

/-- The function terminateServer of chatty.c on the pair of the flag alive
and the work queue: alive becomes 0 and the sentinel is handed to enQueue,
whose result is not looked at (the broadcast on the condition variable wakes
the waiting workers and changes no data). -/
def terminateServer (st : Int × queue) : Int × queue :=
  (0, (enQueue st.2 KILLTHREAD).1)

/-- The values returned by n successive calls of deQueue and the queue they
leave; none when one of the calls finds the queue empty. -/
def deQueueN : queue → Nat → Option (queue × List Int)
  | coda, 0 => some (coda, [])
  | coda, n + 1 =>
    match deQueue coda with
    | none => none
    | some (coda1, v) =>
      match deQueueN coda1 n with
      | none => none
      | some (coda2, vs) => some (coda2, v :: vs)

/-! ## Dispatcher and workers (chatty.c) -/

/-- The constant FD_SETSIZE of sys/select.h (a system header): the macros
FD_SET, FD_CLR and FD_ISSET are defined for descriptors 0 <= fd < FD_SETSIZE
only. -/
def FD_SETSIZE : Int := 1024

/-- The state shared by the dispatcher (the loop of main) and the workers.

* set: the global fd_set, as its membership test;
* coda: the work queue;
* hands: for each worker, the descriptor it has dequeued and is serving
  (the local variable client), or none while it is about to call deQueue;
* opened: the descriptors that are open in the process, as the kernel
  knows them;
* rdset, fd, fd_num: the local variables of main, rdset after select, fd the
  counter of the scanning loop. -/
structure Sys where
  set : Int → Bool
  coda : queue
  hands : List (Option Int)
  opened : Int → Bool
  rdset : Int → Bool
  fd : Int
  fd_num : Int

/-- The steps of the dispatcher and of the workers. -/
inductive Action where
  /-- The head of the outer loop of main, once the scanning loop is over:
  rdset = set, then select leaves in rdset the descriptors that are ready. -/
  | select (ready : Int → Bool)
  /-- One turn of the scanning loop at the listener, found ready, when the
  admission test passes: accept returns the new descriptor fd_c. -/
  | scanAccept (fd_c : Int)
  /-- One turn of the scanning loop at the listener when it is not ready, or
  is ready and the admission test fails (continue). -/
  | scanPass
  /-- One turn of the scanning loop at any other descriptor: when it is
  ready it is cleared from set and then enqueued. -/
  | scanClient
  /-- Worker w returns from deQueue; it goes back to deQueue at once when the
  value is -1 and holds the value as its client otherwise. -/
  | dequeue (w : Nat)
  /-- Worker w has served its client with success: FD_SET(client, set). -/
  | serveOk (w : Nat)
  /-- Worker w has failed to read or serve its client: close(client). -/
  | serveClose (w : Nat)

/-- One step of the system, none when the step cannot be taken in the
state.  The call accept returns a descriptor that is not open in the process
and fits an fd_set. -/
def step (fd_sk : Int) (s : Sys) : Action → Option Sys
  | .select ready =>
    if s.fd_num < s.fd then
      some { s with rdset := fun c => s.set c && ready c, fd := 0 }
    else none
  | .scanAccept fd_c =>
    if s.fd ≤ s.fd_num ∧ s.rdset s.fd = true ∧ s.fd = fd_sk ∧
        s.opened fd_c = false ∧ 0 ≤ fd_c ∧ fd_c < FD_SETSIZE then
      some { s with
        opened := Function.update s.opened fd_c true
        set := Function.update s.set fd_c true
        fd_num := if fd_c > s.fd_num then fd_c else s.fd_num
        fd := s.fd + 1 }
    else none
  | .scanPass =>
    if s.fd ≤ s.fd_num ∧ s.fd = fd_sk then
      some { s with fd := s.fd + 1 }
    else none
  | .scanClient =>
    if s.fd ≤ s.fd_num ∧ s.fd ≠ fd_sk then
      if s.rdset s.fd then
        some { s with
          set := Function.update s.set s.fd false
          coda := (enQueue s.coda s.fd).1
          fd := s.fd + 1 }
      else some { s with fd := s.fd + 1 }
    else none
  | .dequeue w =>
    match s.hands.get? w, deQueue s.coda with
    | some none, some (coda, client) =>
      some { s with
        coda := coda
        hands := if client = -1 then s.hands else s.hands.set w (some client) }
    | _, _ => none
  | .serveOk w =>
    match s.hands.get? w with
    | some (some client) =>
      some { s with set := Function.update s.set client true, hands := s.hands.set w none }
    | _ => none
  | .serveClose w =>
    match s.hands.get? w with
    | some (some client) =>
      some { s with
        opened := Function.update s.opened client false
        hands := s.hands.set w none }
    | _ => none

/-- A run of the system: the steps of the list, first to last; none when
one of them cannot be taken. -/
def run (fd_sk : Int) : Sys → List Action → Option Sys
  | s, [] => some s
  | s, a :: rest =>
    match step fd_sk s a with
    | some s1 => run fd_sk s1 rest
    | none => none

/-- The state in which main enters its loop: only the listener fd_sk is in
set, the queue is the one made by createQueue(dim), the nworkers workers hold
nothing, the listener is open, fd_num is fd_sk and no scan is under way. -/
def initSys (fd_sk : Int) (dim : Int) (nworkers : Nat) (opened : Int → Bool) : Sys :=
  { set := fun c => decide (c = fd_sk)
    coda := createQueue dim
    hands := List.replicate nworkers none
    opened := fun c => decide (c = fd_sk) || opened c
    rdset := fun _ => false
    fd := (if fd_sk > 0 then fd_sk else 0) + 1
    fd_num := if fd_sk > 0 then fd_sk else 0 }

/-- The number of places a descriptor is in: 1 for the readiness set when it
is a member, the number of its occurrences in the work queue, the number of
workers that hold it. -/
def places (s : Sys) (c : Int) : Nat :=
  (if s.set c then 1 else 0) + s.coda.contents.count c + s.hands.count (some c)

/-- The invariant of the dispatcher / worker system with listener fd_sk:
the queue is well formed; no descriptor is in two places; a descriptor that is
somewhere is open; a descriptor that the scanning loop has still to visit and
that is marked ready in rdset is in set; client descriptors are in the range
of an fd_set. -/
structure Inv (fd_sk : Int) (s : Sys) : Prop where
  wf : s.coda.wf
  excl : ∀ c, places s c ≤ 1
  isopen : ∀ c, 0 < places s c → s.opened c = true
  pending : ∀ c, s.fd ≤ c → s.rdset c = true → s.set c = true
  rangeQ : ∀ c, c ∈ s.coda.contents → 0 ≤ c ∧ c < FD_SETSIZE
  rangeS : ∀ c, s.set c = true → c ≠ fd_sk → 0 ≤ c ∧ c < FD_SETSIZE
  rangeH : ∀ c, some c ∈ s.hands → 0 ≤ c ∧ c < FD_SETSIZE

/-- A sample run with listener 3 and the descriptors 0, 1, 2 already open: a
first scan accepts a connection on descriptor 4, a second scan finds 4 ready
and hands it to the queue, worker 0 dequeues it and serves it with success. -/
def sampleRun : List Action :=
  [.select (fun _ => true), .scanClient, .scanClient, .scanClient, .scanAccept 4, .scanClient,
   .select (fun _ => true), .scanClient, .scanClient, .scanClient, .scanPass, .scanClient,
   .dequeue 0, .serveOk 0]

/-- The state the sample run ends in. -/
def sampleState : Sys :=
  (run 3 (initSys 3 2 2 (fun c => decide (c < 3))) sampleRun).getD
    (initSys 3 2 2 (fun c => decide (c < 3)))

/-! ## Wire codec at the level of bytes (connections.c, message.h)

The functions of connections.c once more, this time with the bytes that
travel: a structure is written and read as its object representation, and
every call of read or write may transfer fewer bytes than asked for.  The
names of the sources are kept inside the namespace Bytes. -/

namespace Bytes

/-- The answer of the kernel to one call of read or write on a stream
socket: the call transfers at most k bytes (at least one, whatever k), or it
fails with errno EINTR, or it fails with another error. -/
inductive CallEv where
  | bytes (k : Nat)
  | eintr
  | error
  deriving DecidableEq, Repr

/-- A connection seen from its reading end: the bytes the peer has sent and
that were not read yet (the peer has closed after them), and the answers to
the coming calls of read; when that list is used up every call returns all the
bytes it can. -/
structure Sock where
  input : List Nat
  evs : List CallEv
  deriving DecidableEq, Repr

/-- The result of one call of read. -/
inductive RdRes where
  | got (b : List Nat)
  | eintr
  | error
  deriving DecidableEq, Repr

/-- The system call read(fd, ptr, n) for n > 0: the bytes received (none at
the end of the stream) or the failure, and the connection afterwards. -/
def read_call (s : Sock) (n : Nat) : RdRes × Sock :=
  match s.evs with
  | [] => (RdRes.got (s.input.take n), { s with input := s.input.drop n })
  | CallEv.bytes k :: es =>
    (RdRes.got (s.input.take (min n (max k 1))),
      { input := s.input.drop (min n (max k 1)), evs := es })
  | CallEv.eintr :: es => (RdRes.eintr, { s with evs := es })
  | CallEv.error :: es => (RdRes.error, { s with evs := es })

/-- Bytes b stored into the memory block mem from offset off on. -/
def store (mem : List Nat) (off : Nat) (b : List Nat) : List Nat :=
  mem.take off ++ b ++ mem.drop (off + b.length)

/-- The loop of readn: n is the number of bytes asked for, nleft the number
still missing, mem the destination block; the received bytes are stored at
ptr, which is n - nleft bytes into the block.  The first argument bounds the
number of turns of the loop; none means the bound was reached. -/
def readn_loop : Nat → Sock → List Nat → Nat → Nat → Option (Int × List Nat × Sock)
  | 0, _, _, _, _ => none
  | fuel + 1, s, mem, n, nleft =>
    if nleft > 0 then
      match read_call s nleft with
      | (RdRes.got b, s1) =>
        if b.length = 0 then some (((n - nleft : Nat) : Int), mem, s1)
        else readn_loop fuel s1 (store mem (n - nleft) b) n (nleft - b.length)
      | (RdRes.eintr, s1) => readn_loop fuel s1 mem n nleft
      | (RdRes.error, s1) => some (-1, mem, s1)
    else some (((n - nleft : Nat) : Int), mem, s)

/-- The function readn of connections.c: the result, the destination block
and the connection afterwards. -/
def readn (fuel : Nat) (s : Sock) (mem : List Nat) (n : Nat) : Option (Int × List Nat × Sock) :=
  readn_loop fuel s mem n n

/-- The function read_buffer of connections.c.  Every call of read stores at
tmp, the start of the buffer (the pointer that is advanced, buffer, is not
the one passed to read); a call that returns 0 leaves length as it is. -/
def read_buffer : Nat → Sock → List Nat → Nat → Option (Int × List Nat × Sock)
  | 0, _, _, _ => none
  | fuel + 1, s, mem, length =>
    if length > 0 then
      match read_call s length with
      | (RdRes.got b, s1) => read_buffer fuel s1 (store mem 0 b) (length - b.length)
      | (RdRes.eintr, s1) => some (-1, mem, s1)
      | (RdRes.error, s1) => some (-1, mem, s1)
    else some (0, mem, s)

/-- A connection seen from its writing end: the bytes written so far and the
answers to the coming calls of write; when that list is used up every call
takes all the bytes it is given. -/
structure Pipe where
  output : List Nat
  evs : List CallEv
  deriving DecidableEq, Repr

/-- The result of one call of write. -/
inductive WrRes where
  | wrote (k : Nat)
  | eintr
  | error
  deriving DecidableEq, Repr

/-- The system call write(fd, ptr, n) on the bytes data (n is their
number). -/
def write_call (p : Pipe) (data : List Nat) : WrRes × Pipe :=
  match p.evs with
  | [] => (WrRes.wrote data.length, { p with output := p.output ++ data })
  | CallEv.bytes k :: es =>
    (WrRes.wrote (min data.length (max k 1)),
      { output := p.output ++ data.take (min data.length (max k 1)), evs := es })
  | CallEv.eintr :: es => (WrRes.eintr, { p with evs := es })
  | CallEv.error :: es => (WrRes.error, { p with evs := es })

/-- The loop of writen: rest holds the nleft bytes from ptr on, n is the
result on success. -/
def writen_loop : Nat → Pipe → List Nat → Nat → Option (Int × Pipe)
  | 0, _, _, _ => none
  | fuel + 1, p, rest, n =>
    if rest.length > 0 then
      match write_call p rest with
      | (WrRes.wrote k, p1) =>
        if k = 0 then some (-1, p1) else writen_loop fuel p1 (rest.drop k) n
      | (WrRes.eintr, p1) => writen_loop fuel p1 rest n
      | (WrRes.error, p1) => some (-1, p1)
    else some ((n : Int), p)

/-- The function writen of connections.c. -/
def writen (fuel : Nat) (p : Pipe) (data : List Nat) : Option (Int × Pipe) :=
  writen_loop fuel p data data.length

/-- The function write_buffer of connections.c on the bytes buffer[0] ..
buffer[length-1]. -/
def write_buffer : Nat → Pipe → List Nat → Option (Int × Pipe)
  | 0, _, _ => none
  | fuel + 1, p, rest =>
    if rest.length > 0 then
      match write_call p rest with
      | (WrRes.wrote k, p1) => write_buffer fuel p1 (rest.drop k)
      | (WrRes.eintr, p1) => some (-1, p1)
      | (WrRes.error, p1) => some (-1, p1)
    else some (0, p)

/-- The type message_hdr_t of message.h: op is the value of the enumeration
as an unsigned 32-bit number, sender the MAX_NAME_LENGTH+1 bytes of the
array. -/
structure message_hdr_t where
  op : Nat
  sender : List Nat
  deriving DecidableEq, Repr

/-- The type message_data_hdr_t of message.h. -/
structure message_data_hdr_t where
  receiver : List Nat
  len : Nat
  deriving DecidableEq, Repr

/-- The type message_data_t of message.h; buf is none for the NULL pointer
and otherwise the block it points to. -/
structure message_data_t where
  hdr : message_data_hdr_t
  buf : Option (List Nat)
  deriving DecidableEq, Repr

/-- The type message_t of message.h. -/
structure message_t where
  hdr : message_hdr_t
  data : message_data_t
  deriving DecidableEq, Repr

/-- The number an object representation stands for, least significant byte
first. -/
def of_le : List Nat → Nat
  | [] => 0
  | b :: rest => b + 256 * of_le rest

/-- The bytes of a character array of MAX_NAME_LENGTH+1 elements. -/
def field (a : List Nat) : List Nat :=
  (a ++ List.replicate (MAX_NAME_LENGTH + 1) 0).take (MAX_NAME_LENGTH + 1)

/-- The object representation of a message_hdr_t, sizeof(message_hdr_t) = 40
bytes: the int op (4 bytes), the array sender (33 bytes), 3 bytes of padding
(written here as zeros). -/
def message_hdr_t.bytes (h : message_hdr_t) : List Nat :=
  le_bytes 4 h.op ++ field h.sender ++ [0, 0, 0]

/-- The value of a message_hdr_t whose object representation is given. -/
def message_hdr_t.ofBytes (b : List Nat) : message_hdr_t :=
  { op := of_le (b.take 4), sender := (b.drop 4).take (MAX_NAME_LENGTH + 1) }

/-- The object representation of a message_data_hdr_t, 40 bytes: the array
receiver (33 bytes), 3 bytes of padding, the unsigned int len (4 bytes). -/
def message_data_hdr_t.bytes (h : message_data_hdr_t) : List Nat :=
  field h.receiver ++ [0, 0, 0] ++ le_bytes 4 h.len

/-- The value of a message_data_hdr_t whose object representation is
given. -/
def message_data_hdr_t.ofBytes (b : List Nat) : message_data_hdr_t :=
  { receiver := b.take (MAX_NAME_LENGTH + 1),
    len := of_le ((b.drop (MAX_NAME_LENGTH + 1 + 3)).take 4) }

/-- The function readHeader of connections.c (hdr is not NULL): the header is
cleared by memset and filled by readn. -/
def readHeader (fuel : Nat) (s : Sock) (connfd : Int) : Option (Int × message_hdr_t × Sock) :=
  if connfd < 0 then some (0, message_hdr_t.ofBytes (List.replicate 40 0), s)
  else
    match readn fuel s (List.replicate 40 0) 40 with
    | none => none
    | some (rd, mem, s1) => some (if rd ≤ 0 then rd else 1, message_hdr_t.ofBytes mem, s1)

/-- The function readData of connections.c (data is not NULL).  The argument
old is what the structure holds before the call, fresh the contents of the
block malloc returns (cut or filled up with zeros to len bytes).  After the
free of a failed read the pointer buf is modelled as NULL. -/
def readData (fuel : Nat) (s : Sock) (fd : Int) (old : message_data_t) (fresh : List Nat) :
    Option (Int × message_data_t × Sock) :=
  if fd < 0 then some (0, old, s)
  else
    match readn fuel s old.hdr.bytes 40 with
    | none => none
    | some (rd, mem, s1) =>
      let hdr := message_data_hdr_t.ofBytes mem
      if rd ≤ 0 then some (rd, { hdr := hdr, buf := old.buf }, s1)
      else if hdr.len = 0 then some (1, { hdr := hdr, buf := none }, s1)
      else
        match read_buffer fuel s1 ((fresh ++ List.replicate hdr.len 0).take hdr.len) hdr.len with
        | none => none
        | some (r, buf, s2) =>
          if r < 0 then some (-1, { hdr := hdr, buf := none }, s2)
          else some (1, { hdr := hdr, buf := some buf }, s2)

/-- The function readMsg of connections.c; old is what the data part of the
message holds before the call. -/
def readMsg (fuel : Nat) (s : Sock) (fd : Int) (old : message_data_t) (fresh : List Nat) :
    Option (Int × message_t × Sock) :=
  match readHeader fuel s fd with
  | none => none
  | some (ret, hdr, s1) =>
    if ret ≤ 0 then some (ret, { hdr := hdr, data := old }, s1)
    else
      match readData fuel s1 fd old fresh with
      | none => none
      | some (ret, data, s2) =>
        if ret ≤ 0 then some (ret, { hdr := hdr, data := data }, s2)
        else some (1, { hdr := hdr, data := data }, s2)

/-- The function sendHeader of connections.c. -/
def sendHeader (fuel : Nat) (p : Pipe) (hdr : message_hdr_t) : Option (Int × Pipe) :=
  match writen fuel p hdr.bytes with
  | none => none
  | some (wt, p1) => some (if wt < 0 then -1 else 1, p1)

/-- The function sendData of connections.c; the buffer holds at least len
bytes whenever len is not 0. -/
def sendData (fuel : Nat) (p : Pipe) (msg : message_data_t) : Option (Int × Pipe) :=
  match writen fuel p msg.hdr.bytes with
  | none => none
  | some (wt, p1) =>
    if wt < 0 then some (-1, p1)
    else
      match write_buffer fuel p1 ((msg.buf.getD []).take msg.hdr.len) with
      | none => none
      | some (r, p2) => if r = -1 then some (-1, p2) else some (1, p2)

/-- The function sendRequest of connections.c. -/
def sendRequest (fuel : Nat) (p : Pipe) (msg : message_t) : Option (Int × Pipe) :=
  match sendHeader fuel p msg.hdr with
  | none => none
  | some (ret, p1) =>
    if ret = -1 then some (-1, p1)
    else
      match sendData fuel p1 msg.data with
      | none => none
      | some (ret, p2) => if ret = -1 then some (-1, p2) else some (1, p2)

end Bytes

/-- A sample message: operation code 2, sender "a", receiver "b", the two
payload bytes 104 and 105. -/
def Bytes.sampleMsg : Bytes.message_t :=
  ⟨⟨2, Bytes.field [97]⟩, ⟨⟨Bytes.field [98], 2⟩, some [104, 105]⟩⟩

/-- The 82 bytes of the frame of the sample message. -/
def Bytes.sampleFrame : List Nat :=
  Bytes.sampleMsg.hdr.bytes ++ Bytes.sampleMsg.data.hdr.bytes ++ [104, 105]

/-! ## Configuration file (parser.c) -/

/-- The test strncmp(a, b, n) == 0 on two C strings; the end of a list is
read as the closing NUL. -/
def strncmp_eq : List Nat → List Nat → Nat → Bool
  | _, _, 0 => true
  | a, b, n + 1 =>
    if a.headD 0 ≠ b.headD 0 then false
    else if a.headD 0 = 0 then true
    else strncmp_eq a.tail b.tail n

/-- The digits at the head of a string, added to the value acc read so
far. -/
def atoi_digits : List Nat → Int → Int
  | [], acc => acc
  | c :: rest, acc =>
    if 48 ≤ c ∧ c ≤ 57 then atoi_digits rest (acc * 10 + ((c - 48 : Nat) : Int)) else acc

/-- The libc function atoi on a string without leading white space (trova_val
keeps no blank, tab or newline): an optional sign, then digits.  Values that
do not fit an int are not modelled. -/
def atoi (s : List Nat) : Int :=
  match s with
  | 45 :: rest => - atoi_digits rest 0
  | 43 :: rest => atoi_digits rest 0
  | _ => atoi_digits s 0

/-- The string held by the array tmp of trova_val, which the function closes
with a NUL after the characters it stored, as a value of type String. -/
def stringOf (b : List Nat) : String := String.mk ((cstr b).map Char.ofNat)

/-- The loop of trova_val over buf[i] .. buf[scanned-1]: the characters
stored in tmp and the flag listen at the end.  The sign '=' (61) sets listen;
once it is set every character other than a blank (32), a tab (9) and a
newline (10) is stored. -/
def trova_val_loop : List Nat → Bool → List Nat × Bool
  | [], listen => ([], listen)
  | c :: rest, listen =>
    if c = 61 then trova_val_loop rest true
    else if c ≠ 32 ∧ c ≠ 9 ∧ c ≠ 10 ∧ listen = true then
      let r := trova_val_loop rest listen
      (c :: r.1, r.2)
    else trova_val_loop rest listen

/-- The globals of parser.c: the structure config points to and the array
found. -/
structure ParseState where
  config : conf_var
  found : List Int
  deriving DecidableEq, Repr

/-- The function trova_val(buf, i, type, scanned) of parser.c, buf holding
scanned characters (lines are taken to be shorter than the 1024 characters of
tmp). -/
def trova_val (st : ParseState) (buf : List Nat) (i : Nat) (type : Nat) : ParseState :=
  let r := trova_val_loop (buf.drop i) false
  let tmp := r.1
  if r.2 then
    match type with
    | 0 => { config := { st.config with UnixPath := stringOf tmp }, found := st.found.set 0 1 }
    | 1 => { config := { st.config with MaxConnections := atoi tmp }, found := st.found.set 1 1 }
    | 2 => { config := { st.config with ThreadsInPool := atoi tmp }, found := st.found.set 2 1 }
    | 3 => { config := { st.config with MaxMsgSize := atoi tmp }, found := st.found.set 3 1 }
    | 4 => { config := { st.config with MaxFileSize := atoi tmp }, found := st.found.set 4 1 }
    | 5 => { config := { st.config with MaxHistMsgs := atoi tmp }, found := st.found.set 5 1 }
    | 6 => { config := { st.config with DirName := stringOf tmp }, found := st.found.set 6 1 }
    | 7 => { config := { st.config with StatFileName := stringOf tmp }, found := st.found.set 7 1 }
    | _ => st
  else st

/-- The body of the loop of parse for one line returned by getline (the line
with its closing newline, if it has one).  A line is looked at unless its
first character is '#' (35), a newline, NUL or the char that equals EOF
(255); i is the position of the first blank or tab, or the length of the line;
the first i characters are compared, by strncmp with bound i, with the eight
key names in turn. -/
def parse_line (st : ParseState) (buffer : List Nat) : ParseState :=
  let c := buffer.headD 0
  if c ≠ 35 ∧ c ≠ 10 ∧ c ≠ 0 ∧ c ≠ 255 then
    let i := (buffer.takeWhile (fun c => decide (c ≠ 32 ∧ c ≠ 9))).length
    if strncmp_eq buffer (bytesOf "UnixPath") i then trova_val st buffer i 0
    else if strncmp_eq buffer (bytesOf "MaxConnections") i then trova_val st buffer i 1
    else if strncmp_eq buffer (bytesOf "ThreadsInPool") i then trova_val st buffer i 2
    else if strncmp_eq buffer (bytesOf "MaxMsgSize") i then trova_val st buffer i 3
    else if strncmp_eq buffer (bytesOf "MaxFileSize") i then trova_val st buffer i 4
    else if strncmp_eq buffer (bytesOf "MaxHistMsgs") i then trova_val st buffer i 5
    else if strncmp_eq buffer (bytesOf "DirName") i then trova_val st buffer i 6
    else if strncmp_eq buffer (bytesOf "StatFileName") i then trova_val st buffer i 7
    else st
  else st

/-- The function parse of parser.c on a file that opens, given as the list of
its lines: the configuration returned, or none when the program is ended by
exit(EXIT_FAILURE).  The structure is allocated without being cleared, start
is what it holds; found starts as eight zeros.  The final loop counts the
leading entries of found equal to 1 and is not bounded by the length of the
array: beyond lists the ints that follow the array in memory. -/
def parse (start : conf_var) (lines : List (List Nat)) (beyond : List Int) : Option conf_var :=
  let st := lines.foldl parse_line { config := start, found := [0, 0, 0, 0, 0, 0, 0, 0] }
  let z := ((st.found ++ beyond).takeWhile (fun x => decide (x = 1))).length
  if z = 8 then some st.config else none

/-- The key names of the configuration file. -/
def keyNames : List String :=
  ["UnixPath", "MaxConnections", "ThreadsInPool", "MaxMsgSize", "MaxFileSize", "MaxHistMsgs",
   "DirName", "StatFileName"]

/-- A configuration file in which no line spells a key name in full: each
key is cut down to a prefix. -/
def shortKeysFile : List (List Nat) :=
  [bytesOf "U = sock" ++ [10],
   bytesOf "MaxC = 8" ++ [10],
   bytesOf "T = 2" ++ [10],
   bytesOf "MaxM = 100" ++ [10],
   bytesOf "MaxF = 1" ++ [10],
   bytesOf "MaxH = 10" ++ [10],
   bytesOf "D = dir" ++ [10],
   bytesOf "S = stats" ++ [10]]

/-- The same configuration with the key names spelled in full, a comment
line and an empty line. -/
def fullKeysFile : List (List Nat) :=
  [bytesOf "# chatty" ++ [10],
   [10],
   bytesOf "UnixPath = sock" ++ [10],
   bytesOf "MaxConnections = 8" ++ [10],
   bytesOf "ThreadsInPool = 2" ++ [10],
   bytesOf "MaxMsgSize = 100" ++ [10],
   bytesOf "MaxFileSize = 1" ++ [10],
   bytesOf "MaxHistMsgs = 10" ++ [10],
   bytesOf "DirName = dir" ++ [10],
   bytesOf "StatFileName = stats" ++ [10]]

/-- The list sub occurs in the list l as a run of consecutive elements. -/
def occursIn (sub l : List Nat) : Bool :=
  l.tails.any (fun t => sub.isPrefixOf t)

/-! ## Theorems: bounded message history -/

theorem pushAll_append (q : msgqueue_t) (ms : List message_t) (m : message_t) :
    pushAll q (ms ++ [m]) = (pushMsgQueue (pushAll q ms) m).1 := by
  simp [pushAll, List.foldl_append]

/-- One push onto a queue whose size field counts its nodes and does not
exceed dim_max: the same holds afterwards, and the new node is appended, after
the head has been dropped when the queue was full. -/
theorem pushMsgQueue_nodes (q : msgqueue_t) (m : message_t)
    (hs : q.size = q.nodes.length) (hle : q.size ≤ q.dim_max) (hd : 1 ≤ q.dim_max) :
    (pushMsgQueue q m).1.dim_max = q.dim_max ∧
    (pushMsgQueue q m).1.size = (pushMsgQueue q m).1.nodes.length ∧
    (pushMsgQueue q m).1.size ≤ q.dim_max ∧
    (pushMsgQueue q m).1.nodes =
      if q.size < q.dim_max then q.nodes ++ [createMsgNode m]
      else q.nodes.tail ++ [createMsgNode m] := by
  rcases q with ⟨size, dim_max, nodes⟩
  simp only at hs hle hd
  subst hs
  cases nodes with
  | nil =>
    simp only [pushMsgQueue, List.length_nil] at *
    have : 0 < dim_max := hd
    simp [this]
    omega
  | cons a t =>
    simp only [pushMsgQueue]
    by_cases h : (a :: t).length < dim_max
    · simp only [h, if_true]
      simp at h ⊢
      omega
    · have heq : (a :: t).length = dim_max := by omega
      simp only [h, if_false, heq, if_true]
      simp at heq ⊢
      omega

theorem createMsgQueue_fresh (dim : Int) :
    (createMsgQueue dim).size = 0 ∧ (createMsgQueue dim).nodes = [] ∧
      2 ≤ (createMsgQueue dim).dim_max ∧
      (1 ≤ dim → ((createMsgQueue dim).dim_max : Int) = dim + 1) := by
  unfold createMsgQueue
  refine ⟨rfl, rfl, ?_, ?_⟩
  · by_cases h : dim < 1
    · simp [h]
    · simp only [h, if_false]; omega
  · intro h
    have : ¬ dim < 1 := by omega
    simp only [this, if_false]; omega

/-- Contents of a well-formed queue after a run of pushes: the last dim_max
of the old nodes followed by the copies of the pushed messages. -/
theorem pushAll_nodes (q : msgqueue_t) (ms : List message_t)
    (hs : q.size = q.nodes.length) (hle : q.size ≤ q.dim_max) (hd : 1 ≤ q.dim_max) :
    (pushAll q ms).dim_max = q.dim_max ∧
    (pushAll q ms).size = (pushAll q ms).nodes.length ∧
    (pushAll q ms).size ≤ q.dim_max ∧
    (pushAll q ms).nodes =
      (q.nodes ++ ms.map createMsgNode).drop (q.nodes.length + ms.length - q.dim_max) := by
  induction ms using List.reverseRecOn with
  | nil =>
    refine ⟨rfl, hs, hle, ?_⟩
    have : q.nodes.length - q.dim_max = 0 := by omega
    simp [pushAll, this]
  | append_singleton ms m ih =>
    obtain ⟨h1, h2, h3, h4⟩ := ih
    rw [pushAll_append]
    have hp := pushMsgQueue_nodes (pushAll q ms) m h2 (h1 ▸ h3) (h1 ▸ hd)
    obtain ⟨p1, p2, p3, p4⟩ := hp
    refine ⟨p1.trans h1, p2, h1 ▸ p3, ?_⟩
    rw [p4, h4]
    have hlen : (pushAll q ms).size = min (q.nodes.length + ms.length) q.dim_max := by
      rw [h2, h4]; simp; omega
    rw [h1, hlen]
    set L := q.nodes ++ ms.map createMsgNode with hL
    have hLlen : L.length = q.nodes.length + ms.length := by simp [hL]
    have hL2 : q.nodes ++ (ms ++ [m]).map createMsgNode = L ++ [createMsgNode m] := by
      simp [hL]
    rw [hL2]
    by_cases hlt : q.nodes.length + ms.length < q.dim_max
    · have e1 : min (q.nodes.length + ms.length) q.dim_max < q.dim_max := by
        rw [Nat.min_def]; split <;> omega
      have e2 : q.nodes.length + ms.length - q.dim_max = 0 := by omega
      have e3 : q.nodes.length + (ms.length + 1) - q.dim_max = 0 := by omega
      simp [e1, e2, e3]
    · have e1 : ¬ min (q.nodes.length + ms.length) q.dim_max < q.dim_max := by
        rw [Nat.min_def]; split <;> omega
      have e3 : q.nodes.length + (ms ++ [m]).length - q.dim_max
          = (q.nodes.length + ms.length - q.dim_max) + 1 := by
        simp; omega
      simp only [e1, if_false, e3]
      have hk : q.nodes.length + ms.length - q.dim_max ≤ L.length := by omega
      rw [← List.drop_drop, List.drop_append_of_le_length hk, List.drop_one]
      have hne : L.drop (q.nodes.length + ms.length - q.dim_max) ≠ [] := by
        intro h0
        have := congrArg List.length h0
        simp at this; omega
      cases hc : L.drop (q.nodes.length + ms.length - q.dim_max) with
      | nil => exact absurd hc hne
      | cons a t => simp

theorem strncpy_length (src : List Nat) (n : Nat) : (strncpy src n).length = n := by
  simp only [strncpy, List.length_append, List.length_replicate, List.length_take]
  omega

theorem createMsgNode_textPayload (m : message_t) (h : textPayload m) :
    createMsgNode m = m := by
  rcases m with ⟨op, sender, receiver, len, buf⟩
  obtain ⟨h1, h2⟩ := h
  simp only at h1 h2
  simp only [createMsgNode, strncpy, message_t.mk.injEq, true_and]
  have hle : (buf.takeWhile (fun c => decide (c ≠ 0))).length ≤ len := by
    rw [← h1]
    exact (List.takeWhile_sublist _).length_le
  rw [List.take_of_length_le hle, ← h2]
  exact List.takeWhile_append_dropWhile _ buf

theorem map_createMsgNode_textPayload (ms : List message_t)
    (h : ∀ m ∈ ms, textPayload m) : ms.map createMsgNode = ms := by
  induction ms with
  | nil => rfl
  | cons a t ih =>
    simp only [List.map_cons]
    rw [createMsgNode_textPayload a (h a (List.mem_cons_self a t)),
      ih (fun m hm => h m (List.mem_cons_of_mem a hm))]

/-- C2 (what the code does): on a history queue created with capacity
MaxHistMsgs >= 1 the size field and the number of stored nodes after pushing
a list of messages are both min(number pushed, MaxHistMsgs + 1); pushing
MaxHistMsgs + 1 messages therefore leaves MaxHistMsgs + 1 messages stored,
one more than the capacity. -/
theorem C2_history_holds_one_more (MaxHistMsgs : Nat) (hcap : 1 ≤ MaxHistMsgs)
    (ms : List message_t) :
    (pushAll (createMsgQueue MaxHistMsgs) ms).size = min ms.length (MaxHistMsgs + 1) ∧
    (pushAll (createMsgQueue MaxHistMsgs) ms).nodes.length = min ms.length (MaxHistMsgs + 1) ∧
    (ms.length = MaxHistMsgs + 1 →
      ¬ (pushAll (createMsgQueue MaxHistMsgs) ms).size ≤ MaxHistMsgs ∧
      ¬ (pushAll (createMsgQueue MaxHistMsgs) ms).nodes.length ≤ MaxHistMsgs) := by
  obtain ⟨f1, f2, f3, f4⟩ := createMsgQueue_fresh (MaxHistMsgs : Int)
  have hdim : (createMsgQueue (MaxHistMsgs : Int)).dim_max = MaxHistMsgs + 1 := by
    have := f4 (by exact_mod_cast hcap)
    exact_mod_cast this
  obtain ⟨p1, p2, p3, p4⟩ := pushAll_nodes (createMsgQueue (MaxHistMsgs : Int)) ms
    (by rw [f1, f2]; rfl) (by rw [f1]; exact Nat.zero_le _) (by omega)
  have hn : (pushAll (createMsgQueue (MaxHistMsgs : Int)) ms).nodes.length
      = min ms.length (MaxHistMsgs + 1) := by
    rw [p4, f2, hdim]; simp; omega
  refine ⟨by rw [p2, hn], hn, ?_⟩
  intro hl
  rw [p2, hn, hl]
  simp

/-- C2 witness: capacity 1, two pushes, two messages stored. -/
theorem C2_history_holds_one_more_witness :
    (pushAll (createMsgQueue 1)
        [⟨op_t.TXT_MESSAGE, "a", "b", 1, [104]⟩, ⟨op_t.TXT_MESSAGE, "a", "b", 1, [105]⟩]).size = 2 ∧
    ¬ (pushAll (createMsgQueue 1)
        [⟨op_t.TXT_MESSAGE, "a", "b", 1, [104]⟩, ⟨op_t.TXT_MESSAGE, "a", "b", 1, [105]⟩]).size ≤ 1 := by
  have h := C2_history_holds_one_more 1 (by decide)
    [⟨op_t.TXT_MESSAGE, "a", "b", 1, [104]⟩, ⟨op_t.TXT_MESSAGE, "a", "b", 1, [105]⟩]
  exact ⟨h.1, (h.2.2 rfl).1⟩

/-- What the code does with a run of pushes into a fresh history queue: the
stored messages from head to tail are the copies (createMsgNode) of the last
min(k, dim_max) pushed messages, in push order; when every payload is a text
payload the copies are the messages themselves.  A push at size < dim_max
removes nothing and appends the copy at the tail; a push at size = dim_max
removes exactly the head and appends the copy at the tail; one of the two
cases always applies. -/
theorem history_nodes_after_pushes (dim : Int) (ms : List message_t) :
    (pushAll (createMsgQueue dim) ms).nodes
      = (ms.map createMsgNode).drop (ms.length - (createMsgQueue dim).dim_max) ∧
    ((∀ m ∈ ms, textPayload m) →
      (pushAll (createMsgQueue dim) ms).nodes
        = ms.drop (ms.length - (createMsgQueue dim).dim_max)) ∧
    (∀ m : message_t,
      ((pushAll (createMsgQueue dim) ms).size < (pushAll (createMsgQueue dim) ms).dim_max →
        (pushMsgQueue (pushAll (createMsgQueue dim) ms) m).1.nodes
          = (pushAll (createMsgQueue dim) ms).nodes ++ [createMsgNode m]) ∧
      ((pushAll (createMsgQueue dim) ms).size = (pushAll (createMsgQueue dim) ms).dim_max →
        (pushMsgQueue (pushAll (createMsgQueue dim) ms) m).1.nodes
          = (pushAll (createMsgQueue dim) ms).nodes.tail ++ [createMsgNode m]) ∧
      ((pushAll (createMsgQueue dim) ms).size < (pushAll (createMsgQueue dim) ms).dim_max ∨
        (pushAll (createMsgQueue dim) ms).size = (pushAll (createMsgQueue dim) ms).dim_max)) := by
  obtain ⟨f1, f2, f3, _⟩ := createMsgQueue_fresh dim
  obtain ⟨p1, p2, p3, p4⟩ := pushAll_nodes (createMsgQueue dim) ms
    (by rw [f1, f2]; rfl) (by rw [f1]; exact Nat.zero_le _) (by omega)
  have hnodes : (pushAll (createMsgQueue dim) ms).nodes
      = (ms.map createMsgNode).drop (ms.length - (createMsgQueue dim).dim_max) := by
    rw [p4, f2]; simp
  refine ⟨hnodes, ?_, ?_⟩
  · intro h
    rw [hnodes, map_createMsgNode_textPayload ms h]
  · intro m
    obtain ⟨_, _, _, q4⟩ := pushMsgQueue_nodes (pushAll (createMsgQueue dim) ms) m p2
      (p1 ▸ p3) (by rw [p1]; omega)
    refine ⟨?_, ?_, ?_⟩
    · intro hlt
      rw [q4, if_pos hlt]
    · intro heq
      rw [q4, if_neg (by omega)]
    · have := p1 ▸ p3
      omega

/-- C9 (code at the failing input): a fresh history queue of capacity 10 gets
one push, of a message whose three payload bytes are 97, 0, 98.  The stored
message has the payload 97, 0, 0, so the stored messages are not a suffix of
the pushed sequence.  And a fresh queue of capacity 1 that holds one message
is not treated as full: the second push removes nothing and the queue holds
both messages; the third push is the first to remove the head. -/
theorem C9_stored_messages_not_a_suffix :
    (pushAll (createMsgQueue 10) [⟨op_t.TXT_MESSAGE, "b", "a", 3, [97, 0, 98]⟩]).nodes
      = [⟨op_t.TXT_MESSAGE, "b", "a", 3, [97, 0, 0]⟩] ∧
    ¬ List.IsSuffix
        (pushAll (createMsgQueue 10) [⟨op_t.TXT_MESSAGE, "b", "a", 3, [97, 0, 98]⟩]).nodes
        [⟨op_t.TXT_MESSAGE, "b", "a", 3, [97, 0, 98]⟩] ∧
    (pushAll (createMsgQueue 1) [⟨op_t.TXT_MESSAGE, "b", "a", 1, [104]⟩]).nodes
      = [⟨op_t.TXT_MESSAGE, "b", "a", 1, [104]⟩] ∧
    (pushMsgQueue (pushAll (createMsgQueue 1) [⟨op_t.TXT_MESSAGE, "b", "a", 1, [104]⟩])
        ⟨op_t.TXT_MESSAGE, "b", "a", 1, [105]⟩).1.nodes
      = [⟨op_t.TXT_MESSAGE, "b", "a", 1, [104]⟩, ⟨op_t.TXT_MESSAGE, "b", "a", 1, [105]⟩] ∧
    (pushAll (createMsgQueue 1)
        [⟨op_t.TXT_MESSAGE, "b", "a", 1, [104]⟩, ⟨op_t.TXT_MESSAGE, "b", "a", 1, [105]⟩,
         ⟨op_t.TXT_MESSAGE, "b", "a", 1, [106]⟩]).nodes
      = [⟨op_t.TXT_MESSAGE, "b", "a", 1, [105]⟩, ⟨op_t.TXT_MESSAGE, "b", "a", 1, [106]⟩] := by
  decide

/-! ## Theorems: hash tables -/

theorem icl_hash_find_modify_self {κ ν : Type} [DecidableEq κ] (ht : icl_hash_t κ ν) (key : κ)
    (f : ν → ν) : icl_hash_find (icl_hash_modify ht key f) key = (icl_hash_find ht key).map f := by
  induction ht with
  | nil => rfl
  | cons e t ih =>
    obtain ⟨k, v⟩ := e
    by_cases h : k = key
    · simp [icl_hash_modify, icl_hash_find, h]
    · simp [icl_hash_modify, icl_hash_find, h, ih]

theorem icl_hash_find_modify_other {κ ν : Type} [DecidableEq κ] (ht : icl_hash_t κ ν)
    (key key2 : κ) (f : ν → ν) (hne : key2 ≠ key) :
    icl_hash_find (icl_hash_modify ht key f) key2 = icl_hash_find ht key2 := by
  induction ht with
  | nil => rfl
  | cons e t ih =>
    obtain ⟨k, v⟩ := e
    by_cases h : k = key
    · have h2 : ¬ k = key2 := by rw [h]; exact fun e => hne e.symm
      simp [icl_hash_modify, icl_hash_find, h, h2]
      have : ¬ key = key2 := fun e => hne e.symm
      simp [this]
    · by_cases h3 : k = key2
      · subst h3
        simp [icl_hash_modify, icl_hash_find, h]
      · simp [icl_hash_modify, icl_hash_find, h, h3, ih]

theorem icl_hash_delete_found {κ ν : Type} [DecidableEq κ] (ht : icl_hash_t κ ν) (key : κ)
    (v : ν) (h : icl_hash_find ht key = some v) : (icl_hash_delete ht key).2 = 0 := by
  induction ht with
  | nil => simp [icl_hash_find] at h
  | cons e t ih =>
    obtain ⟨k, w⟩ := e
    by_cases hk : k = key
    · simp [icl_hash_delete, hk]
    · simp only [icl_hash_find, hk, if_false] at h
      simp [icl_hash_delete, hk, ih h]

theorem icl_hash_find_none_of_not_mem {κ ν : Type} [DecidableEq κ] (ht : icl_hash_t κ ν)
    (key : κ) (h : key ∉ ht.map Prod.fst) : icl_hash_find ht key = none := by
  induction ht with
  | nil => rfl
  | cons e t ih =>
    obtain ⟨k, w⟩ := e
    simp only [List.map_cons, List.mem_cons, not_or] at h
    have hk : ¬ k = key := fun e => h.1 e.symm
    simp [icl_hash_find, hk, ih h.2]

theorem icl_hash_find_delete_self {κ ν : Type} [DecidableEq κ] (ht : icl_hash_t κ ν) (key : κ)
    (hnd : (ht.map Prod.fst).Nodup) : icl_hash_find (icl_hash_delete ht key).1 key = none := by
  induction ht with
  | nil => rfl
  | cons e t ih =>
    obtain ⟨k, w⟩ := e
    simp only [List.map_cons, List.nodup_cons] at hnd
    by_cases hk : k = key
    · simp only [icl_hash_delete, hk, if_true]
      exact icl_hash_find_none_of_not_mem t key (hk ▸ hnd.1)
    · simp [icl_hash_delete, icl_hash_find, hk, ih hnd.2]

/-! ## Theorems: user registry -/

/-- C1 (code at the failing input): on a fresh registry, after
registerUser("a", 5), disconnectUser(NULL, 5), unregisterUser("a", 5) the
counter usersOnline is 4294967295 (the unsigned int 0 decremented) although no
user record and no fd entry is left; and after registerUser("a", 5),
registerUser("b", 5) two records are online and usersOnline is 2 while the fd
map holds one entry. -/
theorem C1_usersOnline_out_of_step :
    (runOps (createUsersStruct 10 4)
      [.register "a" 5, .disconnect none 5, .unregister "a" 5]).usersOnline = 4294967295 ∧
    onlineRecords (runOps (createUsersStruct 10 4)
      [.register "a" 5, .disconnect none 5, .unregister "a" 5]) = 0 ∧
    (runOps (createUsersStruct 10 4)
      [.register "a" 5, .disconnect none 5, .unregister "a" 5]).fdusr.length = 0 ∧
    (runOps (createUsersStruct 10 4) [.register "a" 5, .register "b" 5]).usersOnline = 2 ∧
    onlineRecords (runOps (createUsersStruct 10 4) [.register "a" 5, .register "b" 5]) = 2 ∧
    (runOps (createUsersStruct 10 4) [.register "a" 5, .register "b" 5]).fdusr.length = 1 := by
  decide

/-- C5 (code at the failing input): with "a" registered on fd 5, the call
registerUser("b", 5) returns -1 although "b" has no record before the call;
the call nevertheless creates the record of "b" bound to fd 5 and increments
usersOnline, and the fd map still sends 5 to "a". -/
theorem C5_register_same_fd_returns_minus_one :
    icl_hash_find (registerUser (createUsersStruct 10 4) "a" 5).1.users "b" = none ∧
    (registerUser (registerUser (createUsersStruct 10 4) "a" 5).1 "b" 5).2 = -1 ∧
    (icl_hash_find (registerUser (registerUser (createUsersStruct 10 4) "a" 5).1 "b" 5).1.users
      "b").map user_data_t.fd = some 5 ∧
    icl_hash_find (registerUser (registerUser (createUsersStruct 10 4) "a" 5).1 "b" 5).1.fdusr 5
      = some "a" ∧
    (registerUser (registerUser (createUsersStruct 10 4) "a" 5).1 "b" 5).1.usersOnline = 2 := by
  decide

/-- C6 (code at the failing input): "a" registers on fd 5 and then sends an
explicit DISCONNECT, for which executeReq calls disconnectUser("a", 0); "a" is
now registered and offline.  The call connectUser("a", 5) returns -1 (the code
for an unknown nickname) although "a" has a record; it nevertheless binds the
record to fd 5 and increments usersOnline.  Likewise, with "a" online on fd 5
and "b" registered and offline, connectUser("b", 5) returns -1, binds the
record of "b" to fd 5 and increments usersOnline while the fd map still sends
5 to "a". -/
theorem C6_connect_taken_fd_returns_minus_one :
    (icl_hash_find (runOps (createUsersStruct 10 4)
      [.register "a" 5, .disconnect (some "a") 0]).users "a").map user_data_t.fd
      = some OFFLINE ∧
    (connectUser (runOps (createUsersStruct 10 4)
      [.register "a" 5, .disconnect (some "a") 0]) "a" 5).2 = -1 ∧
    (icl_hash_find (connectUser (runOps (createUsersStruct 10 4)
      [.register "a" 5, .disconnect (some "a") 0]) "a" 5).1.users "a").map user_data_t.fd
      = some 5 ∧
    (runOps (createUsersStruct 10 4)
      [.register "a" 5, .disconnect (some "a") 0]).usersOnline = 0 ∧
    (connectUser (runOps (createUsersStruct 10 4)
      [.register "a" 5, .disconnect (some "a") 0]) "a" 5).1.usersOnline = 1 ∧
    (icl_hash_find (runOps (createUsersStruct 10 4)
      [.register "a" 5, .register "b" 6, .disconnect none 6]).users "b").map user_data_t.fd
      = some OFFLINE ∧
    (connectUser (runOps (createUsersStruct 10 4)
      [.register "a" 5, .register "b" 6, .disconnect none 6]) "b" 5).2 = -1 ∧
    (icl_hash_find (connectUser (runOps (createUsersStruct 10 4)
      [.register "a" 5, .register "b" 6, .disconnect none 6]) "b" 5).1.users "b").map
        user_data_t.fd = some 5 ∧
    icl_hash_find (connectUser (runOps (createUsersStruct 10 4)
      [.register "a" 5, .register "b" 6, .disconnect none 6]) "b" 5).1.fdusr 5 = some "a" ∧
    (runOps (createUsersStruct 10 4)
      [.register "a" 5, .register "b" 6, .disconnect none 6]).usersOnline = 1 ∧
    (connectUser (runOps (createUsersStruct 10 4)
      [.register "a" 5, .register "b" 6, .disconnect none 6]) "b" 5).1.usersOnline = 2 := by
  decide

theorem icl_hash_not_mem_of_find_none {κ ν : Type} [DecidableEq κ] (ht : icl_hash_t κ ν)
    (key : κ) (h : icl_hash_find ht key = none) : key ∉ ht.map Prod.fst := by
  induction ht with
  | nil => simp
  | cons e t ih =>
    obtain ⟨k, w⟩ := e
    by_cases hk : k = key
    · simp [icl_hash_find, hk] at h
    · simp only [icl_hash_find, hk, if_false] at h
      simp only [List.map_cons, List.mem_cons, not_or]
      exact ⟨fun e => hk e.symm, ih h⟩

theorem icl_hash_insert_keys_nodup {κ ν : Type} [DecidableEq κ] (ht : icl_hash_t κ ν)
    (key : κ) (data : ν) (h : (ht.map Prod.fst).Nodup) :
    ((icl_hash_insert ht key data).1.map Prod.fst).Nodup := by
  unfold icl_hash_insert
  cases hf : icl_hash_find ht key with
  | some v => exact h
  | none =>
    simp only [List.map_cons, List.nodup_cons]
    exact ⟨icl_hash_not_mem_of_find_none ht key hf, h⟩

theorem icl_hash_delete_keys_sublist {κ ν : Type} [DecidableEq κ] (ht : icl_hash_t κ ν)
    (key : κ) : ((icl_hash_delete ht key).1.map Prod.fst).Sublist (ht.map Prod.fst) := by
  induction ht with
  | nil => simp [icl_hash_delete]
  | cons e t ih =>
    obtain ⟨k, w⟩ := e
    by_cases hk : k = key
    · simp only [icl_hash_delete, hk, if_true, List.map_cons]
      exact List.sublist_cons_self _ _
    · simp only [icl_hash_delete, hk, if_false, List.map_cons]
      exact List.Sublist.cons₂ _ ih

theorem icl_hash_delete_keys_nodup {κ ν : Type} [DecidableEq κ] (ht : icl_hash_t κ ν)
    (key : κ) (h : (ht.map Prod.fst).Nodup) :
    ((icl_hash_delete ht key).1.map Prod.fst).Nodup :=
  List.Nodup.sublist (icl_hash_delete_keys_sublist ht key) h

/-- No call of the registry interface stores a key twice in the fd map. -/
theorem RegOp_run_fdusr_nodup (tab : users_struct_t) (op : RegOp)
    (h : (tab.fdusr.map Prod.fst).Nodup) : ((RegOp.run tab op).fdusr.map Prod.fst).Nodup := by
  cases op with
  | register nick fd =>
    simp only [RegOp.run, registerUser]
    split
    · exact icl_hash_insert_keys_nodup _ _ _ h
    · exact h
  | connect nick fd =>
    simp only [RegOp.run, connectUser]
    split
    · split
      · exact icl_hash_insert_keys_nodup _ _ _ h
      · exact h
    · exact h
  | disconnect nick fd =>
    simp only [RegOp.run, disconnectUser]
    split
    · split
      · exact icl_hash_delete_keys_nodup _ _ h
      · exact h
    · exact h
  | unregister nick fd =>
    simp only [RegOp.run, unregisterUser]
    split
    · exact icl_hash_delete_keys_nodup _ _ h
    · exact h

/-- Every registry reached from a fresh one by calls of the registry
interface stores no key twice in its fd map. -/
theorem runOps_fdusr_nodup (historysize nbuckets : Nat) (ops : List RegOp) :
    ((runOps (createUsersStruct historysize nbuckets) ops).fdusr.map Prod.fst).Nodup := by
  have gen : ∀ (ops : List RegOp) (tab : users_struct_t), (tab.fdusr.map Prod.fst).Nodup →
      ((runOps tab ops).fdusr.map Prod.fst).Nodup := by
    intro ops
    induction ops with
    | nil => intro tab h; exact h
    | cons op rest ih =>
      intro tab h
      exact ih (RegOp.run tab op) (RegOp_run_fdusr_nodup tab op h)
  exact gen ops _ (by simp [createUsersStruct])

/-- C7 (counterexample): with "a" online on fd 5, the second of two implicit
disconnections disconnectUser(NULL, 5) returns -2, not -1. -/
theorem C7_second_implicit_disconnect_returns_minus_two :
    icl_hash_find (registerUser (createUsersStruct 10 4) "a" 5).1.fdusr 5 = some "a" ∧
    (disconnectUser (registerUser (createUsersStruct 10 4) "a" 5).1 none 5).2 = 0 ∧
    (disconnectUser (disconnectUser (registerUser (createUsersStruct 10 4) "a" 5).1 none 5).1
      none 5).2 = -2 ∧
    ¬ (disconnectUser (disconnectUser (registerUser (createUsersStruct 10 4) "a" 5).1 none 5).1
      none 5).2 = -1 := by
  decide

/-- C7 (amended): in a registry whose fd map stores no key twice, let the fd
map send fd to the nickname of a user who is online.  Called twice in a row
with the same arguments, disconnectUser returns 0 the first time; the second
call returns -1 when the nickname is given and -2 when it is NULL, and in both
cases leaves the registry exactly as the first call left it. -/
theorem C7_disconnect_twice (tab : users_struct_t) (nick : String) (fd : Nat) (u : user_data_t)
    (hkeys : (tab.fdusr.map Prod.fst).Nodup)
    (hfd : icl_hash_find tab.fdusr fd = some nick)
    (hu : icl_hash_find tab.users nick = some u)
    (hon : u.fd ≠ OFFLINE) :
    (disconnectUser tab (some nick) fd).2 = 0 ∧
    disconnectUser (disconnectUser tab (some nick) fd).1 (some nick) fd
      = ((disconnectUser tab (some nick) fd).1, -1) ∧
    (disconnectUser tab none fd).2 = 0 ∧
    disconnectUser (disconnectUser tab none fd).1 none fd
      = ((disconnectUser tab none fd).1, -2) := by
  have hdel := icl_hash_delete_found tab.fdusr fd nick hfd
  have e1 : disconnectUser tab (some nick) fd
      = ({ tab with users := icl_hash_modify tab.users nick (fun u => { u with fd := OFFLINE }),
                    fdusr := (icl_hash_delete tab.fdusr fd).1,
                    usersOnline := (tab.usersOnline + 2 ^ 32 - 1) % 2 ^ 32 }, 0) := by
    simp [disconnectUser, hu, hon, hdel]
  have e2 : disconnectUser tab none fd = disconnectUser tab (some nick) fd := by
    simp [disconnectUser, hfd]
  have hfind : icl_hash_find
      (icl_hash_modify tab.users nick (fun u => { u with fd := OFFLINE })) nick
      = some { u with fd := OFFLINE } := by
    rw [icl_hash_find_modify_self, hu]; rfl
  have hgone := icl_hash_find_delete_self tab.fdusr fd hkeys
  refine ⟨?_, ?_, ?_, ?_⟩
  · rw [e1]
  · rw [e1]
    simp [disconnectUser, hfind]
  · rw [e2, e1]
  · rw [e2, e1]
    simp [disconnectUser, hgone]

/-- C7 witness: the registry holding "a" online on fd 5. -/
theorem C7_disconnect_twice_witness :
    (disconnectUser (registerUser (createUsersStruct 10 4) "a" 5).1 (some "a") 5).2 = 0 ∧
    disconnectUser (disconnectUser (registerUser (createUsersStruct 10 4) "a" 5).1
        (some "a") 5).1 (some "a") 5
      = ((disconnectUser (registerUser (createUsersStruct 10 4) "a" 5).1 (some "a") 5).1, -1) ∧
    (disconnectUser (registerUser (createUsersStruct 10 4) "a" 5).1 none 5).2 = 0 ∧
    disconnectUser (disconnectUser (registerUser (createUsersStruct 10 4) "a" 5).1 none 5).1 none 5
      = ((disconnectUser (registerUser (createUsersStruct 10 4) "a" 5).1 none 5).1, -2) :=
  C7_disconnect_twice (registerUser (createUsersStruct 10 4) "a" 5).1 "a" 5
    ⟨"a", 5, createMsgQueue 10⟩ (by decide) (by decide) (by decide) (by decide)

/-- C8 (code at the failing input): after registerUser("a", 5) followed by
unregisterUser("a", 7) the fd map still sends 5 to "a" although "a" has no
record; after registerUser("a", 5) followed by disconnectUser("a", 0), the
call made for an explicit DISCONNECT request, the fd map still sends 5 to "a"
although "a" is offline. -/
theorem C8_stale_fd_entry :
    icl_hash_find (runOps (createUsersStruct 10 4)
      [.register "a" 5, .unregister "a" 7]).fdusr 5 = some "a" ∧
    icl_hash_find (runOps (createUsersStruct 10 4)
      [.register "a" 5, .unregister "a" 7]).users "a" = none ∧
    icl_hash_find (runOps (createUsersStruct 10 4)
      [.register "a" 5, .disconnect (some "a") 0]).fdusr 5 = some "a" ∧
    (icl_hash_find (runOps (createUsersStruct 10 4)
      [.register "a" 5, .disconnect (some "a") 0]).users "a").map user_data_t.fd
      = some OFFLINE := by
  decide

/-- C10 (code at the failing input): a message for "a" whose three payload
bytes are 97, 0, 98 is posted with postOnHistory; getHistory("a") then returns
one message whose payload bytes are 97, 0, 0: the byte after the NUL is
lost. -/
theorem C10_history_payload_cut_at_nul :
    (getHistory (postOnHistory (registerUser (createUsersStruct 10 4) "a" 5).1
      ⟨op_t.TXT_MESSAGE, "b", "a", 3, [97, 0, 98]⟩).1 "a").map msgqueue_t.nodes
      = some [⟨op_t.TXT_MESSAGE, "b", "a", 3, [97, 0, 0]⟩] ∧
    (getHistory (postOnHistory (registerUser (createUsersStruct 10 4) "a" 5).1
      ⟨op_t.TXT_MESSAGE, "b", "a", 3, [97, 0, 98]⟩).1 "a").map msgqueue_t.nodes
      ≠ some [⟨op_t.TXT_MESSAGE, "b", "a", 3, [97, 0, 98]⟩] := by
  decide
/-! ## Theorems: request engine, POSTTXT -/

theorem toInt32_of_lt (n : Nat) (h : n < 2 ^ 31) : toInt32 n = (n : Int) := by
  have h1 : n % 2 ^ 32 = n := Nat.mod_eq_of_lt (by omega)
  simp only [toInt32, h1]
  rw [if_pos h]

theorem addULong_zero (x : Nat) (h : x < 2 ^ 64) : addULong x 0 = x := by
  unfold addULong
  omega

theorem addULong_one (x : Nat) : addULong x 1 = (x + 1) % 2 ^ 64 := by
  unfold addULong
  omega

theorem addULong_one_neg_one (x : Nat) (h : x < 2 ^ 64) : addULong (addULong x 1) (-1) = x := by
  unfold addULong
  omega

theorem pushMsgQueue_ret (q : msgqueue_t) (m : message_t) : (pushMsgQueue q m).2 = 0 := by
  unfold pushMsgQueue
  split
  · rfl
  · simp only []
    split
    · rfl
    · split <;> rfl

theorem getLast?_append_singleton (l : List message_t) (x : message_t) :
    (l ++ [x]).getLast? = some x := by
  simp

theorem pushMsgQueue_getLast (q : msgqueue_t) (m : message_t) :
    (pushMsgQueue q m).1.nodes.getLast? = some (createMsgNode m) := by
  rcases q with ⟨size, dim_max, nodes⟩
  cases nodes with
  | nil => simp [pushMsgQueue]
  | cons a t =>
    simp only [pushMsgQueue]
    split
    · exact getLast?_append_singleton (a :: t) _
    · split
      · simp
      · exact getLast?_append_singleton (a :: t) _

theorem addULong_succ_mod_neg_one (x : Nat) (h : x < 2 ^ 64) :
    addULong ((x + 1) % 2 ^ 64) (-1) = x := by
  unfold addULong
  omega

theorem getUserFD_of_find (tab : users_struct_t) (nick : String) (u : user_data_t)
    (h : icl_hash_find tab.users nick = some u) :
    getUserFD tab nick = if u.fd ≠ OFFLINE then toInt32 u.fd else 0 := by
  simp [getUserFD, h]

theorem postOnHistory_of_find (tab : users_struct_t) (msg : message_t) (u : user_data_t)
    (h : icl_hash_find tab.users msg.receiver = some u) :
    postOnHistory tab msg
      = ({ tab with
            users := icl_hash_modify tab.users msg.receiver
              (fun v => { v with msgq := (pushMsgQueue u.msgq msg).1 }) }, 0) := by
  simp [postOnHistory, h, pushMsgQueue_ret]

theorem sendReply_eq (io : Nat → Bool) (fd : Int) (reply : Option op_t) (s : Server) :
    sendReply io fd reply s
      = ({ s with out := s.out ++ [⟨fd, Wire.hdr reply "", io s.out.length⟩] },
          if io s.out.length then 0 else -1) := by
  unfold sendReply sendHeader
  by_cases h : io s.out.length <;> simp [h]

theorem sendRequest_eq (io : Nat → Bool) (fd : Int) (m : message_t) (s : Server) :
    sendRequest io fd m s
      = if io s.out.length then
          ({ s with out := s.out ++ [⟨fd, Wire.hdr (some m.op) m.sender, true⟩,
                ⟨fd, Wire.data m.receiver m.len m.buf, io (s.out.length + 1)⟩] },
            if io (s.out.length + 1) then 1 else -1)
        else
          ({ s with out := s.out ++ [⟨fd, Wire.hdr (some m.op) m.sender, false⟩] }, -1) := by
  unfold sendRequest sendHeader sendData
  by_cases h : io s.out.length
  · by_cases h2 : io (s.out.length + 1)
    · simp [h, h2]
    · simp [h, h2]
  · simp [h]

theorem pos_mod_of_nonneg (i n : Int) (h0 : 0 ≤ i) (h1 : i < n) : pos_mod i n = i := by
  unfold pos_mod
  rw [Int.tmod_eq_of_lt h0 h1, Int.tmod_eq_emod (by omega) (by omega), Int.add_emod_self,
    Int.emod_eq_of_lt h0 h1]

theorem neg_lt_tmod (i n : Int) (h : 0 < n) : -n < Int.tmod i n := by
  obtain ⟨k, rfl⟩ := Int.eq_ofNat_of_zero_le (le_of_lt h)
  cases i with
  | ofNat m =>
    have h2 : 0 ≤ Int.tmod (Int.ofNat m) (k : Int) :=
      Int.tmod_nonneg (k : Int) (Int.ofNat_nonneg m)
    omega
  | negSucc m =>
    show -(k : Int) < -Int.ofNat (Nat.succ m % k)
    have h2 : Nat.succ m % k < k := Nat.mod_lt _ (by omega)
    have h3 : (Int.ofNat (Nat.succ m % k)) < (k : Int) := Int.ofNat_lt.mpr h2
    omega

theorem tmod_neg_one (n : Int) (h : 2 ≤ n) : Int.tmod (-1) n = -1 := by
  obtain ⟨k, rfl⟩ := Int.eq_ofNat_of_zero_le (by omega : 0 ≤ n)
  show -Int.ofNat (Nat.succ 0 % k) = -1
  have hk : 2 ≤ k := by exact_mod_cast h
  rw [Nat.mod_eq_of_lt (by omega)]
  rfl

theorem pos_mod_neg_one (n : Int) (h : 1 ≤ n) : pos_mod (-1) n = n - 1 := by
  unfold pos_mod
  rcases (by omega : n = 1 ∨ 2 ≤ n) with h1 | h2
  · subst h1; decide
  · rw [tmod_neg_one n h2]
    have e : (-1 : Int) + n = n - 1 := by omega
    rw [e]
    exact Int.tmod_eq_of_lt (by omega) (by omega)

theorem pos_mod_nonneg (i n : Int) (h : 1 ≤ n) : 0 ≤ pos_mod i n := by
  unfold pos_mod
  have h1 := neg_lt_tmod i n (by omega)
  exact Int.tmod_nonneg _ (by omega)

theorem tmod_succ (r n : Int) (h0 : -1 ≤ r) (h1 : r < n) :
    Int.tmod (r + 1) n = if r + 1 = n then 0 else r + 1 := by
  by_cases h : r + 1 = n
  · rw [if_pos h, h]; exact Int.tmod_self
  · rw [if_neg h]; exact Int.tmod_eq_of_lt (by omega) (by omega)

theorem take_set_of_le (l : List Int) (n m : Nat) (x : Int) (h : m ≤ n) :
    (l.set n x).take m = l.take m := by
  induction l generalizing n m with
  | nil => simp
  | cons a t ih =>
    cases m with
    | zero => simp
    | succ m =>
      cases n with
      | zero => omega
      | succ n => simp [ih n m (by omega)]

theorem take_succ_set (l : List Int) (n : Nat) (x : Int) (h : n < l.length) :
    (l.set n x).take (n + 1) = l.take n ++ [x] := by
  rw [List.take_succ, take_set_of_le l n n x (Nat.le_refl n)]
  simp [h]

theorem getD_eq_of_lt (l : List Int) (n : Nat) (h : n < l.length) :
    l.getD n 0 = l[n] := by
  simp [List.getD, h]

theorem isFull_false_of_empty (q : queue) (hw : q.wf) (he : q.front = -1) : isFull q = false := by
  obtain ⟨hd, _, h | h⟩ := hw
  · have := pos_mod_nonneg (q.front - 1) q.dim hd
    simp only [isFull, beq_eq_false_iff_ne, ne_eq]
    omega
  · omega

theorem isFull_iff (q : queue) (hw : q.wf) (hne : q.front ≠ -1) :
    isFull q = true ↔ q.rear = (if q.front = 0 then q.dim - 1 else q.front - 1) := by
  obtain ⟨hd, _, h | h⟩ := hw
  · exact absurd h.1 hne
  · simp only [isFull, beq_iff_eq]
    by_cases h0 : q.front = 0
    · rw [h0, if_pos rfl]
      have : pos_mod (0 - 1) q.dim = q.dim - 1 := pos_mod_neg_one q.dim hd
      rw [this]
    · rw [if_neg h0, pos_mod_of_nonneg (q.front - 1) q.dim (by omega) (by omega)]

theorem enQueue_full (q : queue) (x : Int) (h : isFull q = true) : enQueue q x = (q, -1) := by
  simp [enQueue, h]

theorem enQueue_not_full (q : queue) (x : Int) (hw : q.wf) (h : isFull q = false) :
    (enQueue q x).1.wf ∧ (enQueue q x).2 = 0 ∧
      (enQueue q x).1.contents = q.contents ++ [x] := by
  by_cases he : q.front = -1
  · obtain ⟨hd, hlen, hc | hc⟩ := hw
    · rcases q with ⟨front, rear, dim, elem⟩
      simp only at he hd hlen hc h
      obtain ⟨rfl, rfl⟩ := hc
      have hl : 0 < elem.length := by omega
      have e : enQueue ⟨-1, -1, dim, elem⟩ x = (⟨0, 0, dim, elem.set 0 x⟩, 0) := by
        simp [enQueue, h]
      rw [e]
      refine ⟨⟨hd, ?_, Or.inr ?_⟩, rfl, ?_⟩
      · simpa using hlen
      · dsimp only; omega
      · simp only [queue.contents]
        cases elem with
        | nil => simp at hl
        | cons a t => simp
    · omega
  · have hfull := isFull_iff q hw he
    obtain ⟨hd, hlen, hc | hc⟩ := hw
    · exact absurd hc.1 he
    · rcases q with ⟨front, rear, dim, elem⟩
      simp only at he hd hlen hc h hfull
      obtain ⟨hf0, hf1, hr0, hr1⟩ := hc
      obtain ⟨f, rfl⟩ := Int.eq_ofNat_of_zero_le hf0
      obtain ⟨r, rfl⟩ := Int.eq_ofNat_of_zero_le hr0
      obtain ⟨d, rfl⟩ := Int.eq_ofNat_of_zero_le (by omega : 0 ≤ dim)
      simp only [Int.toNat_ofNat] at hlen
      have hnf : ¬ ((r : Int) = if (f : Int) = 0 then (d : Int) - 1 else (f : Int) - 1) := by
        rw [← hfull, h]; simp
      have hfd : f < d := by exact_mod_cast hf1
      have hrd : r < d := by exact_mod_cast hr1
      have hrear := tmod_succ (r : Int) (d : Int) (by omega) hr1
      by_cases hwrap : (r : Int) + 1 = (d : Int)
      · -- the new rear wraps to slot 0
        have hf1' : 1 ≤ f := by
          by_contra hcon
          have : f = 0 := by omega
          subst this
          simp at hnf
          omega
        have e : enQueue ⟨(f : Int), (r : Int), (d : Int), elem⟩ x
            = (⟨(f : Int), 0, (d : Int), elem.set 0 x⟩, 0) := by
          simp [enQueue, h, he, hrear, hwrap]
        rw [e]
        refine ⟨⟨hd, ?_, Or.inr ?_⟩, rfl, ?_⟩
        · simpa using hlen
        · dsimp only; omega
        have hrd' : r + 1 = d := by exact_mod_cast hwrap
        have c1 : ¬ ((f : Int) ≤ 0) := by omega
        have c2 : (f : Int) ≤ (r : Int) := by omega
        simp only [queue.contents, if_neg he, if_neg c1, if_pos c2, Int.toNat_ofNat, Int.toNat_zero]
        rw [List.drop_set_of_lt x elem (by omega : 0 < f)]
        have t1 : (elem.set 0 x).take (0 + 1) = [x] := by
          rw [take_succ_set elem 0 x (by omega)]; simp
        rw [t1, List.take_of_length_le (by omega : elem.length ≤ r + 1)]
      · have hr1' : r + 1 < d := by
          have : (r : Int) + 1 < d := by omega
          exact_mod_cast this
        have ht : ((r : Int) + 1).toNat = r + 1 := by omega
        have e : enQueue ⟨(f : Int), (r : Int), (d : Int), elem⟩ x
            = (⟨(f : Int), (r : Int) + 1, (d : Int), elem.set (r + 1) x⟩, 0) := by
          simp [enQueue, h, he, hrear, hwrap, ht]
        rw [e]
        refine ⟨⟨hd, ?_, Or.inr ?_⟩, rfl, ?_⟩
        · simpa using hlen
        · dsimp only; omega
        by_cases c : (f : Int) ≤ (r : Int)
        · have c2 : (f : Int) ≤ (r : Int) + 1 := by omega
          simp only [queue.contents, if_neg he, if_pos c, if_pos c2, Int.toNat_ofNat, ht]
          rw [take_succ_set elem (r + 1) x (by omega)]
          have hfr : f ≤ r := by exact_mod_cast c
          rw [List.drop_append_of_le_length (by simp; omega)]
        · have hlt : r + 1 < f := by
            by_contra hcon
            have hfr : ¬ f ≤ r := by
              intro h1; exact c (by exact_mod_cast h1)
            have hf0' : ¬ ((f : Int) = 0) := by omega
            rw [if_neg hf0'] at hnf
            omega
          have c2 : ¬ ((f : Int) ≤ (r : Int) + 1) := by omega
          simp only [queue.contents, if_neg he, if_neg c, if_neg c2, Int.toNat_ofNat, ht]
          rw [take_succ_set elem (r + 1) x (by omega),
            List.drop_set_of_lt x elem hlt, List.append_assoc]

theorem drop_take_succ_eq (elem : List Int) (f r : Nat) (hfl : f < elem.length) (h : f ≤ r) :
    (elem.take (r + 1)).drop f = elem[f] :: (elem.take (r + 1)).drop (f + 1) := by
  have hl : f < (elem.take (r + 1)).length := by simp; omega
  rw [List.drop_eq_getElem_cons hl]
  congr 1
  simp only [List.getElem_take]

theorem deQueue_some (f r d : Nat) (elem : List Int) (front1 rear1 : Int)
    (hfl : f < elem.length) (hk : elem[f] ≠ KILLTHREAD)
    (hfront : (if (f : Int) = (r : Int) then ((-1 : Int), (-1 : Int))
      else (Int.tmod ((f : Int) + 1) (d : Int), (r : Int))) = (front1, rear1)) :
    deQueue ⟨(f : Int), (r : Int), (d : Int), elem⟩
      = some (⟨front1, rear1, (d : Int), elem⟩, elem[f]) := by
  have hget : elem.getD f 0 = elem[f] := getD_eq_of_lt elem f hfl
  have hemp : isEmpty ⟨(f : Int), (r : Int), (d : Int), elem⟩ = false := by
    simp only [isEmpty, beq_eq_false_iff_ne, ne_eq]; omega
  unfold deQueue
  simp only [hemp, Bool.false_eq_true, if_false, Int.toNat_ofNat, hget, if_neg hk]
  by_cases h : (f : Int) = (r : Int)
  · rw [if_pos h] at hfront
    rw [if_pos h]
    obtain ⟨rfl, rfl⟩ := Prod.mk.inj hfront
    rfl
  · rw [if_neg h] at hfront
    rw [if_neg h]
    obtain ⟨rfl, rfl⟩ := Prod.mk.inj hfront
    rfl

theorem deQueue_nonempty (q : queue) (hw : q.wf) (hne : q.front ≠ -1) :
    ∃ (q1 : queue) (h : Int) (t : List Int),
      q.contents = h :: t ∧ q1.wf ∧ q1.contents = t ∧ q1.dim = q.dim ∧
        (h ≠ KILLTHREAD → deQueue q = some (q1, h)) := by
  obtain ⟨hd, hlen, hc | hc⟩ := hw
  · exact absurd hc.1 hne
  · rcases q with ⟨front, rear, dim, elem⟩
    simp only at hne hd hlen hc
    obtain ⟨hf0, hf1, hr0, hr1⟩ := hc
    obtain ⟨f, rfl⟩ := Int.eq_ofNat_of_zero_le hf0
    obtain ⟨r, rfl⟩ := Int.eq_ofNat_of_zero_le hr0
    obtain ⟨d, rfl⟩ := Int.eq_ofNat_of_zero_le (by omega : 0 ≤ dim)
    simp only [Int.toNat_ofNat] at hlen
    have hfd : f < d := by exact_mod_cast hf1
    have hrd : r < d := by exact_mod_cast hr1
    have hfl : f < elem.length := by omega
    have hfront := tmod_succ (f : Int) (d : Int) (by omega) hf1
    by_cases hfr : f = r
    · subst hfr
      refine ⟨⟨-1, -1, (d : Int), elem⟩, elem[f], [], ?_,
        ⟨hd, by simpa using hlen, Or.inl ⟨rfl, rfl⟩⟩, by simp [queue.contents], rfl, ?_⟩
      · simp only [queue.contents, if_neg hne, le_refl, if_true, Int.toNat_ofNat]
        rw [drop_take_succ_eq elem f f hfl (Nat.le_refl f), List.drop_of_length_le (by simp)]
      · intro hk
        exact deQueue_some f f d elem (-1) (-1) hfl hk (by simp)
    · by_cases hlt : f < r
      · have hf1d : ¬ ((f : Int) + 1 = (d : Int)) := by omega
        have hne2 : ¬ ((f : Int) = (r : Int)) := by omega
        refine ⟨⟨(f : Int) + 1, (r : Int), (d : Int), elem⟩, elem[f],
          (elem.take (r + 1)).drop (f + 1), ?_, ⟨hd, by simpa using hlen, Or.inr ?_⟩, ?_, rfl, ?_⟩
        · have c : (f : Int) ≤ (r : Int) := by omega
          simp only [queue.contents, if_neg hne, if_pos c, Int.toNat_ofNat]
          exact drop_take_succ_eq elem f r hfl (by omega)
        · dsimp only; omega
        · have c : (f : Int) + 1 ≤ (r : Int) := by omega
          have c0 : ¬ ((f : Int) + 1 = -1) := by omega
          have ht : ((f : Int) + 1).toNat = f + 1 := by omega
          simp only [queue.contents, if_neg c0, if_pos c, Int.toNat_ofNat, ht]
        · intro hk
          exact deQueue_some f r d elem _ _ hfl hk (by rw [if_neg hne2, hfront, if_neg hf1d])
      · have hgt : r < f := by omega
        have c : ¬ ((f : Int) ≤ (r : Int)) := by omega
        have hne2 : ¬ ((f : Int) = (r : Int)) := by omega
        have hcont : (⟨(f : Int), (r : Int), (d : Int), elem⟩ : queue).contents
            = elem[f] :: (elem.drop (f + 1) ++ elem.take (r + 1)) := by
          simp only [queue.contents, if_neg hne, if_neg c, Int.toNat_ofNat]
          rw [List.drop_eq_getElem_cons hfl]
          rfl
        by_cases hwrap : (f : Int) + 1 = (d : Int)
        · have hfd' : f + 1 = d := by exact_mod_cast hwrap
          refine ⟨⟨0, (r : Int), (d : Int), elem⟩, elem[f],
            elem.drop (f + 1) ++ elem.take (r + 1), hcont,
            ⟨hd, by simpa using hlen, Or.inr ?_⟩, ?_, rfl, ?_⟩
          · dsimp only; omega
          · have c0 : ¬ ((0 : Int) = -1) := by omega
            have c1 : (0 : Int) ≤ (r : Int) := by omega
            simp only [queue.contents, if_neg c0, if_pos c1, Int.toNat_ofNat, Int.toNat_zero]
            rw [List.drop_of_length_le (by omega : elem.length ≤ f + 1)]
            simp
          · intro hk
            exact deQueue_some f r d elem _ _ hfl hk (by rw [if_neg hne2, hfront, if_pos hwrap])
        · refine ⟨⟨(f : Int) + 1, (r : Int), (d : Int), elem⟩, elem[f],
            elem.drop (f + 1) ++ elem.take (r + 1), hcont,
            ⟨hd, by simpa using hlen, Or.inr ?_⟩, ?_, rfl, ?_⟩
          · dsimp only; omega
          · have c0 : ¬ ((f : Int) + 1 = -1) := by omega
            have c1 : ¬ ((f : Int) + 1 ≤ (r : Int)) := by omega
            have ht : ((f : Int) + 1).toNat = f + 1 := by omega
            simp only [queue.contents, if_neg c0, if_neg c1, Int.toNat_ofNat, ht]
          · intro hk
            exact deQueue_some f r d elem _ _ hfl hk (by rw [if_neg hne2, hfront, if_neg hwrap])

/-! ## Theorems: dispatcher and workers -/

theorem deQueue_spec (q q1 : queue) (c : Int) (hw : q.wf)
    (hk : ∀ x, x ∈ q.contents → x ≠ KILLTHREAD) (h : deQueue q = some (q1, c)) :
    q.contents = c :: q1.contents ∧ q1.wf := by
  have hne : q.front ≠ -1 := by
    intro he
    simp [deQueue, isEmpty, he] at h
  obtain ⟨q2, x, t, hc, hw2, hc2, _, hdq⟩ := deQueue_nonempty q hw hne
  have hx : x ≠ KILLTHREAD := hk x (by rw [hc]; exact List.mem_cons_self x t)
  rw [hdq hx] at h
  obtain ⟨rfl, rfl⟩ := Prod.mk.inj (Option.some.inj h)
  exact ⟨by rw [hc, hc2], hw2⟩

theorem count_set_hands (hands : List (Option Int)) (w : Nat) (a a1 b : Option Int)
    (h : hands.get? w = some a) :
    (hands.set w a1).count b + (if a = b then 1 else 0)
      = hands.count b + (if a1 = b then 1 else 0) := by
  induction hands generalizing w with
  | nil => simp at h
  | cons x t ih =>
    cases w with
    | zero =>
      simp only [List.get?_cons_zero, Option.some.injEq] at h
      subst h
      simp only [List.set_cons_zero, List.count_cons, beq_iff_eq]
      omega
    | succ w =>
      simp only [List.get?_cons_succ] at h
      have := ih w h
      simp only [List.set_cons_succ, List.count_cons, beq_iff_eq]
      omega

theorem mem_set_hands (hands : List (Option Int)) (w : Nat) (a b : Option Int)
    (h : b ∈ hands.set w a) : b = a ∨ b ∈ hands := by
  induction hands generalizing w with
  | nil => simp at h
  | cons x t ih =>
    cases w with
    | zero =>
      simp only [List.set_cons_zero, List.mem_cons] at h
      rcases h with h | h
      · exact Or.inl h
      · exact Or.inr (List.mem_cons_of_mem x h)
    | succ w =>
      simp only [List.set_cons_succ, List.mem_cons] at h
      rcases h with h | h
      · exact Or.inr (h ▸ List.mem_cons_self _ t)
      · rcases ih w h with h1 | h1
        · exact Or.inl h1
        · exact Or.inr (List.mem_cons_of_mem x h1)

theorem mem_of_get?_hands (hands : List (Option Int)) (w : Nat) (a : Option Int)
    (h : hands.get? w = some a) : a ∈ hands := by
  induction hands generalizing w with
  | nil => simp at h
  | cons x t ih =>
    cases w with
    | zero =>
      simp only [List.get?_cons_zero, Option.some.injEq] at h
      exact h ▸ List.mem_cons_self _ t
    | succ w =>
      simp only [List.get?_cons_succ] at h
      exact List.mem_cons_of_mem x (ih w h)

theorem places_pos_iff (s : Sys) (c : Int) :
    0 < places s c ↔ (s.set c = true ∨ c ∈ s.coda.contents ∨ some c ∈ s.hands) := by
  unfold places
  constructor
  · intro h
    by_cases h1 : s.set c = true
    · exact Or.inl h1
    · by_cases h2 : c ∈ s.coda.contents
      · exact Or.inr (Or.inl h2)
      · right; right
        have e1 : (if s.set c = true then 1 else 0) = 0 := if_neg h1
        have e2 : s.coda.contents.count c = 0 := List.count_eq_zero.mpr h2
        rw [e1, e2] at h
        exact List.count_pos_iff.mp (by omega)
  · rintro (h | h | h)
    · rw [if_pos h]; omega
    · have := List.count_pos_iff.mpr h; omega
    · have := List.count_pos_iff.mpr h; omega

theorem places_congr (s t : Sys) (c : Int) (h1 : t.set c = s.set c)
    (h2 : t.coda.contents = s.coda.contents) (h3 : t.hands = s.hands) :
    places t c = places s c := by
  unfold places
  rw [h1, h2, h3]

theorem step_select_inv (fd_sk : Int) (s t : Sys) (ready : Int → Bool) (hi : Inv fd_sk s)
    (h : step fd_sk s (.select ready) = some t) : Inv fd_sk t := by
  simp only [step] at h
  split at h
  · obtain rfl := Option.some.inj h
    exact {
      wf := hi.wf
      excl := hi.excl
      isopen := hi.isopen
      pending := by
        intro c _ hr
        simp only [Bool.and_eq_true] at hr
        exact hr.1
      rangeQ := hi.rangeQ
      rangeS := hi.rangeS
      rangeH := hi.rangeH }
  · exact absurd h (by simp)

theorem step_scanPass_inv (fd_sk : Int) (s t : Sys) (hi : Inv fd_sk s)
    (h : step fd_sk s .scanPass = some t) : Inv fd_sk t := by
  simp only [step] at h
  split at h
  · obtain rfl := Option.some.inj h
    exact {
      wf := hi.wf
      excl := hi.excl
      isopen := hi.isopen
      pending := fun c hc hr => hi.pending c (by simp only at hc; omega) hr
      rangeQ := hi.rangeQ
      rangeS := hi.rangeS
      rangeH := hi.rangeH }
  · exact absurd h (by simp)

theorem step_scanAccept_inv (fd_sk : Int) (s t : Sys) (fd_c : Int) (hi : Inv fd_sk s)
    (h : step fd_sk s (.scanAccept fd_c) = some t) : Inv fd_sk t := by
  simp only [step] at h
  split at h
  · rename_i hc
    obtain ⟨_, _, _, hop, hge, hlt⟩ := hc
    obtain rfl := Option.some.inj h
    have hzero : places s fd_c = 0 := by
      by_contra hne
      have := hi.isopen fd_c (by omega)
      rw [hop] at this
      exact absurd this (by simp)
    have hset : s.set fd_c = false := by
      by_contra hne
      have : 0 < places s fd_c := (places_pos_iff s fd_c).mpr (Or.inl (by simpa using hne))
      omega
    have hpl : ∀ c, c ≠ fd_c → places { s with
        opened := Function.update s.opened fd_c true
        set := Function.update s.set fd_c true
        fd_num := if fd_c > s.fd_num then fd_c else s.fd_num
        fd := s.fd + 1 } c = places s c := by
      intro c hc
      exact places_congr s _ c (by simp [Function.update, hc]) rfl rfl
    have hpl0 : places { s with
        opened := Function.update s.opened fd_c true
        set := Function.update s.set fd_c true
        fd_num := if fd_c > s.fd_num then fd_c else s.fd_num
        fd := s.fd + 1 } fd_c = 1 := by
      unfold places at hzero ⊢
      simp only [Function.update_same, if_true]
      rw [hset] at hzero
      simp only [Bool.false_eq_true, if_false] at hzero
      omega
    exact {
      wf := hi.wf
      excl := by
        intro c
        by_cases hc : c = fd_c
        · subst hc; rw [hpl0]
        · rw [hpl c hc]; exact hi.excl c
      isopen := by
        intro c hp
        by_cases hc : c = fd_c
        · subst hc; simp [Function.update]
        · rw [hpl c hc] at hp
          simp only [Function.update, hc, dite_false]
          exact hi.isopen c hp
      pending := by
        intro c hc hr
        simp only at hc hr
        by_cases hcc : c = fd_c
        · subst hcc; simp [Function.update]
        · simp only [Function.update, hcc, dite_false]
          exact hi.pending c (by omega) hr
      rangeQ := hi.rangeQ
      rangeS := by
        intro c hs hne
        by_cases hcc : c = fd_c
        · subst hcc; exact ⟨hge, hlt⟩
        · simp only [Function.update, hcc, dite_false] at hs
          exact hi.rangeS c hs hne
      rangeH := hi.rangeH }
  · exact absurd h (by simp)

theorem step_scanClient_inv (fd_sk : Int) (s t : Sys) (hi : Inv fd_sk s)
    (h : step fd_sk s .scanClient = some t) : Inv fd_sk t := by
  simp only [step] at h
  split at h
  · rename_i hc
    obtain ⟨_, hne⟩ := hc
    split at h
    · rename_i hr
      obtain rfl := Option.some.inj h
      have hset : s.set s.fd = true := hi.pending s.fd (le_refl _) hr
      have hrange := hi.rangeS s.fd hset hne
      have hex := hi.excl s.fd
      have hcnt : s.coda.contents.count s.fd = 0 ∧ s.hands.count (some s.fd) = 0 := by
        unfold places at hex
        rw [if_pos hset] at hex
        omega
      -- the queue after the call of enQueue
      have hq : (enQueue s.coda s.fd).1.wf ∧
          ((enQueue s.coda s.fd).1.contents = s.coda.contents ∨
            (enQueue s.coda s.fd).1.contents = s.coda.contents ++ [s.fd]) := by
        by_cases hf : isFull s.coda = true
        · rw [enQueue_full s.coda s.fd hf]
          exact ⟨hi.wf, Or.inl rfl⟩
        · have hf2 : isFull s.coda = false := by simpa using hf
          obtain ⟨w1, _, w3⟩ := enQueue_not_full s.coda s.fd hi.wf hf2
          exact ⟨w1, Or.inr w3⟩
      obtain ⟨hqwf, hqc⟩ := hq
      have hcount : ∀ c, c ≠ s.fd →
          (enQueue s.coda s.fd).1.contents.count c = s.coda.contents.count c := by
        intro c hc
        rcases hqc with e | e
        · rw [e]
        · rw [e, List.count_append]
          have : [s.fd].count c = 0 := by
            rw [List.count_eq_zero]; simp; exact hc
          omega
      have hcount0 : (enQueue s.coda s.fd).1.contents.count s.fd ≤ 1 := by
        rcases hqc with e | e
        · rw [e]; omega
        · rw [e, List.count_append]
          have : [s.fd].count s.fd = 1 := by simp
          omega
      have hpl : ∀ c, c ≠ s.fd → places { s with
          set := Function.update s.set s.fd false
          coda := (enQueue s.coda s.fd).1
          fd := s.fd + 1 } c = places s c := by
        intro c hc
        unfold places
        simp only [Function.update, hc, dite_false]
        rw [hcount c hc]
      have hpl0 : places { s with
          set := Function.update s.set s.fd false
          coda := (enQueue s.coda s.fd).1
          fd := s.fd + 1 } s.fd ≤ 1 := by
        unfold places
        simp only [Function.update_same, Bool.false_eq_true, if_false]
        omega
      exact {
        wf := hqwf
        excl := by
          intro c
          by_cases hc : c = s.fd
          · rw [hc]; exact hpl0
          · rw [hpl c hc]; exact hi.excl c
        isopen := by
          intro c hp
          by_cases hc : c = s.fd
          · rw [hc]
            exact hi.isopen s.fd ((places_pos_iff s s.fd).mpr (Or.inl hset))
          · rw [hpl c hc] at hp
            exact hi.isopen c hp
        pending := by
          intro c hc hr2
          simp only at hc hr2
          have hcc : c ≠ s.fd := by omega
          simp only [Function.update, hcc, dite_false]
          exact hi.pending c (by omega) hr2
        rangeQ := by
          intro c hc
          simp only at hc
          rcases hqc with e | e
          · rw [e] at hc; exact hi.rangeQ c hc
          · rw [e, List.mem_append] at hc
            rcases hc with hc | hc
            · exact hi.rangeQ c hc
            · simp only [List.mem_singleton] at hc
              rw [hc]; exact hrange
        rangeS := by
          intro c hs hne2
          by_cases hcc : c = s.fd
          · rw [hcc] at hs; simp [Function.update] at hs
          · simp only [Function.update, hcc, dite_false] at hs
            exact hi.rangeS c hs hne2
        rangeH := hi.rangeH }
    · obtain rfl := Option.some.inj h
      exact {
        wf := hi.wf
        excl := hi.excl
        isopen := hi.isopen
        pending := fun c hc hr => hi.pending c (by simp only at hc; omega) hr
        rangeQ := hi.rangeQ
        rangeS := hi.rangeS
        rangeH := hi.rangeH }
  · exact absurd h (by simp)

theorem ne_killthread_of_range (c : Int) (h : 0 ≤ c ∧ c < FD_SETSIZE) :
    c ≠ KILLTHREAD ∧ c ≠ -1 := by
  unfold FD_SETSIZE at h
  unfold KILLTHREAD
  omega

theorem step_dequeue_inv (fd_sk : Int) (s t : Sys) (w : Nat) (hi : Inv fd_sk s)
    (h : step fd_sk s (.dequeue w) = some t) : Inv fd_sk t := by
  simp only [step] at h
  split at h
  · rename_i coda client hh hd
    obtain rfl := Option.some.inj h
    obtain ⟨hcont, hwf⟩ := deQueue_spec s.coda coda client hi.wf
      (fun x hx => (ne_killthread_of_range x (hi.rangeQ x hx)).1) hd
    have hcr := hi.rangeQ client (by rw [hcont]; exact List.mem_cons_self _ _)
    have hne : client ≠ -1 := (ne_killthread_of_range client hcr).2
    have hpl : ∀ c, places { s with
        coda := coda
        hands := if client = -1 then s.hands else s.hands.set w (some client) } c
          = places s c := by
      intro c
      unfold places
      simp only [if_neg hne]
      have h1 := count_set_hands s.hands w none (some client) (some c) hh
      rw [hcont, List.count_cons]
      simp only [beq_iff_eq, Option.some.injEq] at h1 ⊢
      have h2 : (if (none : Option Int) = some c then 1 else 0) = 0 := by simp
      rw [h2] at h1
      omega
    exact {
      wf := hwf
      excl := fun c => by rw [hpl c]; exact hi.excl c
      isopen := fun c hp => hi.isopen c (by rw [hpl c] at hp; exact hp)
      pending := hi.pending
      rangeQ := fun c hc => hi.rangeQ c (by rw [hcont]; exact List.mem_cons_of_mem _ hc)
      rangeS := hi.rangeS
      rangeH := by
        intro c hc
        simp only [if_neg hne] at hc
        rcases mem_set_hands s.hands w (some client) (some c) hc with e | e
        · obtain rfl := Option.some.inj e
          exact hcr
        · exact hi.rangeH c e }
  · exact absurd h (by simp)

theorem step_serveOk_inv (fd_sk : Int) (s t : Sys) (w : Nat) (hi : Inv fd_sk s)
    (h : step fd_sk s (.serveOk w) = some t) : Inv fd_sk t := by
  simp only [step] at h
  split at h
  · rename_i client hh
    obtain rfl := Option.some.inj h
    have hmem : some client ∈ s.hands := mem_of_get?_hands s.hands w (some client) hh
    have hcpos : 0 < s.hands.count (some client) := List.count_pos_iff.mpr hmem
    have hex := hi.excl client
    have hset : s.set client = false := by
      by_contra hne
      have hs : s.set client = true := by simpa using hne
      unfold places at hex
      rw [if_pos hs] at hex
      omega
    have hcnt : ∀ c, (s.hands.set w none).count (some c) + (if client = c then 1 else 0)
        = s.hands.count (some c) := by
      intro c
      have h1 := count_set_hands s.hands w (some client) none (some c) hh
      simp only [Option.some.injEq] at h1
      have h2 : (if (none : Option Int) = some c then 1 else 0) = 0 := by simp
      rw [h2] at h1
      omega
    have hpl : ∀ c, places { s with
        set := Function.update s.set client true
        hands := s.hands.set w none } c = places s c := by
      intro c
      unfold places
      have h1 := hcnt c
      by_cases hc : c = client
      · subst hc
        simp only [Function.update_same, if_true, hset, Bool.false_eq_true, if_false] at h1 ⊢
        omega
      · have hc2 : ¬ client = c := fun e => hc e.symm
        simp only [Function.update, hc, dite_false]
        rw [if_neg hc2] at h1
        omega
    exact {
      wf := hi.wf
      excl := fun c => by rw [hpl c]; exact hi.excl c
      isopen := fun c hp => hi.isopen c (by rw [hpl c] at hp; exact hp)
      pending := by
        intro c hc hr
        by_cases hcc : c = client
        · subst hcc; simp [Function.update]
        · simp only [Function.update, hcc, dite_false]
          exact hi.pending c hc hr
      rangeQ := hi.rangeQ
      rangeS := by
        intro c hs hne2
        by_cases hcc : c = client
        · subst hcc; exact hi.rangeH c hmem
        · simp only [Function.update, hcc, dite_false] at hs
          exact hi.rangeS c hs hne2
      rangeH := by
        intro c hc
        rcases mem_set_hands s.hands w none (some c) hc with e | e
        · exact absurd e (by simp)
        · exact hi.rangeH c e }
  · exact absurd h (by simp)

theorem step_serveClose_inv (fd_sk : Int) (s t : Sys) (w : Nat) (hi : Inv fd_sk s)
    (h : step fd_sk s (.serveClose w) = some t) : Inv fd_sk t := by
  simp only [step] at h
  split at h
  · rename_i client hh
    obtain rfl := Option.some.inj h
    have hmem : some client ∈ s.hands := mem_of_get?_hands s.hands w (some client) hh
    have hcpos : 0 < s.hands.count (some client) := List.count_pos_iff.mpr hmem
    have hex := hi.excl client
    have hcnt : ∀ c, (s.hands.set w none).count (some c) + (if client = c then 1 else 0)
        = s.hands.count (some c) := by
      intro c
      have h1 := count_set_hands s.hands w (some client) none (some c) hh
      simp only [Option.some.injEq] at h1
      have h2 : (if (none : Option Int) = some c then 1 else 0) = 0 := by simp
      rw [h2] at h1
      omega
    have hpl : ∀ c, c ≠ client → places { s with
        opened := Function.update s.opened client false
        hands := s.hands.set w none } c = places s c := by
      intro c hc
      unfold places
      have h1 := hcnt c
      have hc2 : ¬ client = c := fun e => hc e.symm
      rw [if_neg hc2] at h1
      simp only
      omega
    have hpl0 : places { s with
        opened := Function.update s.opened client false
        hands := s.hands.set w none } client = 0 := by
      unfold places at hex ⊢
      have h1 := hcnt client
      rw [if_pos rfl] at h1
      simp only
      omega
    exact {
      wf := hi.wf
      excl := by
        intro c
        by_cases hc : c = client
        · subst hc; rw [hpl0]; omega
        · rw [hpl c hc]; exact hi.excl c
      isopen := by
        intro c hp
        by_cases hc : c = client
        · subst hc; rw [hpl0] at hp; omega
        · rw [hpl c hc] at hp
          simp only [Function.update, hc, dite_false]
          exact hi.isopen c hp
      pending := hi.pending
      rangeQ := hi.rangeQ
      rangeS := hi.rangeS
      rangeH := by
        intro c hc
        rcases mem_set_hands s.hands w none (some c) hc with e | e
        · exact absurd e (by simp)
        · exact hi.rangeH c e }
  · exact absurd h (by simp)

theorem step_inv (fd_sk : Int) (s t : Sys) (a : Action) (hi : Inv fd_sk s)
    (h : step fd_sk s a = some t) : Inv fd_sk t := by
  cases a with
  | select ready => exact step_select_inv fd_sk s t ready hi h
  | scanAccept fd_c => exact step_scanAccept_inv fd_sk s t fd_c hi h
  | scanPass => exact step_scanPass_inv fd_sk s t hi h
  | scanClient => exact step_scanClient_inv fd_sk s t hi h
  | dequeue w => exact step_dequeue_inv fd_sk s t w hi h
  | serveOk w => exact step_serveOk_inv fd_sk s t w hi h
  | serveClose w => exact step_serveClose_inv fd_sk s t w hi h

theorem run_inv (fd_sk : Int) (acts : List Action) (s t : Sys) (hi : Inv fd_sk s)
    (h : run fd_sk s acts = some t) : Inv fd_sk t := by
  induction acts generalizing s with
  | nil =>
    simp only [run] at h
    obtain rfl := Option.some.inj h
    exact hi
  | cons a rest ih =>
    simp only [run] at h
    split at h
    · rename_i s1 hs1
      exact ih s1 (step_inv fd_sk s s1 a hi hs1) h
    · exact absurd h (by simp)

theorem createQueue_wf (dim : Int) (h : 1 ≤ dim) :
    (createQueue dim).wf ∧ (createQueue dim).contents = [] := by
  refine ⟨⟨h, ?_, Or.inl ⟨rfl, rfl⟩⟩, ?_⟩
  · simp [createQueue]
  · simp [createQueue, queue.contents]

theorem initSys_inv (fd_sk dim : Int) (nworkers : Nat) (opened : Int → Bool) (h : 1 ≤ dim) :
    Inv fd_sk (initSys fd_sk dim nworkers opened) := by
  obtain ⟨hwf, hcont⟩ := createQueue_wf dim h
  have hhands : ∀ c : Int, some c ∉ List.replicate nworkers (none : Option Int) := by
    intro c hc
    have := List.eq_of_mem_replicate hc
    exact absurd this (by simp)
  have hpl : ∀ c, places (initSys fd_sk dim nworkers opened) c
      = if c = fd_sk then 1 else 0 := by
    intro c
    unfold places
    have e1 : (initSys fd_sk dim nworkers opened).coda.contents = [] := hcont
    have e2 : (initSys fd_sk dim nworkers opened).hands.count (some c) = 0 :=
      List.count_eq_zero.mpr (hhands c)
    rw [e1, e2]
    simp [initSys]
  exact {
    wf := hwf
    excl := by
      intro c
      rw [hpl c]
      split <;> omega
    isopen := by
      intro c hp
      rw [hpl c] at hp
      by_cases hc : c = fd_sk
      · simp [initSys, hc]
      · rw [if_neg hc] at hp; omega
    pending := by
      intro c _ hr
      simp [initSys] at hr
    rangeQ := by
      intro c hc
      have e1 : (initSys fd_sk dim nworkers opened).coda.contents = [] := hcont
      rw [e1] at hc
      exact absurd hc (List.not_mem_nil c)
    rangeS := by
      intro c hs hne
      simp [initSys, hne] at hs
    rangeH := fun c hc => absurd hc (hhands c) }

theorem two_le_count_hands (c : Int) (l : List (Option Int)) (i j : Nat) (hij : i ≠ j)
    (h1 : l.get? i = some (some c)) (h2 : l.get? j = some (some c)) :
    2 ≤ l.count (some c) := by
  induction l generalizing i j with
  | nil => simp at h1
  | cons x t ih =>
    cases i with
    | zero =>
      cases j with
      | zero => exact absurd rfl hij
      | succ j =>
        simp only [List.get?_cons_zero, Option.some.injEq] at h1
        simp only [List.get?_cons_succ] at h2
        have hm := mem_of_get?_hands t j (some c) h2
        have hp : 0 < t.count (some c) := List.count_pos_iff.mpr hm
        subst h1
        rw [List.count_cons_self]
        omega
    | succ i =>
      cases j with
      | zero =>
        simp only [List.get?_cons_zero, Option.some.injEq] at h2
        simp only [List.get?_cons_succ] at h1
        have hm := mem_of_get?_hands t i (some c) h1
        have hp : 0 < t.count (some c) := List.count_pos_iff.mpr hm
        subst h2
        rw [List.count_cons_self]
        omega
      | succ j =>
        simp only [List.get?_cons_succ] at h1 h2
        have := ih i j (fun e => hij (by rw [e])) h1 h2
        rw [List.count_cons]
        omega

/-- C3: in every state the dispatcher / worker system reaches from its
initial state (only the listener in the readiness set, the queue just made by
createQueue(dim) with dim >= 1, every worker empty-handed), every descriptor is
in at most one place, counting membership of the readiness set, each
occurrence in the work queue and each worker that holds it.  Hence no
descriptor is at once in the set and in the queue, in the set and in a
worker's hands, or in the queue and in a worker's hands, none occurs twice in
the queue and none is held by two workers. -/
theorem C3_fd_in_one_place (fd_sk dim : Int) (nworkers : Nat) (opened : Int → Bool)
    (acts : List Action) (s : Sys) (hdim : 1 ≤ dim)
    (hrun : run fd_sk (initSys fd_sk dim nworkers opened) acts = some s) :
    (∀ c, places s c ≤ 1) ∧
    (∀ c, ¬ (s.set c = true ∧ c ∈ s.coda.contents) ∧
          ¬ (s.set c = true ∧ some c ∈ s.hands) ∧
          ¬ (c ∈ s.coda.contents ∧ some c ∈ s.hands) ∧
          s.coda.contents.count c ≤ 1 ∧
          (∀ i j, s.hands.get? i = some (some c) → s.hands.get? j = some (some c) → i = j)) := by
  have hinv := run_inv fd_sk acts _ s (initSys_inv fd_sk dim nworkers opened hdim) hrun
  refine ⟨hinv.excl, ?_⟩
  intro c
  have hex := hinv.excl c
  unfold places at hex
  have hq : c ∈ s.coda.contents → 0 < s.coda.contents.count c := List.count_pos_iff.mpr
  have hh : some c ∈ s.hands → 0 < s.hands.count (some c) := List.count_pos_iff.mpr
  refine ⟨?_, ?_, ?_, by omega, ?_⟩
  · rintro ⟨h1, h2⟩
    rw [if_pos h1] at hex
    have := hq h2
    omega
  · rintro ⟨h1, h2⟩
    rw [if_pos h1] at hex
    have := hh h2
    omega
  · rintro ⟨h1, h2⟩
    have := hq h1
    have := hh h2
    omega
  · intro i j hi hj
    by_contra hne
    have hcount : s.hands.count (some c) ≤ 1 := by omega
    have := two_le_count_hands c s.hands i j hne hi hj
    omega

/-- C3 witness: the sample run is a run of the system, and at its end
descriptor 4, back in the readiness set, is in exactly one place. -/
theorem C3_fd_in_one_place_witness :
    run 3 (initSys 3 2 2 (fun c => decide (c < 3))) sampleRun = some sampleState ∧
    places sampleState 4 ≤ 1 ∧ sampleState.set 4 = true :=
  ⟨rfl,
   (C3_fd_in_one_place 3 2 2 (fun c => decide (c < 3)) sampleRun sampleState (by decide) rfl).1 4,
   by decide⟩

/-! ## Theorems: work queue as a bounded FIFO -/

theorem queue_contents_length (q : queue) (hw : q.wf) :
    q.contents.length ≤ q.dim.toNat ∧
      (isFull q = true ↔ q.contents.length = q.dim.toNat) := by
  by_cases he : q.front = -1
  · have hf := isFull_false_of_empty q hw he
    obtain ⟨hd, _, _⟩ := hw
    have hc : q.contents = [] := by simp [queue.contents, he]
    rw [hc, hf]
    simp only [List.length_nil, Bool.false_eq_true, false_iff]
    omega
  · have hfull := isFull_iff q hw he
    obtain ⟨hd, hlen, hc | hc⟩ := hw
    · exact absurd hc.1 he
    · rcases q with ⟨front, rear, dim, elem⟩
      simp only at he hd hlen hc hfull
      obtain ⟨hf0, hf1, hr0, hr1⟩ := hc
      obtain ⟨f, rfl⟩ := Int.eq_ofNat_of_zero_le hf0
      obtain ⟨r, rfl⟩ := Int.eq_ofNat_of_zero_le hr0
      obtain ⟨d, rfl⟩ := Int.eq_ofNat_of_zero_le (by omega : 0 ≤ dim)
      simp only [Int.toNat_ofNat] at hlen ⊢
      have hfd : f < d := by exact_mod_cast hf1
      have hrd : r < d := by exact_mod_cast hr1
      rw [hfull]
      by_cases c : (f : Int) ≤ (r : Int)
      · have hfr : f ≤ r := by exact_mod_cast c
        have hl : (⟨(f : Int), (r : Int), (d : Int), elem⟩ : queue).contents.length = r + 1 - f := by
          simp only [queue.contents, if_neg he, if_pos c, Int.toNat_ofNat, List.length_drop,
            List.length_take]
          omega
        rw [hl]
        refine ⟨by omega, ?_⟩
        by_cases h0 : (f : Int) = 0
        · rw [if_pos h0]; omega
        · rw [if_neg h0]; omega
      · have hfr : r < f := by omega
        have hl : (⟨(f : Int), (r : Int), (d : Int), elem⟩ : queue).contents.length
            = d - f + (r + 1) := by
          simp only [queue.contents, if_neg he, if_neg c, Int.toNat_ofNat, List.length_append,
            List.length_drop, List.length_take]
          omega
        rw [hl]
        refine ⟨by omega, ?_⟩
        have h0 : ¬ ((f : Int) = 0) := by omega
        rw [if_neg h0]; omega

theorem enQueue_code (q : queue) (x : Int) (hw : q.wf) :
    ((enQueue q x).2 = 0 ↔ q.contents.length < q.dim.toNat) ∧
      (q.contents.length = q.dim.toNat → enQueue q x = (q, -1)) ∧
      ((enQueue q x).2 = 0 ∨ (enQueue q x).2 = -1) := by
  obtain ⟨hle, hfull⟩ := queue_contents_length q hw
  by_cases hf : isFull q = true
  · have hlen := hfull.mp hf
    rw [enQueue_full q x hf]
    refine ⟨?_, fun _ => rfl, Or.inr rfl⟩
    simp only
    constructor
    · intro h; exact absurd h (by decide)
    · intro h; omega
  · have hf2 : isFull q = false := by simpa using hf
    obtain ⟨_, h0, _⟩ := enQueue_not_full q x hw hf2
    have hne : q.contents.length ≠ q.dim.toNat := fun e => hf (hfull.mpr e)
    refine ⟨⟨fun _ => by omega, fun _ => h0⟩, fun e => absurd e hne, Or.inl h0⟩

/-- The ring buffer and the FIFO of the specification stay in step: same
contents, same capacity, and the traces grow alike. -/
theorem runQueue_refines (ops : List QOp) (q : queue) (sq : SpecFifo) (tr : QTrace)
    (hw : q.wf) (hcap : sq.capacity = q.dim.toNat) (hitems : sq.items = q.contents)
    (hk : ∀ x, x ∈ q.contents → x ≠ KILLTHREAD)
    (hops : ∀ v, QOp.enq v ∈ ops → v ≠ KILLTHREAD) :
    (runQueue q tr ops).map (fun r => (r.1.contents, r.2))
      = (runSpecFifo sq tr ops).map (fun r => (r.1.items, r.2)) ∧
    (∀ q1 tr1, runQueue q tr ops = some (q1, tr1) →
      q1.wf ∧ q1.dim = q.dim ∧
      (tr.returned ++ q.contents = tr.accepted → tr1.returned ++ q1.contents = tr1.accepted)) := by
  induction ops generalizing q sq tr with
  | nil =>
    refine ⟨by simp [runQueue, runSpecFifo, hitems], ?_⟩
    intro q1 tr1 h
    simp only [runQueue] at h
    obtain ⟨rfl, rfl⟩ := Prod.mk.inj (Option.some.inj h)
    exact ⟨hw, rfl, fun e => e⟩
  | cons op rest ih =>
    cases op with
    | enq v =>
      have hv : v ≠ KILLTHREAD := hops v (List.mem_cons_self _ _)
      have hops2 : ∀ w, QOp.enq w ∈ rest → w ≠ KILLTHREAD :=
        fun w hwm => hops w (List.mem_cons_of_mem _ hwm)
      obtain ⟨hle, hfull⟩ := queue_contents_length q hw
      by_cases hf : isFull q = true
      · have e := enQueue_full q v hf
        have hlen := hfull.mp hf
        have hs : sq.enqueue v = (sq, false) := by
          simp [SpecFifo.enqueue, hitems, hcap, hlen]
        obtain ⟨i1, i2⟩ := ih q sq
          { tr with codes := tr.codes ++ [-1], accepted := tr.accepted } hw hcap hitems hk hops2
        constructor
        · simp only [runQueue, runSpecFifo, e, hs]
          simpa using i1
        · intro q1 tr1 h
          simp only [runQueue, e] at h
          have h2 : runQueue q { tr with codes := tr.codes ++ [-1], accepted := tr.accepted } rest
              = some (q1, tr1) := by simpa using h
          exact i2 q1 tr1 h2
      · have hf2 : isFull q = false := by simpa using hf
        obtain ⟨w1, w2, w3⟩ := enQueue_not_full q v hw hf2
        have hne : q.contents.length ≠ q.dim.toNat := fun e => hf (hfull.mpr e)
        have hs : sq.enqueue v = ({ sq with items := sq.items ++ [v] }, true) := by
          have : sq.items.length < sq.capacity := by rw [hitems, hcap]; omega
          simp [SpecFifo.enqueue, this]
        have hdim : (enQueue q v).1.dim = q.dim := by
          simp [enQueue, hf2]
        obtain ⟨i1, i2⟩ := ih (enQueue q v).1 { sq with items := sq.items ++ [v] }
          { tr with codes := tr.codes ++ [0], accepted := tr.accepted ++ [v] } w1
          (by rw [hdim]; exact hcap) (by rw [w3]; simp [hitems])
          (by
            intro x hx
            rw [w3, List.mem_append] at hx
            rcases hx with hx | hx
            · exact hk x hx
            · simp only [List.mem_singleton] at hx; rw [hx]; exact hv)
          hops2
        constructor
        · simp only [runQueue, runSpecFifo, hs, w2]
          simpa using i1
        · intro q1 tr1 h
          simp only [runQueue, w2] at h
          have h2 : runQueue (enQueue q v).1
              { tr with codes := tr.codes ++ [0], accepted := tr.accepted ++ [v] } rest
              = some (q1, tr1) := by simpa using h
          obtain ⟨j1, j2, j3⟩ := i2 q1 tr1 h2
          refine ⟨j1, j2.trans hdim, ?_⟩
          intro e
          apply j3
          simp only
          rw [w3, ← List.append_assoc, e]
    | deq =>
      have hops2 : ∀ w, QOp.enq w ∈ rest → w ≠ KILLTHREAD :=
        fun w hwm => hops w (List.mem_cons_of_mem _ hwm)
      by_cases he : q.front = -1
      · have hc : q.contents = [] := by simp [queue.contents, he]
        have hd : deQueue q = none := by simp [deQueue, isEmpty, he]
        have hs : sq.dequeue = none := by simp [SpecFifo.dequeue, hitems, hc]
        constructor
        · simp [runQueue, runSpecFifo, hd, hs]
        · intro q1 tr1 h
          simp [runQueue, hd] at h
      · obtain ⟨q2, x, t, hc, hw2, hc2, hdim, hdq⟩ := deQueue_nonempty q hw he
        have hx : x ≠ KILLTHREAD := hk x (by rw [hc]; exact List.mem_cons_self _ _)
        have hd := hdq hx
        have hs : sq.dequeue = some ({ sq with items := t }, x) := by
          simp [SpecFifo.dequeue, hitems, hc]
        obtain ⟨i1, i2⟩ := ih q2 { sq with items := t }
          { tr with returned := tr.returned ++ [x] } hw2 (by rw [hdim]; exact hcap)
          (by rw [hc2])
          (fun y hy => hk y (by rw [hc]; exact List.mem_cons_of_mem _ (hc2 ▸ hy))) hops2
        constructor
        · simp only [runQueue, runSpecFifo, hd, hs]
          exact i1
        · intro q1 tr1 h
          simp only [runQueue, hd] at h
          obtain ⟨j1, j2, j3⟩ := i2 q1 tr1 h
          refine ⟨j1, j2.trans hdim, ?_⟩
          intro e
          apply j3
          simp only
          rw [List.append_assoc, hc2]
          simpa [hc] using e

theorem runQueue_enq_all (xs : List Int) (q : queue) (tr : QTrace) (rest : List QOp)
    (hw : q.wf) (hroom : q.contents.length + xs.length ≤ q.dim.toNat) :
    ∃ q1 : queue, q1.wf ∧ q1.dim = q.dim ∧ q1.contents = q.contents ++ xs ∧
      runQueue q tr (xs.map QOp.enq ++ rest)
        = runQueue q1 ⟨tr.codes ++ List.replicate xs.length 0, tr.accepted ++ xs, tr.returned⟩
            rest := by
  induction xs generalizing q tr with
  | nil => exact ⟨q, hw, rfl, by simp, by simp⟩
  | cons x t ih =>
    simp only [List.length_cons] at hroom
    obtain ⟨c1, _, _⟩ := enQueue_code q x hw
    have h0 : (enQueue q x).2 = 0 := c1.mpr (by omega)
    have hnf : isFull q = false := by
      by_contra hf
      have hf2 : isFull q = true := by simpa using hf
      rw [enQueue_full q x hf2] at h0
      simp at h0
    obtain ⟨w1, _, w3⟩ := enQueue_not_full q x hw hnf
    have hdim : (enQueue q x).1.dim = q.dim := by simp [enQueue, hnf]
    obtain ⟨q1, a1, a2, a3, a4⟩ := ih (enQueue q x).1
      { tr with codes := tr.codes ++ [0], accepted := tr.accepted ++ [x] } w1
      (by rw [w3, hdim]; simp; omega)
    refine ⟨q1, a1, a2.trans hdim, by rw [a3, w3]; simp, ?_⟩
    have hstep : runQueue q tr (QOp.enq x :: (t.map QOp.enq ++ rest))
        = runQueue (enQueue q x).1
            { tr with codes := tr.codes ++ [0], accepted := tr.accepted ++ [x] }
            (t.map QOp.enq ++ rest) := by
      rw [runQueue]
      simp only [h0, if_true]
    rw [List.map_cons, List.cons_append, hstep, a4]
    simp [List.replicate_succ]

theorem queue_contents_head (q : queue) (hw : q.wf) (hne : q.front ≠ -1) :
    ∃ t, q.contents = q.elem.getD q.front.toNat 0 :: t := by
  obtain ⟨hd, hlen, hc | hc⟩ := hw
  · exact absurd hc.1 hne
  · rcases q with ⟨front, rear, dim, elem⟩
    simp only at hne hd hlen hc
    obtain ⟨hf0, hf1, hr0, hr1⟩ := hc
    obtain ⟨f, rfl⟩ := Int.eq_ofNat_of_zero_le hf0
    obtain ⟨r, rfl⟩ := Int.eq_ofNat_of_zero_le hr0
    obtain ⟨d, rfl⟩ := Int.eq_ofNat_of_zero_le (by omega : 0 ≤ dim)
    simp only [Int.toNat_ofNat] at hlen ⊢
    have hfd : f < d := by exact_mod_cast hf1
    have hfl : f < elem.length := by omega
    rw [getD_eq_of_lt elem f hfl]
    by_cases c : (f : Int) ≤ (r : Int)
    · have hfr : f ≤ r := by exact_mod_cast c
      refine ⟨(elem.take (r + 1)).drop (f + 1), ?_⟩
      simp only [queue.contents, if_neg hne, if_pos c, Int.toNat_ofNat]
      exact drop_take_succ_eq elem f r hfl hfr
    · refine ⟨elem.drop (f + 1) ++ elem.take (r + 1), ?_⟩
      simp only [queue.contents, if_neg hne, if_neg c, Int.toNat_ofNat]
      rw [List.drop_eq_getElem_cons hfl]
      rfl

theorem deQueue_sentinel (q : queue) (t : List Int) (hw : q.wf)
    (hc : q.contents = KILLTHREAD :: t) : deQueue q = some (q, KILLTHREAD) := by
  have hne : q.front ≠ -1 := by
    intro he
    simp [queue.contents, he] at hc
  obtain ⟨t2, h2⟩ := queue_contents_head q hw hne
  rw [hc] at h2
  have hget : q.elem.getD q.front.toNat 0 = KILLTHREAD := (List.cons.inj h2).1.symm
  have hemp : isEmpty q = false := by
    simp only [isEmpty, beq_eq_false_iff_ne, ne_eq]; exact hne
  unfold deQueue
  simp only [hemp, Bool.false_eq_true, if_false, hget, if_true]

theorem deQueueN_sentinel (q : queue) (t : List Int) (n : Nat) (hw : q.wf)
    (hc : q.contents = KILLTHREAD :: t) :
    deQueueN q n = some (q, List.replicate n KILLTHREAD) := by
  induction n with
  | zero => rfl
  | succ n ih =>
    simp only [deQueueN, deQueue_sentinel q t hw hc, ih, List.replicate_succ]

theorem deQueueN_values (l : List Int) (q : queue) (rest : List Int) (hw : q.wf)
    (hc : q.contents = l ++ rest) (hk : ∀ x, x ∈ l → x ≠ KILLTHREAD) :
    ∃ q1 : queue, q1.wf ∧ q1.contents = rest ∧ deQueueN q l.length = some (q1, l) := by
  induction l generalizing q with
  | nil => exact ⟨q, hw, by simpa using hc, rfl⟩
  | cons x t ih =>
    have hne : q.front ≠ -1 := by
      intro he
      simp [queue.contents, he] at hc
    obtain ⟨q2, y, t2, h1, hw2, h3, _, hdq⟩ := deQueue_nonempty q hw hne
    rw [hc, List.cons_append] at h1
    obtain ⟨rfl, rfl⟩ := List.cons.inj h1
    have hd := hdq (hk x (List.mem_cons_self _ _))
    obtain ⟨q1, a1, a2, a3⟩ := ih q2 hw2 h3 (fun z hz => hk z (List.mem_cons_of_mem _ hz))
    refine ⟨q1, a1, a2, ?_⟩
    simp only [List.length_cons, deQueueN, hd, a3]

/-- C14 (counterexample): the queue of dimension 2 holds the descriptor 5
when terminateServer runs; the next deQueue returns 5, not the sentinel.  And
when the queue of dimension 1 holds 5 (it is full), terminateServer leaves it
as it was: the next deQueue returns 5 and the one after it finds the queue
empty. -/
theorem C14_deQueue_after_close_returns_fd :
    (deQueue (terminateServer (1, (enQueue (createQueue 2) 5).1)).2).map Prod.snd = some 5 ∧
    (deQueue (terminateServer (1, (enQueue (createQueue 2) 5).1)).2).map Prod.snd
      ≠ some KILLTHREAD ∧
    (terminateServer (1, (enQueue (createQueue 1) 5).1)).2 = (enQueue (createQueue 1) 5).1 ∧
    (deQueueN (terminateServer (1, (enQueue (createQueue 1) 5).1)).2 1).map Prod.snd
      = some [5] ∧
    deQueueN (terminateServer (1, (enQueue (createQueue 1) 5).1)).2 2 = none := by
  decide

theorem deQueueN_add (q q1 : queue) (a b : Nat) (l1 : List Int)
    (h : deQueueN q a = some (q1, l1)) :
    deQueueN q (a + b) = (deQueueN q1 b).map (fun r => (r.1, l1 ++ r.2)) := by
  induction a generalizing q l1 with
  | zero =>
    simp only [deQueueN] at h
    obtain ⟨rfl, rfl⟩ := Prod.mk.inj (Option.some.inj h)
    cases hb : deQueueN q b with
    | none => simp [hb]
    | some r => simp [hb]
  | succ a ih =>
    rw [Nat.succ_add]
    simp only [deQueueN] at h ⊢
    cases hd : deQueue q with
    | none => simp [hd] at h
    | some r =>
      obtain ⟨q2, v⟩ := r
      simp only [hd] at h ⊢
      cases hn : deQueueN q2 a with
      | none => simp [hn] at h
      | some r2 =>
        obtain ⟨q3, vs⟩ := r2
        simp only [hn] at h
        obtain ⟨rfl, rfl⟩ := Prod.mk.inj (Option.some.inj h)
        rw [ih q2 vs hn]
        cases hb : deQueueN q3 b with
        | none => simp
        | some r3 => simp

/-- C14 (amended): terminateServer runs on a well-formed queue that is not
full and holds no sentinel; alive becomes 0.  The calls of deQueue that follow
first return the values the queue held, oldest first, one per call; every call
after those returns the sentinel.  In particular, when the queue was empty
every deQueue after terminateServer returns the sentinel. -/
theorem C14_deQueue_after_close (alive : Int) (q : queue) (hw : q.wf)
    (hroom : isFull q = false) (hk : ∀ x, x ∈ q.contents → x ≠ KILLTHREAD) :
    (terminateServer (alive, q)).1 = 0 ∧
    (∀ n, (deQueueN (terminateServer (alive, q)).2 (q.contents.length + n)).map Prod.snd
      = some (q.contents ++ List.replicate n KILLTHREAD)) ∧
    (q.contents = [] →
      ∀ n, (deQueueN (terminateServer (alive, q)).2 n).map Prod.snd
        = some (List.replicate n KILLTHREAD)) := by
  obtain ⟨w1, _, w3⟩ := enQueue_not_full q KILLTHREAD hw hroom
  obtain ⟨q1, a1, a2, a3⟩ := deQueueN_values q.contents (enQueue q KILLTHREAD).1 [KILLTHREAD]
    w1 w3 hk
  have main : ∀ n, (deQueueN (terminateServer (alive, q)).2 (q.contents.length + n)).map Prod.snd
      = some (q.contents ++ List.replicate n KILLTHREAD) := by
    intro n
    have e := deQueueN_add (enQueue q KILLTHREAD).1 q1 q.contents.length n q.contents a3
    simp only [terminateServer]
    rw [e, deQueueN_sentinel q1 [] n a1 a2]
    rfl
  refine ⟨rfl, main, ?_⟩
  intro he n
  have := main n
  rw [he] at this
  simpa using this

/-- C14 witness: the queue of dimension 3 holds 5 and 6 when terminateServer
runs; five calls of deQueue return 5, 6 and three times the sentinel. -/
theorem C14_deQueue_after_close_witness :
    (deQueueN (terminateServer (1, (enQueue (enQueue (createQueue 3) 5).1 6).1)).2 5).map
        Prod.snd
      = some [5, 6, KILLTHREAD, KILLTHREAD, KILLTHREAD] :=
  (C14_deQueue_after_close 1 (enQueue (enQueue (createQueue 3) 5).1 6).1
    (by decide) (by decide) (by decide)).2.1 3

/-! ## Theorems: the dispatcher and a full work queue -/

theorem places_zero_iff (s : Sys) (c : Int) :
    places s c = 0 ↔ (s.set c = false ∧ c ∉ s.coda.contents ∧ some c ∉ s.hands) := by
  have h := places_pos_iff s c
  constructor
  · intro h0
    have hn : ¬ (0 < places s c) := by omega
    rw [h] at hn
    simp only [not_or] at hn
    exact ⟨by simpa using hn.1, hn.2.1, hn.2.2⟩
  · rintro ⟨h1, h2, h3⟩
    by_contra hne
    have hp : 0 < places s c := by omega
    rcases h.mp hp with e | e | e
    · rw [h1] at e; exact absurd e (by decide)
    · exact h2 e
    · exact h3 e

/-- A descriptor that is open but in none of the three places stays so
whatever step the dispatcher or a worker takes: it is never served again and
never closed. -/
theorem lost_fd_stays_lost (fd_sk : Int) (s t : Sys) (a : Action) (c : Int)
    (hi : Inv fd_sk s) (hz : places s c = 0) (ho : s.opened c = true)
    (h : step fd_sk s a = some t) : places t c = 0 ∧ t.opened c = true := by
  obtain ⟨z1, z2, z3⟩ := (places_zero_iff s c).mp hz
  cases a with
  | select ready =>
    simp only [step] at h
    split at h
    · obtain rfl := Option.some.inj h
      exact ⟨(places_zero_iff _ c).mpr ⟨z1, z2, z3⟩, ho⟩
    · exact absurd h (by simp)
  | scanPass =>
    simp only [step] at h
    split at h
    · obtain rfl := Option.some.inj h
      exact ⟨(places_zero_iff _ c).mpr ⟨z1, z2, z3⟩, ho⟩
    · exact absurd h (by simp)
  | scanAccept fd_c =>
    simp only [step] at h
    split at h
    · rename_i hc
      obtain ⟨_, _, _, hop, _, _⟩ := hc
      obtain rfl := Option.some.inj h
      have hne : c ≠ fd_c := by
        intro e; rw [e, hop] at ho; exact absurd ho (by decide)
      refine ⟨(places_zero_iff _ c).mpr ⟨?_, z2, z3⟩, ?_⟩
      · simp only [Function.update, hne, dite_false]; exact z1
      · simp only [Function.update, hne, dite_false]; exact ho
    · exact absurd h (by simp)
  | scanClient =>
    simp only [step] at h
    split at h
    · split at h
      · rename_i hr
        obtain rfl := Option.some.inj h
        have hset : s.set s.fd = true := hi.pending s.fd (le_refl _) hr
        have hne : c ≠ s.fd := by
          intro e; rw [e, hset] at z1; exact absurd z1 (by decide)
        refine ⟨(places_zero_iff _ c).mpr ⟨?_, ?_, z3⟩, ho⟩
        · simp only [Function.update, hne, dite_false]; exact z1
        · simp only
          by_cases hf : isFull s.coda = true
          · rw [enQueue_full s.coda s.fd hf]; exact z2
          · have hf2 : isFull s.coda = false := by simpa using hf
            rw [(enQueue_not_full s.coda s.fd hi.wf hf2).2.2, List.mem_append]
            simp only [List.mem_singleton, not_or]
            exact ⟨z2, hne⟩
      · obtain rfl := Option.some.inj h
        exact ⟨(places_zero_iff _ c).mpr ⟨z1, z2, z3⟩, ho⟩
    · exact absurd h (by simp)
  | dequeue w =>
    simp only [step] at h
    split at h
    · rename_i coda client hh hd
      obtain rfl := Option.some.inj h
      obtain ⟨hcont, _⟩ := deQueue_spec s.coda coda client hi.wf
        (fun x hx => (ne_killthread_of_range x (hi.rangeQ x hx)).1) hd
      have hne : c ≠ client := by
        intro e; apply z2; rw [hcont, e]; exact List.mem_cons_self _ _
      refine ⟨(places_zero_iff _ c).mpr ⟨z1, ?_, ?_⟩, ho⟩
      · intro hm; apply z2; rw [hcont]; exact List.mem_cons_of_mem _ hm
      · simp only
        split
        · exact z3
        · intro hm
          rcases mem_set_hands s.hands w (some client) (some c) hm with e | e
          · exact hne (Option.some.inj e)
          · exact z3 e
    · exact absurd h (by simp)
  | serveOk w =>
    simp only [step] at h
    split at h
    · rename_i client hh
      obtain rfl := Option.some.inj h
      have hmem : some client ∈ s.hands := mem_of_get?_hands s.hands w (some client) hh
      have hne : c ≠ client := by
        intro e; rw [e] at z3; exact z3 hmem
      refine ⟨(places_zero_iff _ c).mpr ⟨?_, z2, ?_⟩, ho⟩
      · simp only [Function.update, hne, dite_false]; exact z1
      · intro hm
        rcases mem_set_hands s.hands w none (some c) hm with e | e
        · exact absurd e (by simp)
        · exact z3 e
    · exact absurd h (by simp)
  | serveClose w =>
    simp only [step] at h
    split at h
    · rename_i client hh
      obtain rfl := Option.some.inj h
      have hmem : some client ∈ s.hands := mem_of_get?_hands s.hands w (some client) hh
      have hne : c ≠ client := by
        intro e; rw [e] at z3; exact z3 hmem
      refine ⟨(places_zero_iff _ c).mpr ⟨z1, z2, ?_⟩, ?_⟩
      · intro hm
        rcases mem_set_hands s.hands w none (some c) hm with e | e
        · exact absurd e (by simp)
        · exact z3 e
      · simp only [Function.update, hne, dite_false]; exact ho
    · exact absurd h (by simp)

/-- C15 (code at the failing input): listener 3, work queue of dimension 1,
one worker that has not been scheduled yet.  Two connections are accepted, on
descriptors 4 and 5.  A scan finds 4 ready: it is cleared from the readiness
set and enqueued.  The next scan finds 5 ready: it is cleared from the
readiness set and handed to enQueue, which rejects it because the queue is
full.  Descriptor 5 is then open but neither in the readiness set, nor in the
queue, nor held by a worker, and no later step puts it back. -/
theorem C15_ready_fd_dropped_when_queue_full :
    (run 3 (initSys 3 1 1 (fun c => decide (c < 3)))
      [.select (fun _ => true), .scanClient, .scanClient, .scanClient, .scanAccept 4, .scanClient,
       .select (fun _ => true), .scanClient, .scanClient, .scanClient, .scanAccept 5,
         .scanClient, .scanClient,
       .select (fun _ => true), .scanClient, .scanClient, .scanClient, .scanPass,
         .scanClient, .scanClient]).map
        (fun s => (s.opened 5, s.set 5, s.coda.contents, s.hands, places s 5))
      = some (true, false, [4], [none], 0) := by
  rfl

/-! ## Theorems: request engine, REGISTER, DISCONNECT and the size checks -/

/-- C16 (code at the failing input): "a" is registered and online on
descriptor 5; a REGISTER request with sender "b", who is not registered,
arrives on the same descriptor.  executeReq replies OP_NICK_ALREADY with no
data block and counts an error, the counters users and online stay at 1, yet
the registry has changed: "b" has a record bound to descriptor 5 and
usersOnline is 2. -/
theorem C16_register_on_used_fd :
    icl_hash_find (registerUser (createUsersStruct 10 4) "a" 5).1.users "b" = none ∧
    (executeReq_REGISTER_OP (fun _ => true) 5 ⟨op_t.REGISTER_OP, "b", "", 0, []⟩
        ⟨(registerUser (createUsersStruct 10 4) "a" 5).1, ⟨1, 1, 0, 0, 0, 0, 0⟩, []⟩).1.out
      = [⟨5, Wire.hdr (some op_t.OP_NICK_ALREADY) "", true⟩] ∧
    (executeReq_REGISTER_OP (fun _ => true) 5 ⟨op_t.REGISTER_OP, "b", "", 0, []⟩
        ⟨(registerUser (createUsersStruct 10 4) "a" 5).1, ⟨1, 1, 0, 0, 0, 0, 0⟩, []⟩).1.chattyStats
      = ⟨1, 1, 0, 0, 0, 0, 1⟩ ∧
    ((icl_hash_find (executeReq_REGISTER_OP (fun _ => true) 5 ⟨op_t.REGISTER_OP, "b", "", 0, []⟩
        ⟨(registerUser (createUsersStruct 10 4) "a" 5).1, ⟨1, 1, 0, 0, 0, 0, 0⟩, []⟩).1.usr.users
        "b").map user_data_t.fd = some 5) ∧
    (executeReq_REGISTER_OP (fun _ => true) 5 ⟨op_t.REGISTER_OP, "b", "", 0, []⟩
        ⟨(registerUser (createUsersStruct 10 4) "a" 5).1, ⟨1, 1, 0, 0, 0, 0, 0⟩, []⟩).1.usr.usersOnline
      = 2 := by
  decide

/-- C17 (code at the failing input): "a" is registered and online on
descriptor 5 and sends a DISCONNECT request on that descriptor.  executeReq
replies OP_NICK_UNKNOWN and counts an error; the counter online stays at 1 and
the fd map still sends 5 to "a", although the record of "a" has been marked
offline and usersOnline decremented. -/
theorem C17_disconnect_request_answered_unknown :
    (executeReq_DISCONNECT_OP (fun _ => true) 5 ⟨op_t.DISCONNECT_OP, "a", "", 0, []⟩
        ⟨(registerUser (createUsersStruct 10 4) "a" 5).1, ⟨1, 1, 0, 0, 0, 0, 0⟩, []⟩).1.out
      = [⟨5, Wire.hdr (some op_t.OP_NICK_UNKNOWN) "", true⟩] ∧
    (executeReq_DISCONNECT_OP (fun _ => true) 5 ⟨op_t.DISCONNECT_OP, "a", "", 0, []⟩
        ⟨(registerUser (createUsersStruct 10 4) "a" 5).1, ⟨1, 1, 0, 0, 0, 0, 0⟩, []⟩).1.chattyStats
      = ⟨1, 1, 0, 0, 0, 0, 1⟩ ∧
    icl_hash_find (executeReq_DISCONNECT_OP (fun _ => true) 5 ⟨op_t.DISCONNECT_OP, "a", "", 0, []⟩
        ⟨(registerUser (createUsersStruct 10 4) "a" 5).1, ⟨1, 1, 0, 0, 0, 0, 0⟩, []⟩).1.usr.fdusr 5
      = some "a" ∧
    ((icl_hash_find (executeReq_DISCONNECT_OP (fun _ => true) 5
        ⟨op_t.DISCONNECT_OP, "a", "", 0, []⟩
        ⟨(registerUser (createUsersStruct 10 4) "a" 5).1, ⟨1, 1, 0, 0, 0, 0, 0⟩, []⟩).1.usr.users
        "a").map user_data_t.fd = some OFFLINE) ∧
    (executeReq_DISCONNECT_OP (fun _ => true) 5 ⟨op_t.DISCONNECT_OP, "a", "", 0, []⟩
        ⟨(registerUser (createUsersStruct 10 4) "a" 5).1, ⟨1, 1, 0, 0, 0, 0, 0⟩, []⟩).1.usr.usersOnline
      = 0 := by
  decide

/-- C18 (code at the failing input): MaxMsgSize is 100 and a POSTTXT request
for the registered, offline user "b" announces a payload of 2147483648 bytes.
The length becomes the int -2147483648, the test len > MaxMsgSize fails, and
executeReq replies OP_OK, counts no error and pushes the message into the
history of "b".  (A payload of 101 bytes is answered OP_MSG_TOOLONG.) -/
theorem C18_posttxt_huge_length_accepted :
    (executeReq_POSTTXT_OP ⟨"sock", 8, 2, 100, 10, 10, "dir", "stats"⟩ (fun _ => true) 5
        ⟨op_t.POSTTXT_OP, "a", "b", 2147483648, [104]⟩
        ⟨(disconnectUser (registerUser (createUsersStruct 10 4) "b" 6).1 none 6).1,
          ⟨1, 0, 0, 0, 0, 0, 0⟩, []⟩).1.out
      = [⟨5, Wire.hdr (some op_t.OP_OK) "", true⟩] ∧
    (executeReq_POSTTXT_OP ⟨"sock", 8, 2, 100, 10, 10, "dir", "stats"⟩ (fun _ => true) 5
        ⟨op_t.POSTTXT_OP, "a", "b", 2147483648, [104]⟩
        ⟨(disconnectUser (registerUser (createUsersStruct 10 4) "b" 6).1 none 6).1,
          ⟨1, 0, 0, 0, 0, 0, 0⟩, []⟩).1.chattyStats
      = ⟨1, 0, 0, 1, 0, 0, 0⟩ ∧
    ((icl_hash_find (executeReq_POSTTXT_OP ⟨"sock", 8, 2, 100, 10, 10, "dir", "stats"⟩
        (fun _ => true) 5 ⟨op_t.POSTTXT_OP, "a", "b", 2147483648, [104]⟩
        ⟨(disconnectUser (registerUser (createUsersStruct 10 4) "b" 6).1 none 6).1,
          ⟨1, 0, 0, 0, 0, 0, 0⟩, []⟩).1.usr.users "b").map (fun u => u.msgq.nodes.length)
      = some 1) ∧
    (executeReq_POSTTXT_OP ⟨"sock", 8, 2, 100, 10, 10, "dir", "stats"⟩ (fun _ => true) 5
        ⟨op_t.POSTTXT_OP, "a", "b", 101, [104]⟩
        ⟨(disconnectUser (registerUser (createUsersStruct 10 4) "b" 6).1 none 6).1,
          ⟨1, 0, 0, 0, 0, 0, 0⟩, []⟩).1.out
      = [⟨5, Wire.hdr (some op_t.OP_MSG_TOOLONG) "", true⟩] := by
  decide

/-- C19 (code at the failing input): MaxFileSize is 1 (KiB).  A POSTFILE
whose file block is 1024 bytes long passes the size check, and so do blocks of
1025 and of 2047 bytes, since 1025 / 1024 and 2047 / 1024 are 1 in the integer
division of C: the reply is OP_OK and no error is counted.  Only from 2048
bytes on is the reply OP_MSG_TOOLONG. -/
theorem C19_postfile_one_byte_more_accepted :
    (executeReq_POSTFILE_OP ⟨"sock", 8, 2, 100, 1, 10, "dir", "stats"⟩ (fun _ => true)
        ⟨1024, [], fun _ => true, true⟩ 5
        ⟨op_t.POSTFILE_OP, "a", "b", 6, [120, 46, 116, 120, 116, 0]⟩
        ⟨(disconnectUser (registerUser (createUsersStruct 10 4) "b" 6).1 none 6).1,
          ⟨1, 0, 0, 0, 0, 0, 0⟩, []⟩).map (fun r => r.1.out)
      = some [⟨5, Wire.hdr (some op_t.OP_OK) "", true⟩] ∧
    (executeReq_POSTFILE_OP ⟨"sock", 8, 2, 100, 1, 10, "dir", "stats"⟩ (fun _ => true)
        ⟨1025, [], fun _ => true, true⟩ 5
        ⟨op_t.POSTFILE_OP, "a", "b", 6, [120, 46, 116, 120, 116, 0]⟩
        ⟨(disconnectUser (registerUser (createUsersStruct 10 4) "b" 6).1 none 6).1,
          ⟨1, 0, 0, 0, 0, 0, 0⟩, []⟩).map (fun r => r.1.out)
      = some [⟨5, Wire.hdr (some op_t.OP_OK) "", true⟩] ∧
    (executeReq_POSTFILE_OP ⟨"sock", 8, 2, 100, 1, 10, "dir", "stats"⟩ (fun _ => true)
        ⟨1025, [], fun _ => true, true⟩ 5
        ⟨op_t.POSTFILE_OP, "a", "b", 6, [120, 46, 116, 120, 116, 0]⟩
        ⟨(disconnectUser (registerUser (createUsersStruct 10 4) "b" 6).1 none 6).1,
          ⟨1, 0, 0, 0, 0, 0, 0⟩, []⟩).map (fun r => r.1.chattyStats)
      = some ⟨1, 0, 0, 0, 0, 1, 0⟩ ∧
    (executeReq_POSTFILE_OP ⟨"sock", 8, 2, 100, 1, 10, "dir", "stats"⟩ (fun _ => true)
        ⟨2047, [], fun _ => true, true⟩ 5
        ⟨op_t.POSTFILE_OP, "a", "b", 6, [120, 46, 116, 120, 116, 0]⟩
        ⟨(disconnectUser (registerUser (createUsersStruct 10 4) "b" 6).1 none 6).1,
          ⟨1, 0, 0, 0, 0, 0, 0⟩, []⟩).map (fun r => r.1.out)
      = some [⟨5, Wire.hdr (some op_t.OP_OK) "", true⟩] ∧
    (executeReq_POSTFILE_OP ⟨"sock", 8, 2, 100, 1, 10, "dir", "stats"⟩ (fun _ => true)
        ⟨2048, [], fun _ => true, true⟩ 5
        ⟨op_t.POSTFILE_OP, "a", "b", 6, [120, 46, 116, 120, 116, 0]⟩
        ⟨(disconnectUser (registerUser (createUsersStruct 10 4) "b" 6).1 none 6).1,
          ⟨1, 0, 0, 0, 0, 0, 0⟩, []⟩).map (fun r => r.1.out)
      = some [⟨5, Wire.hdr (some op_t.OP_MSG_TOOLONG) "", true⟩] := by
  decide

/-! ## Theorems: file paths -/

theorem strrchr_slash_none (s : List Nat) (h : strrchr_slash s = none) : 47 ∉ s := by
  induction s with
  | nil => simp
  | cons c t ih =>
    simp only [strrchr_slash] at h
    cases ht : strrchr_slash t with
    | some r => simp [ht] at h
    | none =>
      simp only [ht] at h
      have hc : ¬ c = 47 := by
        intro e; simp [e] at h
      simp only [List.mem_cons, not_or]
      exact ⟨fun e => hc e.symm, ih ht⟩

theorem strrchr_slash_some (s r : List Nat) (h : strrchr_slash s = some r) :
    47 ∉ r ∧ ∃ pre, s = pre ++ 47 :: r := by
  induction s with
  | nil => simp [strrchr_slash] at h
  | cons c t ih =>
    simp only [strrchr_slash] at h
    cases ht : strrchr_slash t with
    | some r2 =>
      simp only [ht, Option.some.injEq] at h
      subst h
      obtain ⟨h1, pre, h2⟩ := ih ht
      exact ⟨h1, c :: pre, by rw [h2]; rfl⟩
    | none =>
      simp only [ht] at h
      by_cases hc : c = 47
      · simp only [hc, if_true, Option.some.injEq] at h
        subst h
        exact ⟨strrchr_slash_none t ht, [], by rw [hc]; rfl⟩
      · simp [hc] at h

theorem specBasename_after (pre r : List Nat) (h : 47 ∉ r) :
    specBasename (pre ++ 47 :: r) = r := by
  unfold specBasename
  rw [List.reverse_append, List.reverse_cons, List.append_assoc,
    List.takeWhile_append_of_pos (by
      intro a ha
      have : a ∈ r := List.mem_reverse.mp ha
      simp only [decide_eq_true_eq]
      intro e; exact h (e ▸ this))]
  simp

theorem specBasename_whole (s : List Nat) (h : 47 ∉ s) : specBasename s = s := by
  unfold specBasename
  have : s.reverse.takeWhile (fun c => decide (c ≠ 47)) = s.reverse := by
    rw [List.takeWhile_eq_self_iff]
    intro a ha
    have : a ∈ s := List.mem_reverse.mp ha
    simp only [decide_eq_true_eq]
    intro e; exact h (e ▸ this)
  rw [this, List.reverse_reverse]

theorem specBasename_no_slash (s : List Nat) : 47 ∉ specBasename s := by
  unfold specBasename
  intro hm
  have h1 := List.mem_reverse.mp hm
  have h2 := List.mem_takeWhile_imp h1
  simp at h2

theorem bufString_some (msg : message_t) (name : List Nat) (h : bufString msg = some name) :
    msg.len ≠ 0 ∧ 0 ∈ msg.buf.take msg.len ∧ name = cstr (msg.buf.take msg.len) ∧
    name.length < msg.len ∧ 0 ∉ name := by
  unfold bufString at h
  by_cases h0 : msg.len = 0
  · simp [h0] at h
  · by_cases hz : 0 ∈ msg.buf.take msg.len
    · simp only [h0, if_false, hz, if_true, Option.some.injEq] at h
      have hnz : 0 ∉ name := by
        rw [← h]
        intro hm
        have := List.mem_takeWhile_imp hm
        simp at this
      have hlt : name.length < (msg.buf.take msg.len).length := by
        by_contra hge
        have hsub : (cstr (msg.buf.take msg.len)).Sublist (msg.buf.take msg.len) :=
          List.takeWhile_sublist _
        have heq : cstr (msg.buf.take msg.len) = msg.buf.take msg.len :=
          hsub.eq_of_length_le (by rw [h]; omega)
        rw [h] at heq
        exact hnz (heq ▸ hz)
      have hle : (msg.buf.take msg.len).length ≤ msg.len := by
        simp only [List.length_take]; omega
      exact ⟨h0, hz, h.symm, by omega, hnz⟩
    · simp [h0, hz] at h

/-- What the code does with a name buffer that holds a C string (len is not
0 and one of the len bytes is NUL): the path POSTFILE opens for writing is
DirName, "/", then the part of the name after its last '/', or the whole name
when it contains no '/', so the part after DirName and "/" contains no '/';
the path GETFILE opens is DirName, "/", then the name, unchanged. -/
theorem file_paths_of_string (DirName : String) (msg : message_t) (name : List Nat)
    (h : bufString msg = some name) :
    postfilePath DirName msg = some (bytesOf DirName ++ [47] ++ specBasename name) ∧
    47 ∉ specBasename name ∧
    (∀ pre b, name = pre ++ 47 :: b → 47 ∉ b → specBasename name = b) ∧
    (47 ∉ name → specBasename name = name) ∧
    getfilePath DirName msg = some (bytesOf DirName ++ [47] ++ name) := by
  obtain ⟨_, _, _, hlt, _⟩ := bufString_some msg name h
  refine ⟨?_, specBasename_no_slash _, ?_, specBasename_whole _, ?_⟩
  · simp only [postfilePath, h]
    cases hs : strrchr_slash name with
    | some r =>
      obtain ⟨h1, pre, h2⟩ := strrchr_slash_some _ r hs
      simp only
      rw [h2, specBasename_after pre r h1]
    | none =>
      have h1 := strrchr_slash_none _ hs
      simp only
      rw [specBasename_whole _ h1, List.take_of_length_le (by omega)]
  · intro pre b hn hb
    rw [hn]
    exact specBasename_after pre b hb
  · simp only [getfilePath, h]

/-- C20 (code at the failing input): a POSTFILE request whose name part has
length 0 leaves msg.data.buf NULL, and strrchr is called on it; a POSTFILE or
GETFILE request whose name "x.txt" is sent as its 5 characters, without a
closing NUL, leaves a block of 5 bytes, and strrchr and strlen read past it.
In both cases the C code has no defined behaviour and builds no path
DirName/b, for any DirName.  (When the same names are sent with their closing
NUL the paths are as claimed: "docs/x.txt" is stored as "dir/x.txt" and
GETFILE of "x.txt" opens "dir/x.txt".) -/
theorem C20_name_buffer_without_string :
    (∀ (DirName : String) (msg : message_t), msg.len = 0 →
      postfilePath DirName msg = none ∧ getfilePath DirName msg = none) ∧
    (∀ (DirName : String) (msg : message_t), 0 ∉ msg.buf.take msg.len →
      postfilePath DirName msg = none ∧ getfilePath DirName msg = none) ∧
    executeReq ⟨"sock", 8, 2, 100, 10, 10, "dir", "stats"⟩ (fun _ => true)
        ⟨⟨3, [1, 2, 3], fun _ => true, true⟩, ⟨fun _ => true, true, 0, true, []⟩, fun _ => 0⟩ 5
        ⟨op_t.POSTFILE_OP, "a", "a", 0, []⟩
        ⟨(registerUser (createUsersStruct 10 4) "a" 5).1, ⟨1, 1, 0, 0, 0, 0, 0⟩, []⟩ = none ∧
    executeReq ⟨"sock", 8, 2, 100, 10, 10, "dir", "stats"⟩ (fun _ => true)
        ⟨⟨3, [1, 2, 3], fun _ => true, true⟩, ⟨fun _ => true, true, 0, true, []⟩, fun _ => 0⟩ 5
        ⟨op_t.POSTFILE_OP, "a", "a", 5, [120, 46, 116, 120, 116]⟩
        ⟨(registerUser (createUsersStruct 10 4) "a" 5).1, ⟨1, 1, 0, 0, 0, 0, 0⟩, []⟩ = none ∧
    executeReq ⟨"sock", 8, 2, 100, 10, 10, "dir", "stats"⟩ (fun _ => true)
        ⟨⟨3, [1, 2, 3], fun _ => true, true⟩, ⟨fun _ => true, true, 0, true, []⟩, fun _ => 0⟩ 5
        ⟨op_t.GETFILE_OP, "a", "", 5, [120, 46, 116, 120, 116]⟩
        ⟨(registerUser (createUsersStruct 10 4) "a" 5).1, ⟨1, 1, 0, 0, 0, 0, 0⟩, []⟩ = none ∧
    postfilePath "dir" ⟨op_t.POSTFILE_OP, "a", "b", 11,
        [100, 111, 99, 115, 47, 120, 46, 116, 120, 116, 0]⟩
      = some [100, 105, 114, 47, 120, 46, 116, 120, 116] ∧
    getfilePath "dir" ⟨op_t.GETFILE_OP, "b", "", 6, [120, 46, 116, 120, 116, 0]⟩
      = some [100, 105, 114, 47, 120, 46, 116, 120, 116] := by
  refine ⟨?_, ?_, by decide, by decide, by decide, by decide, by decide⟩
  · intro DirName msg h0
    simp [postfilePath, getfilePath, bufString, h0]
  · intro DirName msg hz
    simp [postfilePath, getfilePath, bufString, hz]

/-! ## Theorems: one history entry per accepted message -/

theorem pushMsgQueue_one_copy (q : msgqueue_t) (m : message_t) :
    ∃ k, k ≤ 1 ∧ (pushMsgQueue q m).1.nodes = (q.nodes ++ [createMsgNode m]).drop k := by
  rcases q with ⟨size, dim_max, nodes⟩
  cases nodes with
  | nil => exact ⟨0, by omega, by simp [pushMsgQueue]⟩
  | cons a t =>
    simp only [pushMsgQueue]
    split
    · exact ⟨0, by omega, rfl⟩
    · split
      · exact ⟨1, le_refl 1, by simp⟩
      · exact ⟨0, by omega, rfl⟩

theorem sendReply_usr (io : Nat → Bool) (fd : Int) (reply : Option op_t) (s : Server) :
    (sendReply io fd reply s).1.usr = s.usr := by
  rw [sendReply_eq]

theorem sendRequest_usr (io : Nat → Bool) (fd : Int) (m : message_t) (s : Server) :
    (sendRequest io fd m s).1.usr = s.usr := by
  rw [sendRequest_eq]
  split <;> rfl

theorem getUserFD_range (tab : users_struct_t) (nick : String) (u : user_data_t)
    (hu : icl_hash_find tab.users nick = some u)
    (hfd : u.fd = OFFLINE ∨ (0 < u.fd ∧ u.fd < 2 ^ 31)) :
    getUserFD tab nick ≥ 0 := by
  rw [getUserFD_of_find tab nick u hu]
  rcases hfd with h | ⟨h1, h2⟩
  · simp [h]
  · have hon : u.fd ≠ OFFLINE := by unfold OFFLINE; omega
    rw [if_pos hon, toInt32_of_lt _ h2]
    omega

theorem executeReq_POSTTXT_OP_usr (config : conf_var) (io : Nat → Bool) (fd : Int)
    (msg : message_t) (s : Server) (u : user_data_t)
    (hsender : msg.sender ≠ "")
    (hlen : (msg.len : Int) ≤ config.MaxMsgSize)
    (hmax : config.MaxMsgSize < 2 ^ 31)
    (hu : icl_hash_find s.usr.users msg.receiver = some u)
    (hfd : u.fd = OFFLINE ∨ (0 < u.fd ∧ u.fd < 2 ^ 31)) :
    (executeReq_POSTTXT_OP config io fd msg s).1.usr
      = (postOnHistory s.usr { msg with op := op_t.TXT_MESSAGE }).1 := by
  have hl : msg.len < 2 ^ 31 := by
    have : (msg.len : Int) < 2 ^ 31 := lt_of_le_of_lt hlen hmax
    exact_mod_cast this
  have hnot : ¬ (toInt32 msg.len > config.MaxMsgSize) := by
    rw [toInt32_of_lt _ hl]; omega
  have hpost := postOnHistory_of_find s.usr { msg with op := op_t.TXT_MESSAGE } u hu
  have hge := getUserFD_range s.usr msg.receiver u hu hfd
  simp only [executeReq_POSTTXT_OP, hsender, if_false, hnot, hge, if_true, hpost]
  split
  · split <;> simp [sendReply_usr, sendRequest_usr]
  · simp [sendReply_usr]

theorem executeReq_POSTFILE_OP_usr (config : conf_var) (io : Nat → Bool) (env : FileEnv)
    (fd : Int) (msg : message_t) (s : Server) (u : user_data_t) (filep : List Nat)
    (hsender : msg.sender ≠ "")
    (hsize : Int.tdiv (toInt32 env.block_len) 1024 ≤ config.MaxFileSize)
    (hname : postfilePath config.DirName msg = some filep)
    (hopen : env.fopenOk filep = true)
    (hwrite : env.fwriteOk = true)
    (hu : icl_hash_find s.usr.users msg.receiver = some u)
    (hfd : u.fd = OFFLINE ∨ (0 < u.fd ∧ u.fd < 2 ^ 31)) :
    ∃ r, executeReq_POSTFILE_OP config io env fd msg s = some r ∧
      r.1.usr = (postOnHistory s.usr { msg with op := op_t.FILE_MESSAGE }).1 ∧
      r.1.out.getLast?
        = some ⟨fd, Wire.hdr (some op_t.OP_OK) "", io (r.1.out.length - 1)⟩ := by
  have hnot : ¬ (Int.tdiv (toInt32 env.block_len) 1024 > config.MaxFileSize) := by omega
  have hpost := postOnHistory_of_find s.usr { msg with op := op_t.FILE_MESSAGE } u hu
  have hge := getUserFD_range s.usr msg.receiver u hu hfd
  simp only [executeReq_POSTFILE_OP, hsender, if_false, hnot, hname, Option.map_some', hopen,
    hwrite, hge, if_true, hpost, Bool.not_true, Bool.false_eq_true]
  refine ⟨_, rfl, ?_⟩
  split
  · split <;> simp [sendReply_eq, sendRequest_eq] <;> split <;> simp
  · simp [sendReply_eq]

theorem postOnHistoryAll_loop_spec (msg : message_t) (l : List (String × user_data_t))
    (ret : Int) (fail : Bool) :
    (∀ nick, icl_hash_find (postOnHistoryAll_loop msg l ret fail).1 nick
      = (icl_hash_find l nick).map (fun v =>
          if v.name ≠ msg.sender then { v with msgq := (pushMsgQueue v.msgq msg).1 } else v)) ∧
    (postOnHistoryAll_loop msg l ret fail).2
      = (ret + ((l.filter (fun e => decide (e.2.name ≠ msg.sender))).length : Int), fail) := by
  induction l generalizing ret fail with
  | nil => exact ⟨fun _ => rfl, by simp [postOnHistoryAll_loop]⟩
  | cons e t ih =>
    obtain ⟨k, v⟩ := e
    by_cases hn : v.name ≠ msg.sender
    · obtain ⟨i1, i2⟩ := ih (ret + 1) fail
      have hloop : postOnHistoryAll_loop msg ((k, v) :: t) ret fail
          = ((k, { v with msgq := (pushMsgQueue v.msgq msg).1 })
              :: (postOnHistoryAll_loop msg t (ret + 1) fail).1,
             (postOnHistoryAll_loop msg t (ret + 1) fail).2) := by
        simp [postOnHistoryAll_loop, hn, pushMsgQueue_ret]
      rw [hloop]
      constructor
      · intro nick
        by_cases hk : k = nick
        · simp [icl_hash_find, hk, hn]
        · simp only [icl_hash_find, hk, if_false]
          exact i1 nick
      · rw [i2]
        have hd : decide (v.name ≠ msg.sender) = true := decide_eq_true hn
        simp only [List.filter_cons, hd, if_true, List.length_cons, Nat.cast_add,
          Nat.cast_one, Prod.mk.injEq, and_true]
        omega
    · obtain ⟨i1, i2⟩ := ih ret fail
      have hloop : postOnHistoryAll_loop msg ((k, v) :: t) ret fail
          = ((k, v) :: (postOnHistoryAll_loop msg t ret fail).1,
             (postOnHistoryAll_loop msg t ret fail).2) := by
        simp [postOnHistoryAll_loop, hn]
      rw [hloop]
      constructor
      · intro nick
        have he : v.name = msg.sender := not_not.mp hn
        by_cases hk : k = nick
        · simp [icl_hash_find, hk, he]
        · simp only [icl_hash_find, hk, if_false]
          exact i1 nick
      · rw [i2]
        have he : v.name = msg.sender := not_not.mp hn
        simp [List.filter_cons, he]

theorem sendRequest_all (io : Nat → Bool) (hio : ∀ n, io n = true) (fd : Int) (m : message_t)
    (s : Server) :
    sendRequest io fd m s
      = ({ s with out := s.out ++ [⟨fd, Wire.hdr (some m.op) m.sender, true⟩,
            ⟨fd, Wire.data m.receiver m.len m.buf, true⟩] }, 1) := by
  rw [sendRequest_eq]
  simp [hio]

theorem sendHistory_all (io : Nat → Bool) (hio : ∀ n, io n = true) (fd : Int)
    (ms : List message_t) (s : Server) :
    sendHistory io fd ms s
      = ({ s with out := s.out ++ ms.flatMap (fun h =>
            [⟨fd, Wire.hdr (some h.op) h.sender, true⟩,
             ⟨fd, Wire.data h.receiver h.len h.buf, true⟩]) }, 0) := by
  induction ms generalizing s with
  | nil => simp [sendHistory]
  | cons m t ih =>
    simp only [sendHistory]
    rw [sendRequest_all io hio]
    simp only [show ¬ ((1 : Int) ≤ 0) by decide, if_false]
    rw [ih]
    simp [List.flatMap_cons, List.append_assoc]

theorem takeWhile_append_zeros (s : List Nat) (k : Nat) (hs : ∀ c ∈ s, c ≠ 0) :
    (s ++ List.replicate k 0).takeWhile (fun c => decide (c ≠ 0)) = s := by
  induction s with
  | nil =>
    cases k with
    | zero => rfl
    | succ k => simp [List.replicate_succ, List.takeWhile_cons]
  | cons a t ih =>
    have ha : a ≠ 0 := hs a (List.mem_cons_self a t)
    simp only [List.cons_append, List.takeWhile_cons, ha, ne_eq, not_false_eq_true,
      decide_True, if_true]
    rw [ih (fun c hc => hs c (List.mem_cons_of_mem a hc))]

theorem strncpy_idem (b : List Nat) (n : Nat) : strncpy (strncpy b n) n = strncpy b n := by
  have hs : ∀ c ∈ (b.takeWhile (fun c => decide (c ≠ 0))).take n, c ≠ 0 := by
    intro c hc
    have h1 := List.mem_takeWhile_imp (List.mem_of_mem_take hc)
    simpa using h1
  have hl : ((b.takeWhile (fun c => decide (c ≠ 0))).take n).length ≤ n := by
    simp only [List.length_take]; omega
  unfold strncpy
  simp only
  rw [takeWhile_append_zeros _ _ hs, List.take_of_length_le hl]

theorem createMsgNode_idem (m : message_t) : createMsgNode (createMsgNode m) = createMsgNode m := by
  simp only [createMsgNode, strncpy_idem]

theorem getHistory_copy (tab : users_struct_t) (nick : String) (u : user_data_t)
    (hu : icl_hash_find tab.users nick = some u)
    (hsize : u.msgq.size = u.msgq.nodes.length) (h31 : u.msgq.size < 2 ^ 31) :
    ∃ q, getHistory tab nick = some q ∧ q.size = u.msgq.nodes.length ∧
      q.nodes = u.msgq.nodes.map createMsgNode := by
  obtain ⟨f1, f2, f3, f4⟩ := createMsgQueue_fresh (toInt32 u.msgq.size)
  obtain ⟨p1, p2, p3, p4⟩ := pushAll_nodes (createMsgQueue (toInt32 u.msgq.size)) u.msgq.nodes
    (by rw [f1, f2]; rfl) (by rw [f1]; exact Nat.zero_le _) (by omega)
  have hd : u.msgq.nodes.length ≤ (createMsgQueue (toInt32 u.msgq.size)).dim_max := by
    by_cases h0 : u.msgq.size = 0
    · omega
    · have ht : toInt32 u.msgq.size = (u.msgq.size : Int) := toInt32_of_lt _ h31
      have h1 : (1 : Int) ≤ toInt32 u.msgq.size := by rw [ht]; omega
      have := f4 h1
      rw [ht] at this
      omega
  refine ⟨pushAll (createMsgQueue (toInt32 u.msgq.size)) u.msgq.nodes, ?_, ?_, ?_⟩
  · simp [getHistory, hu]
  · rw [p2, p4, f2]
    simp only [List.nil_append, List.length_nil, Nat.zero_add, List.length_drop, List.length_map]
    omega
  · rw [p4, f2]
    have : 0 + u.msgq.nodes.length - (createMsgQueue (toInt32 u.msgq.size)).dim_max = 0 := by
      omega
    simp only [List.nil_append, List.length_nil, this, List.drop_zero]

/-- C22 (code at the failing input): errors is 0 before each request.  A
GETFILE request for a file that open cannot open is answered OP_NO_SUCH_FILE
and errors stays 0.  A GETPREVMSGS request of an unregistered sender is
answered OP_FAIL and errors stays 0, and so does a request with an unknown
operation code.  A GETFILE request for a path that opens but is no regular
file, with mmap failing on it, is answered OP_NO_SUCH_FILE twice and errors
becomes 2. -/
theorem C22_error_reply_not_counted :
    executeReq ⟨"sock", 8, 2, 100, 10, 10, "dir", "stats"⟩ (fun _ => true)
        ⟨⟨0, [], fun _ => true, true⟩, ⟨fun _ => false, false, 0, false, []⟩, fun _ => 0⟩ 5
        ⟨op_t.GETFILE_OP, "a", "", 6, [120, 46, 116, 120, 116, 0]⟩
        ⟨(registerUser (createUsersStruct 10 4) "a" 5).1, ⟨1, 1, 0, 0, 0, 0, 0⟩, []⟩
      = some (⟨(registerUser (createUsersStruct 10 4) "a" 5).1, ⟨1, 1, 0, 0, 0, 0, 0⟩,
          [⟨5, Wire.hdr (some op_t.OP_NO_SUCH_FILE) "", true⟩]⟩, 0) ∧
    executeReq ⟨"sock", 8, 2, 100, 10, 10, "dir", "stats"⟩ (fun _ => true)
        ⟨⟨0, [], fun _ => true, true⟩, ⟨fun _ => false, false, 0, false, []⟩, fun _ => 0⟩ 5
        ⟨op_t.GETPREVMSGS_OP, "zed", "", 0, []⟩
        ⟨(registerUser (createUsersStruct 10 4) "a" 5).1, ⟨1, 1, 0, 0, 0, 0, 0⟩, []⟩
      = some (⟨(registerUser (createUsersStruct 10 4) "a" 5).1, ⟨1, 1, 0, 0, 0, 0, 0⟩,
          [⟨5, Wire.hdr (some op_t.OP_FAIL) "", true⟩]⟩, 0) ∧
    executeReq ⟨"sock", 8, 2, 100, 10, 10, "dir", "stats"⟩ (fun _ => true)
        ⟨⟨0, [], fun _ => true, true⟩, ⟨fun _ => false, false, 0, false, []⟩, fun _ => 0⟩ 5
        ⟨op_t.OTHER 77, "a", "", 0, []⟩
        ⟨(registerUser (createUsersStruct 10 4) "a" 5).1, ⟨1, 1, 0, 0, 0, 0, 0⟩, []⟩
      = some (⟨(registerUser (createUsersStruct 10 4) "a" 5).1, ⟨1, 1, 0, 0, 0, 0, 0⟩,
          [⟨5, Wire.hdr (some op_t.OP_FAIL) "", true⟩]⟩, -1) ∧
    executeReq ⟨"sock", 8, 2, 100, 10, 10, "dir", "stats"⟩ (fun _ => true)
        ⟨⟨0, [], fun _ => true, true⟩, ⟨fun _ => true, false, 0, false, []⟩, fun _ => 0⟩ 5
        ⟨op_t.GETFILE_OP, "a", "", 2, [46, 0]⟩
        ⟨(registerUser (createUsersStruct 10 4) "a" 5).1, ⟨1, 1, 0, 0, 0, 0, 0⟩, []⟩
      = some (⟨(registerUser (createUsersStruct 10 4) "a" 5).1, ⟨1, 1, 0, 0, 0, 0, 2⟩,
          [⟨5, Wire.hdr (some op_t.OP_NO_SUCH_FILE) "", true⟩,
           ⟨5, Wire.hdr (some op_t.OP_NO_SUCH_FILE) "", true⟩]⟩, 0) := by
  decide

/-- C23 (code at the failing input): a GETFILE request for a path that opens
but is no regular file.  executeReq writes the header OP_NO_SUCH_FILE and goes
on to mmap: when mmap fails a second header OP_NO_SUCH_FILE is written; when
mmap succeeds the header OP_OK and a data block follow the header
OP_NO_SUCH_FILE.  And a POSTFILE request whose file cannot be opened for
writing, or cannot be written in full, gets no reply header at all. -/
theorem C23_getfile_two_reply_headers :
    (executeReq ⟨"sock", 8, 2, 100, 10, 10, "dir", "stats"⟩ (fun _ => true)
        ⟨⟨0, [], fun _ => true, true⟩, ⟨fun _ => true, false, 0, false, []⟩, fun _ => 0⟩ 5
        ⟨op_t.GETFILE_OP, "a", "", 2, [46, 0]⟩
        ⟨(registerUser (createUsersStruct 10 4) "a" 5).1, ⟨1, 1, 0, 0, 0, 0, 0⟩, []⟩).map (fun r => r.1.out)
      = some [⟨5, Wire.hdr (some op_t.OP_NO_SUCH_FILE) "", true⟩,
         ⟨5, Wire.hdr (some op_t.OP_NO_SUCH_FILE) "", true⟩] ∧
    (executeReq ⟨"sock", 8, 2, 100, 10, 10, "dir", "stats"⟩ (fun _ => true)
        ⟨⟨0, [], fun _ => true, true⟩, ⟨fun _ => true, false, 2, true, [7, 8]⟩, fun _ => 0⟩ 5
        ⟨op_t.GETFILE_OP, "a", "", 2, [46, 0]⟩
        ⟨(registerUser (createUsersStruct 10 4) "a" 5).1, ⟨1, 1, 0, 0, 0, 0, 0⟩, []⟩).map (fun r => r.1.out)
      = some [⟨5, Wire.hdr (some op_t.OP_NO_SUCH_FILE) "", true⟩,
         ⟨5, Wire.hdr (some op_t.OP_OK) "", true⟩,
         ⟨5, Wire.data "" 2 [7, 8], true⟩] ∧
    executeReq ⟨"sock", 8, 2, 100, 10, 10, "dir", "stats"⟩ (fun _ => true)
        ⟨⟨3, [1, 2, 3], fun _ => false, true⟩, ⟨fun _ => true, true, 0, true, []⟩, fun _ => 0⟩ 5
        ⟨op_t.POSTFILE_OP, "a", "a", 6, [120, 46, 116, 120, 116, 0]⟩
        ⟨(registerUser (createUsersStruct 10 4) "a" 5).1, ⟨1, 1, 0, 0, 0, 0, 0⟩, []⟩
      = some (⟨(registerUser (createUsersStruct 10 4) "a" 5).1, ⟨1, 1, 0, 0, 0, 0, 0⟩, []⟩, -1) ∧
    executeReq ⟨"sock", 8, 2, 100, 10, 10, "dir", "stats"⟩ (fun _ => true)
        ⟨⟨3, [1, 2, 3], fun _ => true, false⟩, ⟨fun _ => true, true, 0, true, []⟩, fun _ => 0⟩ 5
        ⟨op_t.POSTFILE_OP, "a", "a", 6, [120, 46, 116, 120, 116, 0]⟩
        ⟨(registerUser (createUsersStruct 10 4) "a" 5).1, ⟨1, 1, 0, 0, 0, 0, 0⟩, []⟩
      = some (⟨(registerUser (createUsersStruct 10 4) "a" 5).1, ⟨1, 1, 0, 0, 0, 0, 0⟩, []⟩, -1) := by
  decide

/-- C24 (code at the failing input): on a fresh server a client registers "a"
on descriptor 5 and then sends DISCONNECT.  The registry counts 0 users online
and no record is online, but chattyStats.nonline is still 1; it is still 1
after the client has closed the connection and the worker has run its implicit
disconnection, so with MaxConnections = 1 the dispatcher admits no further
connection.  Second run: "a" registers on descriptor 5 and a REGISTER for "b"
arrives on the same descriptor: nonline is 1 and usersOnline is 2. -/
theorem C24_online_counters_diverge :
    ((worker_turns ⟨"sock", 1, 2, 100, 10, 10, "dir", "stats"⟩ (fun _ => true)
        ⟨⟨0, [], fun _ => true, true⟩, ⟨fun _ => true, true, 0, true, []⟩, fun _ => 0⟩
        ⟨createUsersStruct 10 4, ⟨0, 0, 0, 0, 0, 0, 0⟩, []⟩
        [(5, some ⟨op_t.REGISTER_OP, "a", "", 0, []⟩),
         (5, some ⟨op_t.DISCONNECT_OP, "a", "", 0, []⟩)]).map
        (fun t => t.chattyStats.nonline) = some 1) ∧
    ((worker_turns ⟨"sock", 1, 2, 100, 10, 10, "dir", "stats"⟩ (fun _ => true)
        ⟨⟨0, [], fun _ => true, true⟩, ⟨fun _ => true, true, 0, true, []⟩, fun _ => 0⟩
        ⟨createUsersStruct 10 4, ⟨0, 0, 0, 0, 0, 0, 0⟩, []⟩
        [(5, some ⟨op_t.REGISTER_OP, "a", "", 0, []⟩),
         (5, some ⟨op_t.DISCONNECT_OP, "a", "", 0, []⟩)]).map
        (fun t => t.usr.usersOnline) = some 0) ∧
    ((worker_turns ⟨"sock", 1, 2, 100, 10, 10, "dir", "stats"⟩ (fun _ => true)
        ⟨⟨0, [], fun _ => true, true⟩, ⟨fun _ => true, true, 0, true, []⟩, fun _ => 0⟩
        ⟨createUsersStruct 10 4, ⟨0, 0, 0, 0, 0, 0, 0⟩, []⟩
        [(5, some ⟨op_t.REGISTER_OP, "a", "", 0, []⟩),
         (5, some ⟨op_t.DISCONNECT_OP, "a", "", 0, []⟩)]).map
        (fun t => onlineRecords t.usr) = some 0) ∧
    ((worker_turns ⟨"sock", 1, 2, 100, 10, 10, "dir", "stats"⟩ (fun _ => true)
        ⟨⟨0, [], fun _ => true, true⟩, ⟨fun _ => true, true, 0, true, []⟩, fun _ => 0⟩
        ⟨createUsersStruct 10 4, ⟨0, 0, 0, 0, 0, 0, 0⟩, []⟩
        [(5, some ⟨op_t.REGISTER_OP, "a", "", 0, []⟩),
         (5, some ⟨op_t.DISCONNECT_OP, "a", "", 0, []⟩),
         (5, none)]).map
        (fun t => t.chattyStats.nonline) = some 1) ∧
    ((worker_turns ⟨"sock", 1, 2, 100, 10, 10, "dir", "stats"⟩ (fun _ => true)
        ⟨⟨0, [], fun _ => true, true⟩, ⟨fun _ => true, true, 0, true, []⟩, fun _ => 0⟩
        ⟨createUsersStruct 10 4, ⟨0, 0, 0, 0, 0, 0, 0⟩, []⟩
        [(5, some ⟨op_t.REGISTER_OP, "a", "", 0, []⟩),
         (5, some ⟨op_t.DISCONNECT_OP, "a", "", 0, []⟩),
         (5, none)]).map
        (fun t => admits ⟨"sock", 1, 2, 100, 10, 10, "dir", "stats"⟩ t.chattyStats) = some false) ∧
    ((worker_turns ⟨"sock", 8, 2, 100, 10, 10, "dir", "stats"⟩ (fun _ => true)
        ⟨⟨0, [], fun _ => true, true⟩, ⟨fun _ => true, true, 0, true, []⟩, fun _ => 0⟩
        ⟨createUsersStruct 10 4, ⟨0, 0, 0, 0, 0, 0, 0⟩, []⟩
        [(5, some ⟨op_t.REGISTER_OP, "a", "", 0, []⟩),
         (5, some ⟨op_t.REGISTER_OP, "b", "", 0, []⟩)]).map
        (fun t => t.chattyStats.nonline) = some 1) ∧
    ((worker_turns ⟨"sock", 8, 2, 100, 10, 10, "dir", "stats"⟩ (fun _ => true)
        ⟨⟨0, [], fun _ => true, true⟩, ⟨fun _ => true, true, 0, true, []⟩, fun _ => 0⟩
        ⟨createUsersStruct 10 4, ⟨0, 0, 0, 0, 0, 0, 0⟩, []⟩
        [(5, some ⟨op_t.REGISTER_OP, "a", "", 0, []⟩),
         (5, some ⟨op_t.REGISTER_OP, "b", "", 0, []⟩)]).map
        (fun t => t.usr.usersOnline) = some 2) := by
  decide

/-- C25 (code at the failing input): "a" is online on descriptor 5 and "b" on
descriptor 6.  For the nickname "c", which is not registered, getAllUsersFD
writes two descriptors but returns 1 (and has allocated room for one int).
The same happens for "b" once "b" is offline: one descriptor is written and
the result is 0.  On a registry without users the result is -1. -/
theorem C25_getAllUsersFD_count_off_by_one :
    getAllUsersFD (registerUser (registerUser (createUsersStruct 10 4) "a" 5).1 "b" 6).1 "c"
      = ([6, 5], 1) ∧
    getAllUsersFD (disconnectUser
        (registerUser (registerUser (createUsersStruct 10 4) "a" 5).1 "b" 6).1 none 6).1 "b"
      = ([5], 0) ∧
    getAllUsersFD (createUsersStruct 10 4) "c" = ([], -1) ∧
    getAllUsersFD (registerUser (registerUser (createUsersStruct 10 4) "a" 5).1 "b" 6).1 "a"
      = ([6], 1) := by
  decide

/-- C30 (code at the failing input): "a" is registered on descriptor 5 and
registerUser is called for "b" with the same descriptor: the result is -1,
yet "b" now has a record bound to 5 and usersOnline went from 1 to 2.  And
with "a" online on 5 and "b" registered but offline, connectUser for "b" with
descriptor 5 returns -1, yet the record of "b" is now bound to 5 and
usersOnline went from 1 to 2. -/
theorem C30_failed_call_changes_registry :
    (registerUser (registerUser (createUsersStruct 10 4) "a" 5).1 "b" 5).2 = -1 ∧
    (registerUser (registerUser (createUsersStruct 10 4) "a" 5).1 "b" 5).1
      ≠ (registerUser (createUsersStruct 10 4) "a" 5).1 ∧
    icl_hash_find (registerUser (createUsersStruct 10 4) "a" 5).1.users "b" = none ∧
    ((icl_hash_find (registerUser (registerUser (createUsersStruct 10 4) "a" 5).1 "b" 5).1.users
        "b").map user_data_t.fd = some 5) ∧
    (registerUser (createUsersStruct 10 4) "a" 5).1.usersOnline = 1 ∧
    (registerUser (registerUser (createUsersStruct 10 4) "a" 5).1 "b" 5).1.usersOnline = 2 ∧
    (connectUser (disconnectUser
        (registerUser (registerUser (createUsersStruct 10 4) "a" 5).1 "b" 6).1 none 6).1
        "b" 5).2 = -1 ∧
    ((icl_hash_find (disconnectUser
        (registerUser (registerUser (createUsersStruct 10 4) "a" 5).1 "b" 6).1 none 6).1.users
        "b").map user_data_t.fd = some OFFLINE) ∧
    ((icl_hash_find (connectUser (disconnectUser
        (registerUser (registerUser (createUsersStruct 10 4) "a" 5).1 "b" 6).1 none 6).1
        "b" 5).1.users "b").map user_data_t.fd = some 5) ∧
    (disconnectUser
        (registerUser (registerUser (createUsersStruct 10 4) "a" 5).1 "b" 6).1 none 6).1.usersOnline
      = 1 ∧
    (connectUser (disconnectUser
        (registerUser (registerUser (createUsersStruct 10 4) "a" 5).1 "b" 6).1 none 6).1
        "b" 5).1.usersOnline = 2 := by
  decide

/-! ## Theorems: register, disconnect, connect -/

theorem disconnectUser_online (tab : users_struct_t) (nick : String) (fd : Nat)
    (u : user_data_t) (dnick : Option String)
    (hd : dnick = some nick ∨ (dnick = none ∧ icl_hash_find tab.fdusr fd = some nick))
    (hu : icl_hash_find tab.users nick = some u)
    (hon : u.fd ≠ OFFLINE) :
    disconnectUser tab dnick fd
      = ({ tab with users := icl_hash_modify tab.users nick (fun u => { u with fd := OFFLINE }),
                    fdusr := (icl_hash_delete tab.fdusr fd).1,
                    usersOnline := (tab.usersOnline + 2 ^ 32 - 1) % 2 ^ 32 },
          (icl_hash_delete tab.fdusr fd).2) := by
  rcases hd with h | ⟨h, h2⟩
  · subst h
    simp [disconnectUser, hu, hon]
  · subst h
    simp [disconnectUser, hu, hon, h2]

theorem connectUser_offline (tab : users_struct_t) (nick : String) (fd2 : Nat)
    (u : user_data_t)
    (hu : icl_hash_find tab.users nick = some u)
    (hoff : u.fd = OFFLINE) (hfd2 : icl_hash_find tab.fdusr fd2 = none) :
    connectUser tab nick fd2
      = ({ tab with users := icl_hash_modify tab.users nick (fun u => { u with fd := fd2 }),
                    fdusr := (fd2, u.name) :: tab.fdusr,
                    usersOnline := (tab.usersOnline + 1) % 2 ^ 32 }, 0) := by
  simp [connectUser, hu, hoff, icl_hash_insert, hfd2]

/-- C26: on a registry where nick has no record and the descriptors fd and fd2
are not in the fd map (fd being a descriptor, not the offline value),
registerUser(nick, fd) returns 0, then disconnectUser with the same fd, called
with the nickname or with NULL, returns 0, then connectUser(nick, fd2) returns
0, also when fd2 is fd.  Afterwards the record of nick is bound to fd2 and the
fd map sends fd2 to nick, the history of nick is the one the record had after
the register, usersOnline is what it was after the register, and the other
records are untouched. -/
theorem C26_register_disconnect_connect (tab : users_struct_t) (nick : String) (fd fd2 : Nat)
    (dnick : Option String)
    (hnew : icl_hash_find tab.users nick = none)
    (hfd : icl_hash_find tab.fdusr fd = none)
    (hfd2 : icl_hash_find tab.fdusr fd2 = none)
    (hon : fd ≠ OFFLINE)
    (hd : dnick = none ∨ dnick = some nick) :
    (registerUser tab nick fd).2 = 0 ∧
    (disconnectUser (registerUser tab nick fd).1 dnick fd).2 = 0 ∧
    (connectUser (disconnectUser (registerUser tab nick fd).1 dnick fd).1 nick fd2).2 = 0 ∧
    icl_hash_find
        (connectUser (disconnectUser (registerUser tab nick fd).1 dnick fd).1 nick fd2).1.users nick
      = (icl_hash_find (registerUser tab nick fd).1.users nick).map
          (fun u => { u with fd := fd2 }) ∧
    icl_hash_find (registerUser tab nick fd).1.users nick
      = some ⟨nick, fd, createMsgQueue (toInt32 tab.historysize)⟩ ∧
    icl_hash_find
        (connectUser (disconnectUser (registerUser tab nick fd).1 dnick fd).1 nick fd2).1.fdusr fd2
      = some nick ∧
    (connectUser (disconnectUser (registerUser tab nick fd).1 dnick fd).1 nick fd2).1.usersOnline
      = (registerUser tab nick fd).1.usersOnline ∧
    (∀ other, other ≠ nick →
      icl_hash_find
        (connectUser (disconnectUser (registerUser tab nick fd).1 dnick fd).1 nick fd2).1.users
        other = icl_hash_find tab.users other) := by
  have r1 : registerUser tab nick fd
      = ({ tab with
            users := (nick, ⟨nick, fd, createMsgQueue (toInt32 tab.historysize)⟩) :: tab.users,
            fdusr := (fd, nick) :: tab.fdusr,
            usersOnline := (tab.usersOnline + 1) % 2 ^ 32 }, 0) := by
    simp [registerUser, hnew, icl_hash_insert, hfd]
  have hfind1 : icl_hash_find (registerUser tab nick fd).1.users nick
      = some ⟨nick, fd, createMsgQueue (toInt32 tab.historysize)⟩ := by
    rw [r1]; simp [icl_hash_find]
  have hmap1 : icl_hash_find (registerUser tab nick fd).1.fdusr fd = some nick := by
    rw [r1]; simp [icl_hash_find]
  have hd2 : dnick = some nick ∨
      (dnick = none ∧ icl_hash_find (registerUser tab nick fd).1.fdusr fd = some nick) := by
    rcases hd with h | h
    · exact Or.inr ⟨h, hmap1⟩
    · exact Or.inl h
  have r2 := disconnectUser_online (registerUser tab nick fd).1 nick fd _ dnick hd2 hfind1 hon
  have hdel : icl_hash_delete (registerUser tab nick fd).1.fdusr fd = (tab.fdusr, 0) := by
    rw [r1]; simp [icl_hash_delete]
  rw [hdel] at r2
  have hmod : icl_hash_modify (registerUser tab nick fd).1.users nick
      (fun u => { u with fd := OFFLINE })
      = (nick, ⟨nick, OFFLINE, createMsgQueue (toInt32 tab.historysize)⟩) :: tab.users := by
    rw [r1]; simp [icl_hash_modify]
  rw [hmod] at r2
  have hfind2 : icl_hash_find (disconnectUser (registerUser tab nick fd).1 dnick fd).1.users nick
      = some ⟨nick, OFFLINE, createMsgQueue (toInt32 tab.historysize)⟩ := by
    rw [r2]; simp [icl_hash_find]
  have hfd2b : icl_hash_find (disconnectUser (registerUser tab nick fd).1 dnick fd).1.fdusr fd2
      = none := by
    rw [r2]; exact hfd2
  have r3 := connectUser_offline (disconnectUser (registerUser tab nick fd).1 dnick fd).1 nick fd2
    _ hfind2 rfl hfd2b
  have hmod3 : icl_hash_modify (disconnectUser (registerUser tab nick fd).1 dnick fd).1.users nick
      (fun u => { u with fd := fd2 })
      = (nick, ⟨nick, fd2, createMsgQueue (toInt32 tab.historysize)⟩) :: tab.users := by
    rw [r2]; simp [icl_hash_modify]
  rw [hmod3] at r3
  refine ⟨by rw [r1], by rw [r2], by rw [r3], ?_, hfind1, ?_, ?_, ?_⟩
  · rw [r3, hfind1]
    simp [icl_hash_find]
  · rw [r3]
    simp [icl_hash_find]
  · rw [r3, r2, r1]
    simp only
    omega
  · intro other hne
    have : ¬ nick = other := fun e => hne e.symm
    rw [r3]
    simp [icl_hash_find, this]

/-- C26 witness: on a fresh registry "a" registers on descriptor 5, is
disconnected by nickname, and connects again on the same descriptor 5. -/
theorem C26_register_disconnect_connect_witness :
    (connectUser (disconnectUser (registerUser (createUsersStruct 10 4) "a" 5).1 (some "a") 5).1
        "a" 5).2 = 0 ∧
    icl_hash_find (connectUser
        (disconnectUser (registerUser (createUsersStruct 10 4) "a" 5).1 (some "a") 5).1
        "a" 5).1.fdusr 5 = some "a" :=
  have h := C26_register_disconnect_connect (createUsersStruct 10 4) "a" 5 5 (some "a")
    (by decide) (by decide) (by decide) (by decide) (Or.inr rfl)
  ⟨h.2.2.1, h.2.2.2.2.2.1⟩

/-! ## Theorems: the wire codec at the level of bytes -/

theorem le_bytes_length (k n : Nat) : (le_bytes k n).length = k := by
  induction k generalizing n with
  | zero => rfl
  | succ k ih => simp [le_bytes, ih]

theorem of_le_le_bytes (k n : Nat) : Bytes.of_le (le_bytes k n) = n % 256 ^ k := by
  induction k generalizing n with
  | zero => simp [le_bytes, Bytes.of_le, Nat.mod_one]
  | succ k ih =>
    simp only [le_bytes, Bytes.of_le, ih]
    rw [pow_succ, Nat.mul_comm (256 ^ k) 256, Nat.mod_mul]

theorem field_length (a : List Nat) : (Bytes.field a).length = 33 := by
  simp [Bytes.field, MAX_NAME_LENGTH]

theorem field_of_length (a : List Nat) (h : a.length = 33) : Bytes.field a = a := by
  unfold Bytes.field MAX_NAME_LENGTH
  rw [List.take_append_of_le_length (by omega), List.take_of_length_le (by omega)]

theorem hdr_bytes_length (h : Bytes.message_hdr_t) : h.bytes.length = 40 := by
  simp [Bytes.message_hdr_t.bytes, le_bytes_length, field_length]

theorem data_hdr_bytes_length (h : Bytes.message_data_hdr_t) : h.bytes.length = 40 := by
  simp [Bytes.message_data_hdr_t.bytes, le_bytes_length, field_length]

theorem hdr_ofBytes_bytes (h : Bytes.message_hdr_t) (hop : h.op < 2 ^ 32)
    (hs : h.sender.length = 33) : Bytes.message_hdr_t.ofBytes h.bytes = h := by
  rcases h with ⟨op, sender⟩
  simp only at hop hs
  have h4 : (le_bytes 4 op).length = 4 := le_bytes_length 4 op
  simp only [Bytes.message_hdr_t.ofBytes, Bytes.message_hdr_t.bytes, field_of_length sender hs,
    MAX_NAME_LENGTH, List.append_assoc]
  rw [List.take_append_of_le_length (by omega), List.take_of_length_le (by omega),
    List.drop_append_of_le_length (by omega), List.drop_of_length_le (by omega),
    List.nil_append, List.take_append_of_le_length (by omega),
    List.take_of_length_le (by omega), of_le_le_bytes]
  have : op % 256 ^ 4 = op := Nat.mod_eq_of_lt (by norm_num; omega)
  rw [this]

theorem data_hdr_ofBytes_bytes (h : Bytes.message_data_hdr_t) (hlen : h.len < 2 ^ 32)
    (hr : h.receiver.length = 33) : Bytes.message_data_hdr_t.ofBytes h.bytes = h := by
  rcases h with ⟨receiver, len⟩
  simp only at hlen hr
  have h4 : (le_bytes 4 len).length = 4 := le_bytes_length 4 len
  simp only [Bytes.message_data_hdr_t.ofBytes, Bytes.message_data_hdr_t.bytes,
    field_of_length receiver hr, MAX_NAME_LENGTH, List.append_assoc]
  rw [List.take_append_of_le_length (by omega), List.take_of_length_le (by omega)]
  have hd : List.drop (32 + 1 + 3) (receiver ++ ([0, 0, 0] ++ le_bytes 4 len)) = le_bytes 4 len := by
    rw [← List.append_assoc]
    rw [List.drop_append_of_le_length (by simp; omega), List.drop_of_length_le (by simp; omega),
      List.nil_append]
  rw [hd, List.take_of_length_le (by omega), of_le_le_bytes]
  have : len % 256 ^ 4 = len := Nat.mod_eq_of_lt (by norm_num; omega)
  rw [this]

theorem writen_full (fuel : Nat) (out data : List Nat) :
    Bytes.writen (fuel + 2) ⟨out, []⟩ data = some ((data.length : Int), ⟨out ++ data, []⟩) := by
  cases data with
  | nil => simp [Bytes.writen, Bytes.writen_loop]
  | cons a t =>
    simp [Bytes.writen, Bytes.writen_loop, Bytes.write_call]

theorem write_buffer_full (fuel : Nat) (out data : List Nat) :
    Bytes.write_buffer (fuel + 2) ⟨out, []⟩ data = some (0, ⟨out ++ data, []⟩) := by
  cases data with
  | nil => simp [Bytes.write_buffer]
  | cons a t =>
    simp [Bytes.write_buffer, Bytes.write_call]

theorem readn_full (fuel : Nat) (input mem : List Nat) (n : Nat) (hin : n ≤ input.length)
    (hmem : mem.length = n) :
    Bytes.readn (fuel + 2) ⟨input, []⟩ mem n
      = some ((n : Int), input.take n, ⟨input.drop n, []⟩) := by
  by_cases h0 : n = 0
  · subst h0
    have : mem = [] := List.length_eq_zero.mp hmem
    simp [Bytes.readn, Bytes.readn_loop, this]
  · have hpos : n > 0 := by omega
    have hl : (input.take n).length = n := by simp [List.length_take]; omega
    have hne : ¬ (input.take n).length = 0 := by omega
    simp only [Bytes.readn, Bytes.readn_loop, hpos, if_true, Bytes.read_call, hl, h0, if_false,
      Nat.sub_self, gt_iff_lt, lt_self_iff_false, Bytes.store, List.take_zero, List.nil_append,
      Nat.zero_add, Nat.sub_zero]
    rw [List.drop_of_length_le (by omega), List.append_nil]

theorem read_buffer_full (fuel : Nat) (input mem : List Nat) (n : Nat) (hin : n ≤ input.length)
    (hmem : mem.length = n) :
    Bytes.read_buffer (fuel + 2) ⟨input, []⟩ mem n
      = some (0, input.take n, ⟨input.drop n, []⟩) := by
  by_cases h0 : n = 0
  · subst h0
    have : mem = [] := List.length_eq_zero.mp hmem
    simp [Bytes.read_buffer, this]
  · have hpos : n > 0 := by omega
    have hl : (input.take n).length = n := by simp [List.length_take]; omega
    simp only [Bytes.read_buffer, hpos, if_true, Bytes.read_call, hl,
      Nat.sub_self, gt_iff_lt, lt_self_iff_false, if_false, Bytes.store, List.take_zero,
      List.nil_append, Nat.zero_add]
    rw [List.drop_of_length_le (by omega), List.append_nil]

theorem read_buffer_eof (fuel : Nat) (input mem : List Nat) (len : Nat)
    (h : input.length < len) : Bytes.read_buffer fuel ⟨input, []⟩ mem len = none := by
  induction fuel generalizing input mem len with
  | zero => rfl
  | succ fuel ih =>
    have hpos : len > 0 := by omega
    have ht : input.take len = input := List.take_of_length_le (by omega)
    have hd : input.drop len = [] := List.drop_of_length_le (by omega)
    simp only [Bytes.read_buffer, hpos, if_true, Bytes.read_call, ht, hd]
    exact ih [] _ _ (by simp only [List.length_nil]; omega)

theorem readn_one (input mem : List Nat) (n : Nat) (hn : 0 < n) (hin : 0 < input.length) :
    Bytes.readn 1 ⟨input, []⟩ mem n = none := by
  have hl : ¬ (input.take n).length = 0 := by
    simp only [List.length_take]; omega
  simp only [Bytes.readn, Bytes.readn_loop, gt_iff_lt, hn, if_true, Bytes.read_call, hl,
    if_false]

theorem readMsg_payload_cut (fuel : Nat) (m : Bytes.message_t) (part : List Nat) (fd : Int)
    (old : Bytes.message_data_t) (fresh : List Nat)
    (hfd : 0 ≤ fd)
    (hr : m.data.hdr.receiver.length = 33)
    (hlen : m.data.hdr.len < 2 ^ 32)
    (hpart : part.length < m.data.hdr.len) :
    Bytes.readMsg fuel ⟨m.hdr.bytes ++ m.data.hdr.bytes ++ part, []⟩ fd old fresh = none := by
  have l1 := hdr_bytes_length m.hdr
  have l2 := data_hdr_bytes_length m.data.hdr
  have hnot : ¬ fd < 0 := by omega
  match fuel with
  | 0 => simp [Bytes.readMsg, Bytes.readHeader, hnot, Bytes.readn, Bytes.readn_loop]
  | 1 =>
    have := readn_one (m.hdr.bytes ++ m.data.hdr.bytes ++ part) (List.replicate 40 0) 40
      (by omega) (by simp only [List.length_append, l1]; omega)
    simp only [Bytes.readMsg, Bytes.readHeader, hnot, if_false, this]
  | k + 2 =>
    have e1 : (m.hdr.bytes ++ m.data.hdr.bytes ++ part).take 40 = m.hdr.bytes := by
      rw [List.append_assoc, List.take_append_of_le_length (by omega),
        List.take_of_length_le (by omega)]
    have e2 : (m.hdr.bytes ++ m.data.hdr.bytes ++ part).drop 40 = m.data.hdr.bytes ++ part := by
      rw [List.append_assoc, List.drop_append_of_le_length (by omega),
        List.drop_of_length_le (by omega), List.nil_append]
    have e3 : (m.data.hdr.bytes ++ part).take 40 = m.data.hdr.bytes := by
      rw [List.take_append_of_le_length (by omega), List.take_of_length_le (by omega)]
    have e4 : (m.data.hdr.bytes ++ part).drop 40 = part := by
      rw [List.drop_append_of_le_length (by omega), List.drop_of_length_le (by omega),
        List.nil_append]
    have rh := readn_full k (m.hdr.bytes ++ m.data.hdr.bytes ++ part)
      (List.replicate 40 0) 40 (by simp only [List.length_append, l1, l2]; omega) (by simp)
    rw [e1, e2] at rh
    have rd := readn_full k (m.data.hdr.bytes ++ part) old.hdr.bytes 40
      (by simp only [List.length_append, l2]; omega) (data_hdr_bytes_length old.hdr)
    rw [e3, e4] at rd
    have h0 : ¬ m.data.hdr.len = 0 := by omega
    simp only [Bytes.readMsg, Bytes.readHeader, hnot, if_false, rh, Bytes.readData, rd,
      data_hdr_ofBytes_bytes m.data.hdr hlen hr, h0,
      read_buffer_eof (k + 2) part _ m.data.hdr.len hpart]
    simp

/-- C28 (code at the failing input): the frame of the sample message
(operation code 2, sender "a", receiver "b", payload 104, 105) arrives on
descriptor 5.  When every read returns all it is asked for, readMsg returns 1
with the payload 104, 105.  When the payload arrives one byte per read, the
second byte is stored over the first (read_buffer passes to read the start of
the buffer each time): readMsg returns 1 with the payload 105 followed by
whatever the fresh buffer held (here 9).  When the peer closes after the first
payload byte, read returns 0 for ever and readMsg does not return, whatever
the number of turns allowed.  When the peer closes 10 bytes into the data
header, readMsg returns 1. -/
theorem C28_short_reads_of_the_payload :
    (Bytes.readMsg 4 ⟨Bytes.sampleFrame, []⟩ 5 ⟨⟨[], 0⟩, none⟩ [7, 9]
      = some (1, Bytes.sampleMsg, ⟨[], []⟩)) ∧
    (Bytes.readMsg 4 ⟨Bytes.sampleFrame, [.bytes 40, .bytes 40, .bytes 1, .bytes 1]⟩ 5
        ⟨⟨[], 0⟩, none⟩ [7, 9]
      = some (1, ⟨Bytes.sampleMsg.hdr, ⟨Bytes.sampleMsg.data.hdr, some [105, 9]⟩⟩, ⟨[], []⟩)) ∧
    (∀ fuel, Bytes.readMsg fuel ⟨Bytes.sampleFrame.take 81, []⟩ 5 ⟨⟨[], 0⟩, none⟩ [7, 9]
      = none) ∧
    ((Bytes.readMsg 4 ⟨Bytes.sampleFrame.take 50, []⟩ 5 ⟨⟨[], 0⟩, none⟩ [7, 9]).map
        (fun r => r.1) = some 1) := by
  refine ⟨by decide, by decide, ?_, by decide⟩
  intro fuel
  have e : Bytes.sampleFrame.take 81
      = Bytes.sampleMsg.hdr.bytes ++ Bytes.sampleMsg.data.hdr.bytes ++ [104] := by decide
  rw [e]
  exact readMsg_payload_cut fuel Bytes.sampleMsg [104] 5 ⟨⟨[], 0⟩, none⟩ [7, 9] (by decide)
    (by decide) (by decide) (by decide)

/-! ## Theorems: the configuration file -/

/-- C29 (code at the failing input): the file whose eight lines are
"U = sock", "MaxC = 8", "T = 2", "MaxM = 100", "MaxF = 1", "MaxH = 10",
"D = dir" and "S = stats" contains none of the eight key names, yet parse
returns a configuration, the same one it returns for the file that spells the
keys in full.  A line that starts with a blank, " = x", sets UnixPath: its key
is empty and strncmp with bound 0 reports equality.  Lines that start with '#'
or with a newline leave the state as it is. -/
theorem C29_parse_accepts_key_prefixes :
    parse ⟨"", 0, 0, 0, 0, 0, "", ""⟩ shortKeysFile []
      = some ⟨"sock", 8, 2, 100, 1, 10, "dir", "stats"⟩ ∧
    (∀ k, k ∈ keyNames → ∀ l, l ∈ shortKeysFile → occursIn (bytesOf k) l = false) ∧
    parse ⟨"", 0, 0, 0, 0, 0, "", ""⟩ fullKeysFile []
      = some ⟨"sock", 8, 2, 100, 1, 10, "dir", "stats"⟩ ∧
    parse_line ⟨⟨"", 0, 0, 0, 0, 0, "", ""⟩, [0, 0, 0, 0, 0, 0, 0, 0]⟩ (bytesOf " = x" ++ [10])
      = ⟨⟨"x", 0, 0, 0, 0, 0, "", ""⟩, [1, 0, 0, 0, 0, 0, 0, 0]⟩ ∧
    (∀ (st : ParseState) (rest : List Nat),
      parse_line st (35 :: rest) = st ∧ parse_line st (10 :: rest) = st) := by
  refine ⟨by decide, by decide, by decide, by decide, ?_⟩
  intro st rest
  constructor <;> simp [parse_line]

end Chatty
